import Mathlib

/-!
# Natron parameter engine: `Engine/KnobImpl.h`

A shallow embedding of the templated parameter class `Knob<T>` and of the
operations implemented in `Engine/KnobImpl.h`.

* `std::vector` is a `List`; a subscript outside the vector is the outcome
  `KnobError.outOfRange` (undefined behaviour in C++), a thrown
  `std::invalid_argument` is `KnobError.invalidArgument`.
* `std::map<ViewIdx, V>` is a key-sorted association list (`PerViewMap`).
* `int` is `Int`. Where the program can leave the 32-bit range it is followed
  there: the conversion of a `double` to `int` is checked (`doubleToIntChecked`,
  `podCast`; a value outside `int` is undefined behaviour, the outcome
  `KnobError.outOfRange`), and the `int` sum of an argument check is wrapped
  around (`intAdd`).
* `double` is modelled exactly as `ℚ`: rounding, infinities and NaN are not
  modelled.
* The members of `KnobHelper` (`Knob.h`, `Knob.cpp`) that `KnobImpl.h` calls are
  not part of the translated file; their state is kept in `KnobHelper` and
  their behaviour is modelled from the specification, which is said at each of
  them.
-/

namespace Natron

/-! ## Indices and errors -/

/-- View index `ViewIdx`; `ViewIdx(0)` is the main view. -/
abbrev ViewIdx := Nat

/-- Dimension index `DimIdx`, a plain `int` that callers may pass out of range. -/
abbrev DimIdx := Int

/-- Dimension argument `DimSpec`: one dimension, or the wildcard `DimSpec::all()`. -/
inductive DimSpec where
  | all
  | dim (i : DimIdx)
deriving DecidableEq, Repr

/-- View argument `ViewSetSpec`: one view, or the wildcard `ViewSetSpec::all()`. -/
inductive ViewSetSpec where
  | all
  | view (v : ViewIdx)
deriving DecidableEq, Repr

/-- The two ways an operation of the engine can fail. -/
inductive KnobError where
  /-- A `std::invalid_argument` exception was thrown. -/
  | invalidArgument
  /-- A vector was subscripted outside its bounds, or a `double` was converted to an `int`
  that cannot hold its integer part: the behaviour is undefined. -/
  | outOfRange
deriving DecidableEq, Repr

/-- Reason tag passed along the value-set path (`ValueChangedReasonEnum`). -/
inductive ValueChangedReasonEnum where
  | eValueChangedReasonUserEdited
  | eValueChangedReasonPluginEdited
  | eValueChangedReasonNatronInternalEdited
  | eValueChangedReasonTimeChanged
  | eValueChangedReasonRestoreDefault
deriving DecidableEq, Repr

/-- Notifications sent through `_signalSlotHandler` and calls that reach the owner
(`beginChanges()`, `endChanges()`, `evaluateValueChange(...)`,
`getHolder()->updateHasAnimation()`, `getHolder()->onKnobSlaved(...)`), the master of a link
(`QObject::disconnect(...)`, `removeListener(...)`) or the user interface
(`refreshAnimationLevel(...)`), in the order they are emitted. -/
inductive Signal where
  | s_minMaxChanged (dimension : DimSpec)
  | s_displayMinMaxChanged (dimension : DimSpec)
  | s_hasModificationsChanged
  | s_valueChanged (dimension : DimSpec) (view : ViewSetSpec) (reason : ValueChangedReasonEnum)
  | beginChanges
  | endChanges
  | evaluateValueChange (dimension : DimSpec) (time : ℚ) (view : ViewSetSpec)
      (reason : ValueChangedReasonEnum)
  | updateHasAnimation
  | disconnect (master : Nat)
  | s_knobSlaved (dimension : DimIdx) (view : ViewIdx) (slaved : Bool)
  | onKnobSlaved (masterDimension : DimIdx) (dimension : DimIdx) (slaved : Bool)
  | removeListener (master : Nat) (dimension : DimIdx)
  | refreshAnimationLevel (view : ViewIdx) (dimension : DimIdx)
deriving DecidableEq, Repr

/-! ## Vectors and loops -/

/-- Read `xs[i]` of a `std::vector` with an `int` subscript. -/
def vecGet {α : Type} (xs : List α) (i : Int) : Except KnobError α :=
  if i < 0 then .error .outOfRange
  else match xs[i.toNat]? with
    | some x => .ok x
    | none => .error .outOfRange

/-- Update in place `xs[i] = f xs[i]` of a `std::vector` with an `int` subscript. -/
def vecModify {α : Type} (xs : List α) (i : Int) (f : α → α) : Except KnobError (List α) :=
  if i < 0 then .error .outOfRange
  else match xs[i.toNat]? with
    | some x => .ok (xs.set i.toNat (f x))
    | none => .error .outOfRange

/-- The loop `for (int i = 0; i < n; ++i) body(i)` over a state `σ`. -/
def forLoop {σ : Type} (n : Nat) (body : Nat → σ → Except KnobError σ) (s : σ) :
    Except KnobError σ :=
  match n with
  | 0 => .ok s
  | m + 1 =>
    match forLoop m body s with
    | .ok s1 => body m s1
    | .error e => .error e

/-- Iteration `for (it = xs.begin(); it != xs.end(); ++it) body(*it)` over a `std::list`. -/
def forEach {α σ : Type} (xs : List α) (body : α → σ → Except KnobError σ) (s : σ) :
    Except KnobError σ :=
  match xs with
  | [] => .ok s
  | x :: rest =>
    match body x s with
    | .ok s1 => forEach rest body s1
    | .error e => .error e

/-! ## Per-view maps -/

/-- The map `std::map<ViewIdx, V>`, kept sorted by key. -/
abbrev PerViewMap (V : Type) := List (ViewIdx × V)

namespace PerViewMap

/-- Lookup `m.find(view)`: the mapped value, or `none` for `m.end()`. -/
def find {V : Type} (m : PerViewMap V) (view : ViewIdx) : Option V :=
  match m with
  | [] => none
  | (k, x) :: rest => if k = view then some x else find rest view

/-- Assignment `m[view] = x`: overwrites the entry of `view`, or adds one in key order. -/
def assign {V : Type} (m : PerViewMap V) (view : ViewIdx) (x : V) : PerViewMap V :=
  match m with
  | [] => [(view, x)]
  | (k, y) :: rest =>
    if view < k then (view, x) :: (k, y) :: rest
    else if k = view then (k, x) :: rest
    else (k, y) :: assign rest view x

/-- Removal `m.erase(m.find(view))` of the entry of `view`, when there is one. -/
def erase {V : Type} (m : PerViewMap V) (view : ViewIdx) : PerViewMap V :=
  match m with
  | [] => []
  | (k, y) :: rest => if k = view then rest else (k, y) :: erase rest view

end PerViewMap

/-! ## Value types -/

/-- What the engine needs of a value type `T` of `Knob<T>`: its value-initialised `T()`. -/
class KnobValue (T : Type) where
  /-- The value `T()`. -/
  zero : T
  /-- The bounds `(minimum, maximum)` that `initMinMax()` installs, `none` for the empty
  generic `initMinMax()`. -/
  initRange : Option (T × T)

/-- The plain-old-data value types `bool`, `int` and `double`. -/
class KnobPOD (T : Type) extends KnobValue T where
  /-- The conversion `(double)x`. -/
  toDouble : T → ℚ
  /-- The conversion of a `double` back to `T`. -/
  ofDouble : ℚ → T
  /-- Whether the conversion `(T)x` of the `double` `x` is defined: for `int`, whether the
  integer part of `x` is a value of `int`. -/
  fits : ℚ → Bool
  /-- Whether `Knob<T>` is `KnobDoubleBase`, which has template specialisations of its own. -/
  isDoubleBase : Bool

/-- The constant `DBL_MAX` of `<cfloat>`, `(2 - 2^-52) * 2^1023`. -/
def DBL_MAX : ℚ := (2 ^ 53 - 1) * 2 ^ 971

/-- The constant `INT_MAX` of `<climits>`. -/
def INT_MAX : Int := 2 ^ 31 - 1

/-- The constant `INT_MIN` of `<climits>`. -/
def INT_MIN : Int := -(2 ^ 31)

/-- The conversion of a `double` to `int`, truncation toward zero. -/
def doubleToInt (x : ℚ) : Int := if 0 ≤ x then ⌊x⌋ else ⌈x⌉

/-- Whether an integer is a value of the 32-bit type `int`. -/
def fitsInt (n : Int) : Bool := decide (INT_MIN ≤ n ∧ n ≤ INT_MAX)

/-- The initialisation `int i = x` from a `double`: the integer part of `x` when it is a
value of `int`; for any other `x` the behaviour is undefined. -/
def doubleToIntChecked (x : ℚ) : Except KnobError Int :=
  if fitsInt (doubleToInt x) then .ok (doubleToInt x) else .error .outOfRange

/-- The sum `a + b` of two `int`s as 32-bit two's-complement arithmetic gives it: the
mathematical sum when that is a value of `int`, and the sum wrapped around by a multiple of
`2^32 = 4294967296` otherwise (C++ leaves the overflow of an `int` sum undefined; the
wrapped sum is what the 32-bit addition of the machine computes). -/
def intAdd (a b : Int) : Int := (a + b + 2147483648) % 4294967296 - 2147483648

/-- Value type of `KnobStringBase`. -/
instance instKnobValueString : KnobValue String where
  zero := ""
  initRange := none

/-- Value type of `KnobBoolBase`. -/
instance instKnobPODBool : KnobPOD Bool where
  zero := false
  initRange := none
  toDouble := fun b => if b then 1 else 0
  ofDouble := fun x => decide (x ≠ 0)
  fits := fun _ => true
  isDoubleBase := false

/-- Value type of `KnobIntBase`. A `double` converts to `int` by truncation toward zero,
and the conversion is defined when the truncated value is a value of `int`. -/
instance instKnobPODInt : KnobPOD Int where
  zero := 0
  initRange := some (INT_MIN, INT_MAX)
  toDouble := fun i => (i : ℚ)
  ofDouble := fun x => if 0 ≤ x then ⌊x⌋ else ⌈x⌉
  fits := fun x => fitsInt (doubleToInt x)
  isDoubleBase := false

/-- Value type of `KnobDoubleBase`. -/
instance instKnobPODDouble : KnobPOD ℚ where
  zero := 0
  initRange := some (-DBL_MAX, DBL_MAX)
  toDouble := fun x => x
  ofDouble := fun x => x
  fits := fun _ => true
  isDoubleBase := true

/-! ## The parameter state -/

/-- One keyframe of an animation curve (`KeyFrame(time, value)`). -/
structure KeyFrame where
  time : ℚ
  value : ℚ
deriving DecidableEq, Repr

/-- The edge `MasterKnobLink` from a slaved (dimension, view) to its master. The weak
pointer `masterKnob` is the identity of the master while it is alive, `none` once expired. -/
structure MasterKnobLink where
  masterKnob : Option Nat
  masterDimension : DimIdx
  masterView : ViewIdx
deriving DecidableEq, Repr

/-- Coordinate system of a spatial value (`ValueIsNormalizedEnum`). -/
inductive ValueIsNormalizedEnum where
  | eValueIsNormalizedNone
  | eValueIsNormalizedX
  | eValueIsNormalizedY
deriving DecidableEq, Repr

/-- What `KnobDoubleBase::resetToDefaultValue` reads of the subclass `KnobDouble`
(`KnobTypes.h`): the two coordinate-system settings and the two conversions
`normalize(dimension, time, value)` and `denormalize(dimension, time, value)`, which
depend on frame geometry and are taken as given. -/
structure KnobDouble where
  getDefaultValuesAreNormalized : Bool
  getValueIsNormalized : DimIdx → ValueIsNormalizedEnum
  denormalize : DimIdx → ℚ → ℚ → ℚ
  normalize : DimIdx → ℚ → ℚ → ℚ

/-- The policy `KnobFrameViewHashingStrategyEnum`: the digest reflects the value at the
time asked for, or the whole animation. -/
inductive KnobFrameViewHashingStrategyEnum where
  | eKnobHashingStrategyValue
  | eKnobHashingStrategyAnimation
deriving DecidableEq, Repr

/-- Modelled from the spec: the state of "the parameter's internal pseudo-random generator"
after a reseed, "a value derived from" the two arguments of `randomSeed(time, seed)`. -/
structure RandomState where
  time : ℚ
  seed : Nat
deriving DecidableEq, Repr

/-- Modelled from the spec: the state of the base class `KnobHelper` (`Knob.h` and
`Knob.cpp` are not among the translated files) that `KnobImpl.h` reads and writes through
calls: the dimension count, the declared view list, and per (dimension, view) the
expression text, the keyframes of the animation curve, the master link and the stored
modification flag; the current time, the emitted notifications, the virtual hook
`hasModificationsVirtual`, the result of `dynamic_cast<KnobDouble*>(this)`, whether
`getHolder()` returns an owner, the hashing strategy and the state of the pseudo-random
generator. -/
structure KnobHelper where
  dimension : Nat
  viewsList : List ViewIdx
  expressions : DimIdx → ViewIdx → String
  curves : DimIdx → ViewIdx → List KeyFrame
  masters : DimIdx → ViewIdx → Option MasterKnobLink
  modifications : DimIdx → ViewIdx → Bool
  enabled : DimIdx → Bool
  currentTime : ℚ
  signals : List Signal
  hasModificationsVirtual : DimIdx → ViewIdx → Bool
  isKnobDouble : Option KnobDouble
  hasHolder : Bool := true
  hashingStrategy : KnobFrameViewHashingStrategyEnum := .eKnobHashingStrategyValue
  randomState : RandomState := { time := 0, seed := 0 }

/-- The record `DefaultValue` of one dimension: the members `initialValue`, `value` and
`defaultValueSet` that `KnobImpl.h` reads and writes. -/
structure DefaultValue (T : Type) where
  initialValue : T
  value : T
  defaultValueSet : Bool
deriving DecidableEq, Repr

/-- Memoized expression results of one (dimension, view): `FrameValueMap`, time to value. -/
abbrev FrameValueMap (T : Type) := List (ℚ × T)

/-- The data members of `Knob<T>`, on top of its base `KnobHelper`. -/
structure Knob (T : Type) extends KnobHelper where
  _values : List (PerViewMap T)
  _defaultValues : List (DefaultValue T)
  _exprRes : List (PerViewMap (FrameValueMap T))
  _minimums : List T
  _maximums : List T
  _displayMins : List T
  _displayMaxs : List T

/-! ## Members of `KnobHelper` called from `KnobImpl.h` -/

/-- The test `dimension.isAll()`. -/
def DimSpec.isAll (dimension : DimSpec) : Bool :=
  match dimension with
  | .all => true
  | .dim _ => false

/-- The test `dimension.isAll() || i == dimension` of the loops over dimensions. -/
def DimSpec.targets (dimension : DimSpec) (i : DimIdx) : Bool :=
  match dimension with
  | .all => true
  | .dim d => decide (i = d)

/-- The test `view.isAll()`. -/
def ViewSetSpec.isAll (view : ViewSetSpec) : Bool :=
  match view with
  | .all => true
  | .view _ => false

namespace Knob

variable {T : Type}

/-- Modelled from the spec: `getNDimensions()` of the owner interface, the fixed dimension
count the parameter was constructed with. -/
def getNDimensions (k : Knob T) : Int := (k.dimension : Int)

/-- Modelled from the spec: `getViewsList()`, the declared view list obtained from the
owner. -/
def getViewsList (k : Knob T) : List ViewIdx := k.viewsList

/-- Modelled from the spec: `getCurrentTime()`. -/
def getCurrentTime (k : Knob T) : ℚ := k.currentTime

/-- Modelled from the spec: `getExpression(dimension, view)`, the expression text of a
(dimension, view), empty when no expression is set. -/
def getExpression (k : Knob T) (dimension : DimIdx) (view : ViewIdx) : String :=
  k.expressions dimension view

/-- Modelled from the spec: `getCurve(view, dimension)`, the animation curve of a
(dimension, view), consumed as the ordered list of its keyframes. -/
def getCurve (k : Knob T) (view : ViewIdx) (dimension : DimIdx) : List KeyFrame :=
  k.curves dimension view

/-- Modelled from the spec: `Curve::isAnimated()`, "the animation curve is non-empty". -/
def curveIsAnimated (c : List KeyFrame) : Bool := !c.isEmpty

/-- Modelled from the spec: `getMaster(dimension, view, &linkData)`, "`getMaster(dim, view)
-> link?`": the master edge of a (dimension, view) when there is one. -/
def getMaster (k : Knob T) (dimension : DimIdx) (view : ViewIdx) : Option MasterKnobLink :=
  k.masters dimension view

/-- Modelled from the spec: the argument check of the `KnobHelper` operations, "Dimension
indices are always in `[0, nDimensions)`; view indices must resolve to a declared view or
the implicit main view (index 0). Violations fail with an out-of-range error". -/
def validArgs (k : Knob T) (dimension : DimSpec) (view : ViewSetSpec) : Bool :=
  (match dimension with
    | .all => true
    | .dim d => decide (0 ≤ d ∧ d < k.getNDimensions)) &&
  (match view with
    | .all => true
    | .view v => decide (v = 0 ∨ v ∈ k.getViewsList))

/-- Modelled from the spec: the views a view argument addresses, the declared view list for
the wildcard ("all-view operations iterate views using the declared views list obtained
from the owner"). -/
def targetViews (k : Knob T) (view : ViewSetSpec) : List ViewIdx :=
  match view with
  | .all => k.getViewsList
  | .view v => [v]

/-- Modelled from the spec: `removeAnimation(view, dimension)`, "removes animation on the
target dimensions/views": the curve of every addressed (dimension, view) loses its
keyframes. -/
def removeAnimation (k : Knob T) (view : ViewSetSpec) (dimension : DimSpec) :
    Except KnobError (Knob T) :=
  if k.validArgs dimension view then
    .ok { k with
      curves := fun i w =>
        if dimension.targets i && decide (w ∈ k.targetViews view) then [] else k.curves i w }
  else .error .invalidArgument

/-- Modelled from the spec: `clearExpression(dimension, view, clearResults)`, "clears any
expression": the expression text of every addressed (dimension, view) becomes empty. -/
def clearExpression (k : Knob T) (dimension : DimSpec) (view : ViewSetSpec)
    (_clearResults : Bool) : Except KnobError (Knob T) :=
  if k.validArgs dimension view then
    .ok { k with
      expressions := fun i w =>
        if dimension.targets i && decide (w ∈ k.targetViews view) then ""
        else k.expressions i w }
  else .error .invalidArgument

/-- Modelled from the spec: the virtual hook `resetExtraToDefaultValue(dimension, view)`,
"clears type-specific extra state", of which the engine state holds none. -/
def resetExtraToDefaultValue (k : Knob T) (_dimension : DimSpec) (_view : ViewSetSpec) :
    Knob T := k

/-- Modelled from the spec: `setValue(value, view, dimension, reason, NULL)`, the normal
value-set path: the value is written to the store of the dimension for every addressed
view, and the change is notified with its reason. -/
def setValue (k : Knob T) (v : T) (view : ViewSetSpec) (dimension : DimIdx)
    (reason : ValueChangedReasonEnum) : Except KnobError (Knob T) :=
  if k.validArgs (.dim dimension) view then
    match forEach (k.targetViews view)
        (fun w vals => vecModify vals dimension (fun m => m.assign w v)) k._values with
    | .ok vals =>
      .ok { k with
        _values := vals
        signals := k.signals ++ [.s_valueChanged (.dim dimension) view reason] }
    | .error e => .error e
  else .error .invalidArgument

/-- Modelled from the spec: `setValueAcrossDimensions(values, dimensionStartIndex, view,
reason)`, the batch-set across dimensions: `values[i]` is written to dimension
`dimensionStartIndex + i` for every addressed view, and the change is notified once. -/
def setValueAcrossDimensions (k : Knob T) (values : List T) (dimensionStartIndex : DimIdx)
    (view : ViewSetSpec) (reason : ValueChangedReasonEnum) : Except KnobError (Knob T) :=
  if k.validArgs .all view ∧ 0 ≤ dimensionStartIndex ∧
      dimensionStartIndex + (values.length : Int) ≤ k.getNDimensions then
    match forLoop values.length
        (fun i vals =>
          match values[i]? with
          | some v =>
            forEach (k.targetViews view)
              (fun w vals1 =>
                vecModify vals1 (dimensionStartIndex + (i : Int)) (fun m => m.assign w v)) vals
          | none => .error .outOfRange) k._values with
    | .ok vals =>
      .ok { k with
        _values := vals
        signals := k.signals ++ [.s_valueChanged .all view reason] }
    | .error e => .error e
  else .error .invalidArgument

/-- Modelled from the spec: `setHasModifications(dimension, view, value, lock)`, "each
per-(dim,view) boolean is stored": stores the flag and reports whether its value changed. -/
def setHasModifications (flags : DimIdx → ViewIdx → Bool) (dimension : DimIdx)
    (view : ViewIdx) (value : Bool) : Bool × (DimIdx → ViewIdx → Bool) :=
  (flags dimension view != value,
    fun i w => if i = dimension ∧ w = view then value else flags i w)

end Knob

/-! ## `KnobImpl.h`: construction and the range engine -/

/-- Modelled from the spec: the state a newly constructed `KnobHelper` starts from, "a
parameter is constructed with a fixed dimension count": the main view is the only declared
view, no (dimension, view) has an expression, keyframes, a master link or a modification
flag, every dimension is enabled and nothing has been notified. -/
def KnobHelper.create (dimension : Nat) (isKnobDouble : Option KnobDouble)
    (hasModificationsVirtual : DimIdx → ViewIdx → Bool) (currentTime : ℚ) : KnobHelper where
  dimension := dimension
  viewsList := [0]
  expressions := fun _ _ => ""
  curves := fun _ _ => []
  masters := fun _ _ => none
  modifications := fun _ _ => false
  enabled := fun _ => true
  currentTime := currentTime
  signals := []
  hasModificationsVirtual := hasModificationsVirtual
  isKnobDouble := isKnobDouble

namespace Knob

variable {T : Type}

/-- The member initialisers of the constructor `Knob<T>::Knob` (lines 106-115): every vector
is created with `dimension` value-initialised elements. -/
def init [KnobValue T] (base : KnobHelper) : Knob T where
  toKnobHelper := base
  _values := List.replicate base.dimension []
  _defaultValues := List.replicate base.dimension
    { initialValue := KnobValue.zero, value := KnobValue.zero, defaultValueSet := false }
  _exprRes := List.replicate base.dimension []
  _minimums := List.replicate base.dimension KnobValue.zero
  _maximums := List.replicate base.dimension KnobValue.zero
  _displayMins := List.replicate base.dimension KnobValue.zero
  _displayMaxs := List.replicate base.dimension KnobValue.zero

/-- The functions `initMinMax()`: empty for the generic template, and for `KnobDoubleBase`
and `KnobIntBase` the loop that installs the widest range in all four bound vectors. -/
def initMinMax [KnobValue T] (k : Knob T) : Except KnobError (Knob T) :=
  match KnobValue.initRange (T := T) with
  | none => .ok k
  | some (lo, hi) =>
    forLoop k.dimension
      (fun i k1 => do
        let mins ← vecModify k1._minimums i (fun _ => lo)
        let maxs ← vecModify k1._maximums i (fun _ => hi)
        let dmins ← vecModify k1._displayMins i (fun _ => lo)
        let dmaxs ← vecModify k1._displayMaxs i (fun _ => hi)
        .ok { k1 with
          _minimums := mins, _maximums := maxs, _displayMins := dmins, _displayMaxs := dmaxs })
      k

/-- The constructor `Knob<T>::Knob`: member initialisers, then `initMinMax()`. -/
def construct [KnobValue T] (base : KnobHelper) : Except KnobError (Knob T) :=
  initMinMax (init base)

/-- The function `Knob<T>::setRange(mini, maxi, dimension)`. -/
def setRange (k : Knob T) (mini maxi : T) (dimension : DimSpec) : Except KnobError (Knob T) :=
  match dimension with
  | .all =>
    match forLoop k.dimension
        (fun i st => do
          let mins ← vecModify st.1 i (fun _ => mini)
          let maxs ← vecModify st.2 i (fun _ => maxi)
          .ok (mins, maxs))
        (k._minimums, k._maximums) with
    | .ok st =>
      .ok { k with
        _minimums := st.1, _maximums := st.2
        signals := k.signals ++ [.s_minMaxChanged dimension] }
    | .error e => .error e
  | .dim d =>
    match vecModify k._minimums d (fun _ => mini), vecModify k._maximums d (fun _ => maxi) with
    | .ok mins, .ok maxs =>
      .ok { k with
        _minimums := mins, _maximums := maxs
        signals := k.signals ++ [.s_minMaxChanged dimension] }
    | .error e, _ => .error e
    | _, .error e => .error e

/-- The function `Knob<T>::setDisplayRange(mini, maxi, dimension)`. -/
def setDisplayRange (k : Knob T) (mini maxi : T) (dimension : DimSpec) :
    Except KnobError (Knob T) :=
  match dimension with
  | .all =>
    match forLoop k.dimension
        (fun i st => do
          let mins ← vecModify st.1 i (fun _ => mini)
          let maxs ← vecModify st.2 i (fun _ => maxi)
          .ok (mins, maxs))
        (k._displayMins, k._displayMaxs) with
    | .ok st =>
      .ok { k with
        _displayMins := st.1, _displayMaxs := st.2
        signals := k.signals ++ [.s_displayMinMaxChanged dimension] }
    | .error e => .error e
  | .dim d =>
    match vecModify k._displayMins d (fun _ => mini),
        vecModify k._displayMaxs d (fun _ => maxi) with
    | .ok mins, .ok maxs =>
      .ok { k with
        _displayMins := mins, _displayMaxs := maxs
        signals := k.signals ++ [.s_displayMinMaxChanged dimension] }
    | .error e, _ => .error e
    | _, .error e => .error e

/-- The function `Knob<T>::setRangeAcrossDimensions(minis, maxis)`. -/
def setRangeAcrossDimensions (k : Knob T) (minis maxis : List T) : Knob T :=
  { k with
    _minimums := minis, _maximums := maxis
    signals := k.signals ++ [.s_minMaxChanged .all] }

/-- The function `Knob<T>::setDisplayRangeAcrossDimensions(minis, maxis)`. -/
def setDisplayRangeAcrossDimensions (k : Knob T) (minis maxis : List T) : Knob T :=
  { k with
    _displayMins := minis, _displayMaxs := maxis
    signals := k.signals ++ [.s_displayMinMaxChanged .all] }

/-- The accessor `Knob<T>::getMinimums()`. -/
def getMinimums (k : Knob T) : List T := k._minimums

/-- The accessor `Knob<T>::getMaximums()`. -/
def getMaximums (k : Knob T) : List T := k._maximums

/-- The accessor `Knob<T>::getDisplayMinimums()`. -/
def getDisplayMinimums (k : Knob T) : List T := k._displayMins

/-- The accessor `Knob<T>::getDisplayMaximums()`. -/
def getDisplayMaximums (k : Knob T) : List T := k._displayMaxs

/-- The accessor `Knob<T>::getMinimum(dimension)`. -/
def getMinimum (k : Knob T) (dimension : DimIdx) : Except KnobError T :=
  vecGet k._minimums dimension

/-- The accessor `Knob<T>::getMaximum(dimension)`. -/
def getMaximum (k : Knob T) (dimension : DimIdx) : Except KnobError T :=
  vecGet k._maximums dimension

/-- The accessor `Knob<T>::getDisplayMinimum(dimension)`. -/
def getDisplayMinimum (k : Knob T) (dimension : DimIdx) : Except KnobError T :=
  vecGet k._displayMins dimension

/-- The accessor `Knob<T>::getDisplayMaximum(dimension)`. -/
def getDisplayMaximum (k : Knob T) (dimension : DimIdx) : Except KnobError T :=
  vecGet k._displayMaxs dimension

/-- The generic `Knob<T>::clampToMinMax(value, dimension)` of the numeric value types: the
bounds check against the size of `_minimums`, then
`std::max((double)_minimums[dimension], std::min((double)_maximums[dimension], (double)value))`
converted back to `T` by the return. -/
def clampToMinMax [KnobPOD T] (k : Knob T) (value : T) (dimension : DimIdx) :
    Except KnobError T :=
  if dimension < 0 ∨ dimension ≥ (k._minimums.length : Int) then .error .invalidArgument
  else do
    let lo ← vecGet k._minimums dimension
    let hi ← vecGet k._maximums dimension
    .ok (KnobPOD.ofDouble
      (max (KnobPOD.toDouble lo) (min (KnobPOD.toDouble hi) (KnobPOD.toDouble value))))

end Knob

/-- The specialisation `KnobStringBase::clampToMinMax(value, dimension)`: `return value;`. -/
def KnobStringBase.clampToMinMax (_k : Knob String) (value : String) (_dimension : DimIdx) :
    Except KnobError String :=
  .ok value

/-- The specialisation `KnobBoolBase::clampToMinMax(value, dimension)`: `return value;`. -/
def KnobBoolBase.clampToMinMax (_k : Knob Bool) (value : Bool) (_dimension : DimIdx) :
    Except KnobError Bool :=
  .ok value

/-! ## `KnobImpl.h`: the value store, modification tracking and reset -/

/-- The block repeated in every default setter:
`d.value = v; if (!d.defaultValueSet) { d.defaultValueSet = true; d.initialValue = v; }`. -/
def DefaultValue.writeDefault {T : Type} (d : DefaultValue T) (v : T) : DefaultValue T :=
  if !d.defaultValueSet then { initialValue := v, value := v, defaultValueSet := true }
  else { d with value := v }

namespace Knob

variable {T : Type}

/-- The function `Knob<T>::getRawValue(dimension, view)`, a `const` read: the result, paired
with the value store as the call leaves it. The guard joins its two tests with `&&`. -/
def getRawValue [KnobValue T] (k : Knob T) (dimension : DimIdx) (view : ViewIdx) :
    Except KnobError T × List (PerViewMap T) :=
  if dimension < 0 ∧ dimension ≥ k.getNDimensions then (.error .invalidArgument, k._values)
  else
    match vecGet k._values dimension with
    | .ok m =>
      match m.find view with
      | none => (.ok KnobValue.zero, k._values)
      | some x => (.ok x, k._values)
    | .error e => (.error e, k._values)

/-- The function `Knob<T>::getRawValues()`. -/
def getRawValues (k : Knob T) : List (PerViewMap T) := k._values

/-- The function `Knob<T>::computeValuesHaveModifications(dimension, value, defaultValue)`. -/
def computeValuesHaveModifications [DecidableEq T] (_dimension : DimIdx) (value : T)
    (defaultValue : T) : Bool :=
  decide (value ≠ defaultValue)

/-- The block of `computeHasModifications()` that holds `_valueMutex`: whether the store of
dimension `i` has an entry for `view` whose value differs from the default value of `i`. -/
def storedValueHasModif [DecidableEq T] (k : Knob T) (i : DimIdx) (view : ViewIdx) :
    Except KnobError Bool :=
  match vecGet k._values i with
  | .ok m =>
    match m.find view with
    | some x =>
      match vecGet k._defaultValues i with
      | .ok d => .ok (computeValuesHaveModifications i x d.value)
      | .error e => .error e
    | none => .ok false
  | .error e => .error e

/-- The body of the two loops of `computeHasModifications()` up to the call of
`setHasModifications`: the flag `hasModif` of dimension `i` and view `view`, each test run
only while the flag is still false. -/
def computeHasModif [DecidableEq T] (k : Knob T) (i : DimIdx) (view : ViewIdx) :
    Except KnobError Bool :=
  let hasModif0 := !(k.getExpression i view).isEmpty
  let hasModif1 := if !hasModif0 then curveIsAnimated (k.getCurve view i) else hasModif0
  let hasModif2 := if !hasModif1 then (k.getMaster i view).isSome else hasModif1
  match (if !hasModif2 then k.storedValueHasModif i view else .ok hasModif2) with
  | .ok hasModif3 => .ok (if !hasModif3 then k.hasModificationsVirtual i view else hasModif3)
  | .error e => .error e

/-- The function `Knob<T>::computeHasModifications()`: the flags of every (dimension,
declared view) are recomputed and stored, and `s_hasModificationsChanged` is emitted when
`oneChanged`. -/
def computeHasModifications [DecidableEq T] (k : Knob T) : Except KnobError (Knob T) :=
  match forLoop k.dimension
      (fun i st =>
        forEach k.getViewsList
          (fun view st1 =>
            match computeHasModif k i view with
            | .ok hasModif =>
              let r := setHasModifications st1.1 i view hasModif
              .ok (r.2, st1.2 || r.1)
            | .error e => .error e)
          st)
      (k.modifications, false) with
  | .ok st =>
    .ok { k with
      modifications := st.1
      signals := if st.2 then k.signals ++ [.s_hasModificationsChanged] else k.signals }
  | .error e => .error e

/-- The loop of `resetToDefaultValue` that fills `std::vector<double> defValues(nDims)`:
for every `i` with `dimension.isAll() || i == dimension`, `defValues[i]` receives
`_defaultValues[i].value`, passed through `conv`, the step between that assignment and the
end of the loop body (nothing in the generic template). -/
def collectDefaults [KnobPOD T] (defs : List (DefaultValue T)) (nDims : Nat)
    (dimension : DimSpec) (conv : DimIdx → ℚ → ℚ) : Except KnobError (List ℚ) :=
  forLoop nDims
    (fun i dv =>
      if dimension.targets (i : Int) then
        match vecGet defs (i : Int) with
        | .ok d => vecModify dv (i : Int) (fun _ => conv (i : Int) (KnobPOD.toDouble d.value))
        | .error e => .error e
      else .ok dv)
    (List.replicate nDims (0 : ℚ))

/-- The generic `Knob<T>::resetToDefaultValue(dimension, view)`. -/
def resetToDefaultValue [KnobPOD T] (k : Knob T) (dimension : DimSpec) (view : ViewSetSpec) :
    Except KnobError (Knob T) := do
  let k1 ← k.removeAnimation view dimension
  let k2 ← k1.clearExpression dimension view true
  let k3 := k2.resetExtraToDefaultValue dimension view
  let nDims := k3.dimension
  let defValues ← collectDefaults k3._defaultValues nDims dimension (fun _ x => x)
  match dimension with
  | .all =>
    k3.setValueAcrossDimensions (defValues.map KnobPOD.ofDouble) 0 view
      .eValueChangedReasonRestoreDefault
  | .dim d => do
    let x ← vecGet defValues d
    k3.setValue (KnobPOD.ofDouble x) view d .eValueChangedReasonRestoreDefault

end Knob

/-- The step of `KnobDoubleBase::resetToDefaultValue` on `defValues[i]`: a normalised
default of a non-normalised value is denormalised, a non-normalised default of a
normalised value is normalised. -/
def KnobDouble.convertDefault (isDouble : KnobDouble) (time : ℚ) (i : DimIdx) (x : ℚ) : ℚ :=
  if isDouble.getDefaultValuesAreNormalized then
    (if isDouble.getValueIsNormalized i = .eValueIsNormalizedNone then
      isDouble.denormalize i time x
    else x)
  else
    (if isDouble.getValueIsNormalized i ≠ .eValueIsNormalizedNone then
      isDouble.normalize i time x
    else x)

/-- The specialisation `KnobDoubleBase::resetToDefaultValue(dimension, view)`. It is
instantiated at `T = double`, where `toDouble` and `ofDouble` are the identity. -/
def KnobDoubleBase.resetToDefaultValue {T : Type} [KnobPOD T] (k : Knob T)
    (dimension : DimSpec) (view : ViewSetSpec) : Except KnobError (Knob T) := do
  let k1 ← k.removeAnimation view dimension
  let isDouble := k1.isKnobDouble
  let k2 ← k1.clearExpression dimension view true
  let k3 := k2.resetExtraToDefaultValue dimension view
  match isDouble with
  | some dbl =>
    let time := k3.getCurrentTime
    let nDims := k3.dimension
    let defValues ← Knob.collectDefaults k3._defaultValues nDims dimension
      (dbl.convertDefault time)
    match dimension with
    | .all =>
      k3.setValueAcrossDimensions (defValues.map KnobPOD.ofDouble) 0 view
        .eValueChangedReasonRestoreDefault
    | .dim d => do
      let x ← vecGet defValues d
      k3.setValue (KnobPOD.ofDouble x) view d .eValueChangedReasonRestoreDefault
  | none => .ok k3

namespace Knob

variable {T : Type}

/-- The call `resetToDefaultValue(dimension, view)` as the compiler resolves it for
`Knob<T>`: the specialisation for `KnobDoubleBase`, the generic template otherwise. -/
def callResetToDefaultValue [KnobPOD T] (k : Knob T) (dimension : DimSpec)
    (view : ViewSetSpec) : Except KnobError (Knob T) :=
  if KnobPOD.isDoubleBase T then KnobDoubleBase.resetToDefaultValue k dimension view
  else k.resetToDefaultValue dimension view

/-! ## `KnobImpl.h`: the default engine -/

/-- The function `Knob<T>::getDefaultValue(dimension)`. -/
def getDefaultValue (k : Knob T) (dimension : DimIdx) : Except KnobError T :=
  if dimension < 0 ∨ dimension ≥ (k._defaultValues.length : Int) then .error .invalidArgument
  else do
    let d ← vecGet k._defaultValues dimension
    .ok d.value

/-- The function `Knob<T>::getInitialDefaultValue(dimension)`. -/
def getInitialDefaultValue (k : Knob T) (dimension : DimIdx) : Except KnobError T :=
  if dimension < 0 ∨ dimension ≥ (k._defaultValues.length : Int) then .error .invalidArgument
  else do
    let d ← vecGet k._defaultValues dimension
    .ok d.initialValue

/-- The function `Knob<T>::setCurrentDefaultValueAsInitialValue()`. -/
def setCurrentDefaultValueAsInitialValue (k : Knob T) : Except KnobError (Knob T) :=
  match forLoop k.dimension
      (fun i defs =>
        vecModify defs i (fun d => { d with initialValue := d.value, defaultValueSet := true }))
      k._defaultValues with
  | .ok defs => .ok { k with _defaultValues := defs }
  | .error e => .error e

/-- The function `Knob<T>::hasDefaultValueChanged(dimension)`. -/
def hasDefaultValueChanged [DecidableEq T] (k : Knob T) (dimension : DimIdx) :
    Except KnobError Bool :=
  if dimension < 0 ∨ dimension ≥ (k._defaultValues.length : Int) then .error .invalidArgument
  else do
    let d ← vecGet k._defaultValues dimension
    .ok (decide (d.initialValue ≠ d.value))

/-- The function `Knob<T>::isDefaultValueSet(dimension)`. -/
def isDefaultValueSet (k : Knob T) (dimension : DimIdx) : Except KnobError Bool :=
  if dimension < 0 ∨ dimension ≥ (k._defaultValues.length : Int) then .error .invalidArgument
  else do
    let d ← vecGet k._defaultValues dimension
    .ok d.defaultValueSet

/-- The locked block shared by `setDefaultValue` and `setDefaultValueWithoutApplying`: the
default records after the write to one dimension or to all of them. -/
def writeDefaultValue (k : Knob T) (v : T) (dimension : DimSpec) :
    Except KnobError (List (DefaultValue T)) :=
  match dimension with
  | .all =>
    forLoop k.dimension (fun i defs => vecModify defs i (fun d => d.writeDefault v))
      k._defaultValues
  | .dim d =>
    if d < 0 ∨ d ≥ (k._defaultValues.length : Int) then .error .invalidArgument
    else vecModify k._defaultValues d (fun r => r.writeDefault v)

/-- The argument check and the locked loop shared by `setDefaultValues` and
`setDefaultValuesWithoutApplying`: the default records after `values[i]` is written to
dimension `i + dimensionStartOffset`. The check adds `dimensionStartOffset` and
`(int)values.size()` as `int`s. The index of the loop is the sum `i + dimensionStartOffset`
narrowed to `int`; narrowing changes it only when it exceeds `INT_MAX`, to a negative index,
and both are outside a vector that an `int` can index. -/
def writeDefaultValues (k : Knob T) (values : List T) (dimensionStartOffset : DimIdx) :
    Except KnobError (List (DefaultValue T)) :=
  if dimensionStartOffset < 0 ∨
      intAdd dimensionStartOffset (values.length : Int) > k.getNDimensions then
    .error .invalidArgument
  else
    forLoop values.length
      (fun i defs =>
        match values[i]? with
        | some v => vecModify defs ((i : Int) + dimensionStartOffset) (fun d => d.writeDefault v)
        | none => .error .outOfRange)
      k._defaultValues

/-- The function `Knob<T>::setDefaultValue(v, dimension)`. -/
def setDefaultValue [KnobPOD T] [DecidableEq T] (k : Knob T) (v : T) (dimension : DimSpec) :
    Except KnobError (Knob T) := do
  let defs ← k.writeDefaultValue v dimension
  let k1 ← callResetToDefaultValue { k with _defaultValues := defs } dimension .all
  k1.computeHasModifications

/-- The function `Knob<T>::setDefaultValues(values, dimensionStartOffset)`. -/
def setDefaultValues [DecidableEq T] (k : Knob T) (values : List T)
    (dimensionStartOffset : DimIdx) : Except KnobError (Knob T) :=
  if values.isEmpty then .ok k
  else do
    let defs ← k.writeDefaultValues values dimensionStartOffset
    computeHasModifications { k with _defaultValues := defs }

/-- The function `Knob<T>::setDefaultValueWithoutApplying(v, dimension)`. -/
def setDefaultValueWithoutApplying [DecidableEq T] (k : Knob T) (v : T)
    (dimension : DimSpec) : Except KnobError (Knob T) := do
  let defs ← k.writeDefaultValue v dimension
  computeHasModifications { k with _defaultValues := defs }

/-- The function `Knob<T>::setDefaultValuesWithoutApplying(values, dimensionStartOffset)`. -/
def setDefaultValuesWithoutApplying [DecidableEq T] (k : Knob T) (values : List T)
    (dimensionStartOffset : DimIdx) : Except KnobError (Knob T) :=
  if values.isEmpty then .ok k
  else do
    let defs ← k.writeDefaultValues values dimensionStartOffset
    computeHasModifications { k with _defaultValues := defs }

/-- The functions `Knob<T>::populate()` and `Knob<bool>::populate()`, which write the same
values (`initDefaultValue` stores `T()`); `KnobHelper::populate()`, called last, holds no
state of the engine. -/
def populate [KnobValue T] (k : Knob T) : Except KnobError (Knob T) :=
  forLoop k.dimension
    (fun i k1 => do
      let vals ← vecModify k1._values i (fun m => m.assign 0 KnobValue.zero)
      let defs ← vecModify k1._defaultValues i
        (fun d => { d with value := KnobValue.zero, defaultValueSet := false })
      .ok { k1 with _values := vals, _defaultValues := defs })
    k

/-- The function `Knob<T>::cloneDefaultValues(other)`; `other` is the result of
`dynamic_pointer_cast<Knob<T> >(other)`, `none` when the cast fails. -/
def cloneDefaultValues [DecidableEq T] (k : Knob T) (other : Option (Knob T)) :
    Except KnobError (Knob T) :=
  match other with
  | none => .ok k
  | some otherT =>
    let dims := min k.dimension otherT.dimension
    let otherDef := otherT._defaultValues
    forLoop dims
      (fun i k1 => do
        let d ← vecGet otherDef i
        if d.defaultValueSet then k1.setDefaultValueWithoutApplying d.value (.dim i)
        else .ok k1)
      k

/-- The sizes the constructor fixes and no operation of the engine changes: the value
store, the default records and the expression-result cache have one entry per dimension. -/
def WellFormed (k : Knob T) : Prop :=
  k._values.length = k.dimension ∧ k._defaultValues.length = k.dimension ∧
    k._exprRes.length = k.dimension

instance instDecidableWellFormed (k : Knob T) : Decidable k.WellFormed := by
  unfold WellFormed
  infer_instance

end Knob

/-! ## The calls of the default engine, as data -/

/-- One call of the default engine on a parameter. -/
inductive DefaultOp (T : Type) where
  | setDefaultValue (v : T) (dimension : DimSpec)
  | setDefaultValues (values : List T) (dimensionStartOffset : DimIdx)
  | setDefaultValueWithoutApplying (v : T) (dimension : DimSpec)
  | setDefaultValuesWithoutApplying (values : List T) (dimensionStartOffset : DimIdx)
  | setCurrentDefaultValueAsInitialValue
  | cloneDefaultValues (other : Option (Knob T))

namespace DefaultOp

variable {T : Type}

/-- The effect of the call on a parameter. -/
def run [KnobPOD T] [DecidableEq T] (op : DefaultOp T) (k : Knob T) :
    Except KnobError (Knob T) :=
  match op with
  | .setDefaultValue v dimension => k.setDefaultValue v dimension
  | .setDefaultValues values offset => k.setDefaultValues values offset
  | .setDefaultValueWithoutApplying v dimension => k.setDefaultValueWithoutApplying v dimension
  | .setDefaultValuesWithoutApplying values offset =>
    k.setDefaultValuesWithoutApplying values offset
  | .setCurrentDefaultValueAsInitialValue => k.setCurrentDefaultValueAsInitialValue
  | .cloneDefaultValues other => k.cloneDefaultValues other

/-- The arguments of the call are in the declared range of a parameter with `nDims`
dimensions: a single dimension lies in `[0, nDims)`, a vector of values fits from its start
offset, and a cloned parameter has one default record per dimension. -/
def inRange (nDims : Nat) (op : DefaultOp T) : Prop :=
  match op with
  | .setDefaultValue _ dimension | .setDefaultValueWithoutApplying _ dimension =>
    match dimension with
    | .all => True
    | .dim i => 0 ≤ i ∧ i < (nDims : Int)
  | .setDefaultValues values offset | .setDefaultValuesWithoutApplying values offset =>
    values = [] ∨ (0 ≤ offset ∧ offset + (values.length : Int) ≤ (nDims : Int))
  | .setCurrentDefaultValueAsInitialValue => True
  | .cloneDefaultValues other =>
    match other with
    | none => True
    | some otherT => otherT.WellFormed

/-- The value the call passes as the new default of dimension `j`, when it addresses `j`
(directly, through the wildcard, or as an element of its vector of values; for a clone, the
default of `j` in the cloned parameter when that one is set). -/
def writes (nDims : Nat) (op : DefaultOp T) (j : Nat) : Option T :=
  match op with
  | .setDefaultValue v dimension | .setDefaultValueWithoutApplying v dimension =>
    if dimension.targets (j : Int) then some v else none
  | .setDefaultValues values offset | .setDefaultValuesWithoutApplying values offset =>
    if offset ≤ (j : Int) ∧ (j : Int) < offset + (values.length : Int) then
      values[((j : Int) - offset).toNat]?
    else none
  | .setCurrentDefaultValueAsInitialValue => none
  | .cloneDefaultValues other =>
    match other with
    | none => none
    | some otherT =>
      if j < min nDims otherT.dimension then
        match otherT._defaultValues[j]? with
        | some r => if r.defaultValueSet then some r.value else none
        | none => none
      else none

/-- The four calls that set a default value. -/
def isSetter (op : DefaultOp T) : Bool :=
  match op with
  | .setDefaultValue _ _ => true
  | .setDefaultValues _ _ => true
  | .setDefaultValueWithoutApplying _ _ => true
  | .setDefaultValuesWithoutApplying _ _ => true
  | .setCurrentDefaultValueAsInitialValue => false
  | .cloneDefaultValues _ => false

end DefaultOp

/-- A sequence of calls of the default engine, run in order. -/
def Knob.runDefaultOps {T : Type} [KnobPOD T] [DecidableEq T] (ops : List (DefaultOp T))
    (k : Knob T) : Except KnobError (Knob T) :=
  forEach ops (fun op k1 => op.run k1) k

/-- The parameter as it is after construction and `populate()`. -/
def Knob.create {T : Type} [KnobValue T] (base : KnobHelper) : Except KnobError (Knob T) :=
  match Knob.construct base with
  | .ok k => k.populate
  | .error e => .error e

/-! ## `KnobImpl.h`: the derivative and integral evaluator -/

/-- View argument `ViewGetSpec` of a read: one view, or `ViewGetSpec::current()`. -/
inductive ViewGetSpec where
  | current
  | view (v : ViewIdx)
deriving DecidableEq, Repr

/-- Modelled from the spec: what the derivative and integral evaluator consumes and
`KnobImpl.h` does not define. `currentView` is the view `ViewGetSpec::current()` resolves
to; `getValueAtTime(time, dimension, view)` is the resolving read of the parameter, its
result converted to `double`; `getDerivativeAt` and `getIntegrateFromTo` are the analytic
derivative and integral of an animation curve; `masterGetDerivativeAtTime` and
`masterGetIntegrateFromTimeToTime` are the same two members of the master parameter a link
points to, addressed by the identity the link holds. -/
structure EvalContext where
  currentView : ViewIdx
  getValueAtTime : ℚ → DimIdx → ViewGetSpec → ℚ
  getDerivativeAt : List KeyFrame → ℚ → ℚ
  getIntegrateFromTo : List KeyFrame → ℚ → ℚ → ℚ
  masterGetDerivativeAtTime : Nat → ℚ → ViewIdx → DimIdx → Except KnobError ℚ
  masterGetIntegrateFromTimeToTime : Nat → ℚ → ℚ → ViewIdx → DimIdx → Except KnobError ℚ

/-- Modelled from the spec: `getViewIdxFromGetSpec(view)`, the view index a read
addresses. -/
def EvalContext.getViewIdxFromGetSpec (ctx : EvalContext) (view : ViewGetSpec) : ViewIdx :=
  match view with
  | .current => ctx.currentView
  | .view v => v

/-- The loop `for (int t = i; t < j; ++t) body(t)` over a state `σ`. -/
def forRange {σ : Type} (i j : Int) (body : Int → σ → σ) (s : σ) : σ :=
  (List.range (j - i).toNat).foldl (fun s1 (n : Nat) => body (i + (n : Int)) s1) s

namespace Knob

variable {T : Type}

/-- The function `Knob<T>::getDerivativeAtTime(time, view, dimension)`. The calls
`getExpression(dimension)` and `getMaster(dimension, &linkData)` carry no view argument and
address the current view. The guard compares with `dimension > getNDimensions()`. -/
def getDerivativeAtTime (ctx : EvalContext) (k : Knob T) (time : ℚ) (view : ViewGetSpec)
    (dimension : DimIdx) : Except KnobError ℚ :=
  if dimension > k.getNDimensions ∨ dimension < 0 then .error .invalidArgument
  else
    let expr := k.getExpression dimension (ctx.getViewIdxFromGetSpec .current)
    if !expr.isEmpty then
      .ok ((ctx.getValueAtTime (time + 1 / 2) dimension view
        - ctx.getValueAtTime (time - 1 / 2) dimension view) / 2)
    else
      let onCurve : Except KnobError ℚ :=
        let curve := k.getCurve (ctx.getViewIdxFromGetSpec view) dimension
        if curve.length > 0 then .ok (ctx.getDerivativeAt curve time) else .ok 0
      match k.getMaster dimension (ctx.getViewIdxFromGetSpec .current) with
      | some linkData =>
        match linkData.masterKnob with
        | some masterKnob =>
          ctx.masterGetDerivativeAtTime masterKnob time linkData.masterView
            linkData.masterDimension
        | none => onCurve
      | none => onCurve

/-- The function `Knob<T>::getIntegrateFromTimeToTimeSimpson(time1, time2, view,
dimension)`. -/
def getIntegrateFromTimeToTimeSimpson (ctx : EvalContext) (_k : Knob T) (time1 time2 : ℚ)
    (view : ViewGetSpec) (dimension : DimIdx) : ℚ :=
  let fa := ctx.getValueAtTime time1 dimension view
  let fm := ctx.getValueAtTime ((time1 + time2) / 2) dimension view
  let fb := ctx.getValueAtTime time2 dimension view
  (time2 - time1) / 6 * (fa + 4 * fm + fb)

/-- The body of the expression branch of `getIntegrateFromTimeToTime` after the
declarations of `int i` and `int j`. In the loop `t < j`, so that `t + 1` is a value of
`int`. -/
def integrateExpression (ctx : EvalContext) (k : Knob T) (time1 time2 : ℚ)
    (view : ViewGetSpec) (dimension : DimIdx) (i j : Int) : ℚ :=
  if i > j then k.getIntegrateFromTimeToTimeSimpson ctx time1 time2 view dimension
  else
    let val : ℚ := 0
    let val :=
      if time1 < (i : ℚ) then
        val + k.getIntegrateFromTimeToTimeSimpson ctx time1 (i : ℚ) view dimension
      else val
    let val :=
      forRange i j
        (fun t v =>
          v + k.getIntegrateFromTimeToTimeSimpson ctx (t : ℚ) ((t : ℚ) + 1) view dimension)
        val
    let val :=
      if (j : ℚ) < time2 then
        val + k.getIntegrateFromTimeToTimeSimpson ctx (j : ℚ) time2 view dimension
      else val
    val

/-- The function `Knob<T>::getIntegrateFromTimeToTime(time1, time2, view, dimension)`. The
guard compares with `dimension > getNDimensions()`. The declarations
`int i = std::ceil(time1); int j = std::floor(time2);` convert a `double` to `int`. In the
last branch the source writes `(double)_values[dimension] * (time2 - time1)`, where
`_values[dimension]` is the per-view map of the dimension: C++ has no conversion of that map
to `double`, and `mapToDouble` stands for the one the cast asks for. -/
def getIntegrateFromTimeToTime [KnobPOD T] (mapToDouble : PerViewMap T → ℚ)
    (ctx : EvalContext) (k : Knob T)
    (time1 time2 : ℚ) (view : ViewGetSpec) (dimension : DimIdx) : Except KnobError ℚ :=
  if dimension > k.getNDimensions ∨ dimension < 0 then .error .invalidArgument
  else
    let expr := k.getExpression dimension (ctx.getViewIdxFromGetSpec .current)
    if !expr.isEmpty then
      match doubleToIntChecked ((⌈time1⌉ : Int) : ℚ), doubleToIntChecked ((⌊time2⌋ : Int) : ℚ) with
      | .ok i, .ok j => .ok (k.integrateExpression ctx time1 time2 view dimension i j)
      | .error e, _ => .error e
      | _, .error e => .error e
    else
      let onCurve : Except KnobError ℚ :=
        let curve := k.getCurve (ctx.getViewIdxFromGetSpec view) dimension
        if curve.length > 0 then .ok (ctx.getIntegrateFromTo curve time1 time2)
        else
          match vecGet k._values dimension with
          | .ok m => .ok (mapToDouble m * (time2 - time1))
          | .error e => .error e
      match k.getMaster dimension (ctx.getViewIdxFromGetSpec .current) with
      | some linkData =>
        match linkData.masterKnob with
        | some masterKnob =>
          ctx.masterGetIntegrateFromTimeToTime masterKnob time1 time2 linkData.masterView
            linkData.masterDimension
        | none => onCurve
      | none => onCurve

end Knob

/-- The specialisation `KnobStringBase::getDerivativeAtTime`, which always throws. -/
def KnobStringBase.getDerivativeAtTime (_k : Knob String) (_time : ℚ) (_view : ViewGetSpec)
    (_dimension : DimIdx) : Except KnobError ℚ :=
  .error .invalidArgument

/-- The specialisation `KnobStringBase::getIntegrateFromTimeToTimeSimpson`, a dummy 0. -/
def KnobStringBase.getIntegrateFromTimeToTimeSimpson (_k : Knob String) (_time1 _time2 : ℚ)
    (_view : ViewGetSpec) (_dimension : DimIdx) : ℚ :=
  0

/-- The specialisation `KnobStringBase::getIntegrateFromTimeToTime`, which always throws. -/
def KnobStringBase.getIntegrateFromTimeToTime (_k : Knob String) (_time1 _time2 : ℚ)
    (_view : ViewGetSpec) (_dimension : DimIdx) : Except KnobError ℚ :=
  .error .invalidArgument

/-- The Simpson estimate `(b - a) / 6 * (f(a) + 4 f((a + b) / 2) + f(b))` of the integral
of `f` over `[a, b]`. -/
def simpson (f : ℚ → ℚ) (a b : ℚ) : ℚ :=
  (b - a) / 6 * (f a + 4 * f ((a + b) / 2) + f b)

/-- The intervals on which the expression branch of `getIntegrateFromTimeToTime` calls
`getIntegrateFromTimeToTimeSimpson`, in the order of the calls, for bounds whose ceiling
`i` and floor `j` are values of `int`. -/
def simpsonIntervals (time1 time2 : ℚ) : List (ℚ × ℚ) :=
  let i : Int := ⌈time1⌉
  let j : Int := ⌊time2⌋
  if i > j then [(time1, time2)]
  else
    (if time1 < (i : ℚ) then [(time1, (i : ℚ))] else [])
      ++ forRange i j (fun t l => l ++ [((t : ℚ), (t : ℚ) + 1)]) []
      ++ (if (j : ℚ) < time2 then [((j : ℚ), time2)] else [])

/-- Intervals laid end to end from `a` to `b`: the first starts at `a`, each next one starts
where the one before ends, and the last ends at `b`. -/
def tilesFromTo (a b : ℚ) (l : List (ℚ × ℚ)) : Prop :=
  match l with
  | [] => a = b
  | p :: rest => p.1 = a ∧ tilesFromTo p.2 b rest

/-! ## `KnobImpl.h`: type compatibility and cloning -/

/-- A parameter behind a `KnobIPtr`: one of the four instantiations of `Knob<T>`. -/
inductive AnyKnob where
  | intBase (k : Knob Int)
  | boolBase (k : Knob Bool)
  | doubleBase (k : Knob ℚ)
  | stringBase (k : Knob String)

namespace AnyKnob

/-- The base-class part of the parameter. -/
def helper (a : AnyKnob) : KnobHelper :=
  match a with
  | .intBase k => k.toKnobHelper
  | .boolBase k => k.toKnobHelper
  | .doubleBase k => k.toKnobHelper
  | .stringBase k => k.toKnobHelper

/-- The function `isTypePOD()`: `false` in the template `Knob<T>`, `true` in the
specialisations for `KnobIntBase`, `KnobBoolBase` and `KnobDoubleBase`. -/
def isTypePOD (a : AnyKnob) : Bool :=
  match a with
  | .intBase _ => true
  | .boolBase _ => true
  | .doubleBase _ => true
  | .stringBase _ => false

/-- The function `Knob<T>::isTypeCompatible(other)`. -/
def isTypeCompatible (a other : AnyKnob) : Bool :=
  a.isTypePOD == other.isTypePOD

end AnyKnob

/-- A `KnobIPtr` argument as the called parameter sees it: a null pointer, a pointer to the
called parameter itself (`other.get() == this`), or a pointer to another parameter. -/
inductive KnobIPtr where
  | null
  | self
  | other (a : AnyKnob)

/-- The arguments `(view, otherView)` of a clone, which its first assertion takes to be both
the wildcard or both an index. -/
inductive ViewPair where
  | all
  | views (view otherView : ViewIdx)
deriving DecidableEq, Repr

/-- The arguments `(dimension, otherDimension)` of a clone, which its second assertion
restricts to both the wildcard or both an index. -/
inductive DimPair where
  | all
  | dims (dimension otherDimension : DimIdx)
deriving DecidableEq, Repr

/-- The argument `view` of the pair. -/
def ViewPair.view (views : ViewPair) : ViewSetSpec :=
  match views with
  | .all => .all
  | .views view _ => .view view

/-- The argument `dimension` of the pair. -/
def DimPair.dimension (dims : DimPair) : DimSpec :=
  match dims with
  | .all => .all
  | .dims dimension _ => .dim dimension

/-- The argument `const RangeD* range` of a copy, when it is not null. -/
structure RangeD where
  min : ℚ
  max : ℚ
deriving DecidableEq, Repr

/-- The C-style cast `(T)x` between the plain-old-data value types. The behaviour of the
conversion of a `double` to `int` is undefined when the integer part is no value of
`int`. -/
def podCast {S T : Type} [KnobPOD S] [KnobPOD T] (x : S) : Except KnobError T :=
  if KnobPOD.fits T (KnobPOD.toDouble x) then .ok (KnobPOD.ofDouble (KnobPOD.toDouble x))
  else .error .outOfRange

/-- The cast `(T)x` of a value that has the type `T`, which converts nothing. -/
def sameCast {T : Type} (x : T) : Except KnobError T := .ok x

namespace Knob

variable {T : Type}

/-- The function `Knob<T>::copyValueForType<OTHERTYPE>(other, view, otherView, dimension,
otherDimension)`; `cast` is the conversion `(T)` from `OTHERTYPE`. The assertion is
compiled out of a release build. -/
def copyValueForType {S : Type} [KnobValue S] [DecidableEq T]
    (cast : S → Except KnobError T) (k : Knob T)
    (other : Knob S) (view otherView : ViewIdx) (dimension otherDimension : DimIdx) :
    Except KnobError (Bool × Knob T) :=
  match (other.getRawValue otherDimension otherView).1 with
  | .error e => .error e
  | .ok x =>
    match cast x with
    | .error e => .error e
    | .ok otherValue =>
      match vecGet k._values dimension with
      | .error e => .error e
      | .ok m =>
        match m.find view with
        | none =>
          match vecModify k._values dimension (fun m1 => m1.assign view otherValue) with
          | .ok vals => .ok (true, { k with _values := vals })
          | .error e => .error e
        | some y =>
          match vecModify k._values dimension (fun m1 => m1.assign view otherValue) with
          | .ok vals => .ok (decide (y ≠ otherValue), { k with _values := vals })
          | .error e => .error e

/-- One statement `hasChanged |= copyValueForType<...>(...)` of `cloneValues`, `copy` being
the call. -/
def cloneValuesStep (copy : ViewIdx → ViewIdx → DimIdx → DimIdx → Knob T →
      Except KnobError (Bool × Knob T))
    (view otherView : ViewIdx) (dimension otherDimension : DimIdx) (s : Bool × Knob T) :
    Except KnobError (Bool × Knob T) :=
  match copy view otherView dimension otherDimension s.2 with
  | .ok r => .ok (s.1 || r.1, r.2)
  | .error e => .error e

/-- The loops of `Knob<T>::cloneValues` and `KnobStringBase::cloneValues`, which have the
same shape: `copy` is the call of `copyValueForType` on the source, `otherViews` is
`other->getViewsList()`. With the wildcard the dimensions run up to the `getNDimensions()`
of the target. -/
def cloneValuesLoop (copy : ViewIdx → ViewIdx → DimIdx → DimIdx → Knob T →
      Except KnobError (Bool × Knob T))
    (k : Knob T) (otherViews : List ViewIdx) (views : ViewPair) (dims : DimPair) :
    Except KnobError (Bool × Knob T) :=
  match dims with
  | .all =>
    forLoop k.dimension
      (fun i s =>
        match views with
        | .all => forEach otherViews (fun it s1 => cloneValuesStep copy it it i i s1) s
        | .views view otherView => cloneValuesStep copy view otherView i i s)
      (false, k)
  | .dims dimension otherDimension =>
    match views with
    | .all =>
      forEach otherViews
        (fun it s1 => cloneValuesStep copy it it dimension otherDimension s1) (false, k)
    | .views view otherView =>
      cloneValuesStep copy view otherView dimension otherDimension (false, k)

/-- The chain `if (isInt) ... else if (isBool) ... else if (isDouble) ...` of
`Knob<T>::cloneValues` around one call of `copyValueForType`; `k1` is the called parameter
as the earlier calls left it, which is also the source when `other` points to it: the source
then has the value type `T` of the target, and the cast `(T)` converts nothing. -/
def copyValueFromPOD [KnobPOD T] [DecidableEq T] (other : KnobIPtr)
    (view otherView : ViewIdx) (dimension otherDimension : DimIdx) (k1 : Knob T) :
    Except KnobError (Bool × Knob T) :=
  match other with
  | .null => .ok (false, k1)
  | .self => k1.copyValueForType sameCast k1 view otherView dimension otherDimension
  | .other (.intBase o) => k1.copyValueForType podCast o view otherView dimension otherDimension
  | .other (.boolBase o) =>
    k1.copyValueForType podCast o view otherView dimension otherDimension
  | .other (.doubleBase o) =>
    k1.copyValueForType podCast o view otherView dimension otherDimension
  | .other (.stringBase _) => .ok (false, k1)

/-- The function `Knob<T>::cloneValues(other, view, otherView, dimension, otherDimension)`
of the plain-old-data types: a string source fails all three casts `toKnobIntBase`,
`toKnobBoolBase` and `toKnobDoubleBase`. -/
def cloneValues [KnobPOD T] [DecidableEq T] (k : Knob T) (other : KnobIPtr)
    (views : ViewPair) (dims : DimPair) : Except KnobError (Bool × Knob T) :=
  match other with
  | .null => .ok (false, k)
  | .self => cloneValuesLoop (copyValueFromPOD .self) k k.getViewsList views dims
  | .other (.stringBase _) => .ok (false, k)
  | .other a => cloneValuesLoop (copyValueFromPOD (.other a)) k a.helper.viewsList views dims

end Knob

namespace KnobStringBase

/-- The call `copyValueForType<std::string>(isString, ...)` of
`KnobStringBase::cloneValues`; `k1` is the called parameter as the earlier calls left it. -/
def copyValueFromString (other : KnobIPtr) (view otherView : ViewIdx)
    (dimension otherDimension : DimIdx) (k1 : Knob String) :
    Except KnobError (Bool × Knob String) :=
  match other with
  | .self => k1.copyValueForType sameCast k1 view otherView dimension otherDimension
  | .other (.stringBase o) =>
    k1.copyValueForType sameCast o view otherView dimension otherDimension
  | _ => .ok (false, k1)

/-- The specialisation `KnobStringBase::cloneValues`: a source that is not a string
parameter fails the cast `toKnobStringBase`. -/
def cloneValues (k : Knob String) (other : KnobIPtr) (views : ViewPair) (dims : DimPair) :
    Except KnobError (Bool × Knob String) :=
  match other with
  | .self => Knob.cloneValuesLoop (copyValueFromString .self) k k.getViewsList views dims
  | .other (.stringBase o) =>
    Knob.cloneValuesLoop (copyValueFromString (.other (.stringBase o))) k o.getViewsList
      views dims
  | _ => .ok (false, k)

end KnobStringBase

namespace Knob

variable {T : Type}

/-- The target and source (dimension, view) pairs a clone addresses: with the dimension
wildcard every dimension of the target paired with itself, with the view wildcard every
declared view of the source paired with itself. -/
def clonePairs (k : Knob T) (otherViews : List ViewIdx) (views : ViewPair) (dims : DimPair) :
    List ((DimIdx × ViewIdx) × (DimIdx × ViewIdx)) :=
  let ds : List (DimIdx × DimIdx) :=
    match dims with
    | .all => (List.range k.dimension).map (fun i : Nat => ((i : Int), (i : Int)))
    | .dims dimension otherDimension => [(dimension, otherDimension)]
  let vs : List (ViewIdx × ViewIdx) :=
    match views with
    | .all => otherViews.map (fun v => (v, v))
    | .views view otherView => [(view, otherView)]
  ds.flatMap (fun d => vs.map (fun v => ((d.1, v.1), (d.2, v.2))))

/-- Modelled from the spec: `beginChanges()`, which opens a change-transaction on the
owner. -/
def beginChanges (k : Knob T) : Knob T :=
  { k with signals := k.signals ++ [.beginChanges] }

/-- Modelled from the spec: `endChanges()`, which closes the change-transaction. -/
def endChanges (k : Knob T) : Knob T :=
  { k with signals := k.signals ++ [.endChanges] }

/-- Modelled from the spec: `evaluateValueChange(dimension, time, view, reason)`, the forced
value-change evaluation. -/
def evaluateValueChange (k : Knob T) (dimension : DimSpec) (time : ℚ) (view : ViewSetSpec)
    (reason : ValueChangedReasonEnum) : Knob T :=
  { k with signals := k.signals ++ [.evaluateValueChange dimension time view reason] }

/-- Modelled from the spec: `getHolder()->updateHasAnimation()`, the request to the owner
to refresh its aggregate animation-presence flag. -/
def updateHasAnimation (k : Knob T) : Knob T :=
  { k with signals := k.signals ++ [.updateHasAnimation] }

/-- Modelled from the spec: `cloneExpressions(other, view, otherView, dimension,
otherDimension)`, the sub-copy of the expressions: every addressed (dimension, view) takes
the expression text of its source, and the result tells whether a text changed. -/
def cloneExpressions (k : Knob T) (other : AnyKnob) (views : ViewPair) (dims : DimPair) :
    Bool × Knob T :=
  let pairs := k.clonePairs other.helper.viewsList views dims
  (pairs.any (fun p => k.expressions p.1.1 p.1.2 != other.helper.expressions p.2.1 p.2.2),
    { k with
      expressions := fun i w =>
        match pairs.find? (fun p => decide (p.1 = (i, w))) with
        | some p => other.helper.expressions p.2.1 p.2.2
        | none => k.expressions i w })

/-- Modelled from the spec: `cloneCurves(other, view, otherView, dimension, otherDimension,
offset, range)`, the sub-copy of the animation: every addressed (dimension, view) takes the
keyframes of its source that lie in `range`, moved by `offset`, and the result tells
whether a curve changed. -/
def cloneCurves (k : Knob T) (other : AnyKnob) (views : ViewPair) (dims : DimPair)
    (offset : ℚ) (range : Option RangeD) : Bool × Knob T :=
  let pairs := k.clonePairs other.helper.viewsList views dims
  let copied : List KeyFrame → List KeyFrame := fun c =>
    (c.filter (fun key =>
      match range with
      | some r => decide (r.min ≤ key.time ∧ key.time ≤ r.max)
      | none => true)).map (fun key => { key with time := key.time + offset })
  (pairs.any (fun p => k.curves p.1.1 p.1.2 != copied (other.helper.curves p.2.1 p.2.2)),
    { k with
      curves := fun i w =>
        match pairs.find? (fun p => decide (p.1 = (i, w))) with
        | some p => copied (other.helper.curves p.2.1 p.2.2)
        | none => k.curves i w })

/-- Modelled from the spec: the virtual hook `cloneExtraData(...)`, the sub-copy of the
type-specific extra data, of which the engine state holds none. -/
def cloneExtraData (k : Knob T) (_other : AnyKnob) (_views : ViewPair) (_dims : DimPair)
    (_offset : ℚ) (_range : Option RangeD) : Bool × Knob T :=
  (false, k)

/-- The function `Knob<T>::copyKnob(other, view, dimension, otherView, otherDimension,
range, offset)`. The virtual call `cloneValues` resolves to `Knob<T>::cloneValues` or to
`KnobStringBase::cloneValues`. -/
def copyKnob (cloneValues : Knob T → KnobIPtr → ViewPair → DimPair →
      Except KnobError (Bool × Knob T))
    (k : Knob T) (other : KnobIPtr) (views : ViewPair) (dims : DimPair)
    (range : Option RangeD) (offset : ℚ) : Except KnobError (Bool × Knob T) :=
  match other with
  | .null => .ok (false, k)
  | .self => .ok (false, k)
  | .other a =>
    let k1 := k.beginChanges
    match cloneValues k1 (.other a) views dims with
    | .error e => .error e
    | .ok r1 =>
      let r2 := r1.2.cloneExpressions a views dims
      let r3 := r2.2.cloneCurves a views dims offset range
      let r4 := r3.2.cloneExtraData a views dims offset range
      let hasChanged := r1.1 || r2.1 || r3.1 || r4.1
      let k5 := if r4.2.hasHolder then r4.2.updateHasAnimation else r4.2
      let k6 :=
        k5.evaluateValueChange dims.dimension k5.getCurrentTime views.view
          .eValueChangedReasonNatronInternalEdited
      .ok (hasChanged, k6.endChanges)

/-- The entry of the value store for a (dimension, view), `none` when the store has no map
for the dimension or the map no entry for the view. -/
def storedValue (k : Knob T) (i : Nat) (view : ViewIdx) : Option T :=
  match k._values[i]? with
  | some m => m.find view
  | none => none

end Knob

namespace Knob

variable {T : Type}

/-- Modelled from the spec: `resetMaster(dimension, view)`, which "severs the edge" of the
(dimension, view). -/
def resetMaster (k : Knob T) (dimension : DimIdx) (view : ViewIdx) : Knob T :=
  { k with
    masters := fun i w => if i = dimension ∧ w = view then none else k.masters i w }

/-- Modelled from the spec: `setEnabled(dimension, b)`, with `true` it "re-enables editing on
that dimension". -/
def setEnabled (k : Knob T) (dimension : DimIdx) (b : Bool) : Knob T :=
  { k with enabled := fun i => if i = dimension then b else k.enabled i }

/-- Modelled from the spec: `refreshAnimationLevel(view, dimension)`, which "refreshes the
cached animation-level flag", a state of the user interface the engine state does not
hold; the call is recorded. -/
def refreshAnimationLevel (k : Knob T) (view : ViewIdx) (dimension : DimIdx) : Knob T :=
  { k with signals := k.signals ++ [.refreshAnimationLevel view dimension] }

/-- A call recorded only under a condition: `if (c) { s }`. -/
def emitIf (k : Knob T) (c : Bool) (s : Signal) : Knob T :=
  if c then { k with signals := k.signals ++ [s] } else k

/-- The statements of `unSlaveInternal` that follow the copy of the state (lines 524-537):
`s_knobSlaved` for a plug-in edit, `onKnobSlaved` on the owner when there is one,
`removeListener` on the master, and `refreshAnimationLevel` when nothing was copied. -/
def unSlaveNotify (k : Knob T) (master : Nat) (linkData : MasterKnobLink) (dimension : DimIdx)
    (view : ViewIdx) (reason : ValueChangedReasonEnum) (hasChanged : Bool) : Knob T :=
  let k4 :=
    k.emitIf (decide (reason = .eValueChangedReasonPluginEdited))
      (.s_knobSlaved dimension view false)
  let k5 := k4.emitIf k4.hasHolder (.onKnobSlaved linkData.masterDimension dimension false)
  let k6 := k5.emitIf true (.removeListener master dimension)
  if !hasChanged then k6.refreshAnimationLevel view dimension else k6

/-- The function `Knob<T>::unSlaveInternal(dimension, view, reason, copyState)`. The weak
pointer of the link is `none` once the master is destroyed; `lock` resolves the identity of
a live master to the pointer `masterKnob.lock()` returns. The call of `copyKnob` binds its
arguments by position: `copyKnob(other, view, dimension, otherView, otherDimension)`
receives `(masterHelper, view, linkData.masterView, dimension, linkData.masterDimension)`. -/
def unSlaveInternal (cloneValues : Knob T → KnobIPtr → ViewPair → DimPair →
      Except KnobError (Bool × Knob T))
    (lock : Nat → KnobIPtr) (k : Knob T) (dimension : DimIdx) (view : ViewIdx)
    (reason : ValueChangedReasonEnum) (copyState : Bool) : Except KnobError (Knob T) :=
  match k.getMaster dimension view with
  | none => .ok k
  | some linkData =>
    match linkData.masterKnob with
    | none => .ok k
    | some master =>
      match lock master with
      | .null => .ok k
      | masterHelper =>
        let k1 : Knob T := { k with signals := k.signals ++ [.disconnect master] }
        let k2 := k1.resetMaster dimension view
        let k3 := k2.setEnabled dimension true
        let copied : Except KnobError (Bool × Knob T) :=
          if copyState then
            k3.copyKnob cloneValues masterHelper
              (.views view dimension.toNat)
              (.dims (linkData.masterView : Int) linkData.masterDimension) none 0
          else .ok (false, k3)
        match copied with
        | .error e => .error e
        | .ok r => .ok (r.2.unSlaveNotify master linkData dimension view reason r.1)

end Knob

/-! ## `KnobImpl.h`: the expression bridge -/

/-- A result of the scripting evaluator, a Python 2 object: a `float`, an `int` (a C
`long`), a `long` (unbounded), a `bool`, a `unicode` text, a `str` text, `None`, or a
container with a number of items. -/
inductive PyObject where
  | pyFloat (x : ℚ)
  | pyInt (n : Int)
  | pyLong (n : Int)
  | pyBool (b : Bool)
  | pyUnicode (s : String)
  | pyString (s : String)
  | pyNone
  | pyContainer (size : Nat)
deriving DecidableEq, Repr

/-- The constant `LONG_MAX` of `<climits>`, for a 64-bit `long`. -/
def LONG_MAX : Int := 2 ^ 63 - 1

/-- The constant `LONG_MIN` of `<climits>`, for a 64-bit `long`. -/
def LONG_MIN : Int := -(2 ^ 63)

/-- The conversion `(int)n` of a `long` to a 32-bit `int`, which keeps the low 32 bits. -/
def longToInt (n : Int) : Int := (n + 2 ^ 31) % 2 ^ 32 - 2 ^ 31

/-- The C API test `PyFloat_Check(o)`. -/
def PyFloat_Check (o : PyObject) : Bool :=
  match o with
  | .pyFloat _ => true
  | _ => false

/-- The C API test `PyInt_Check(o)`; `bool` is a subtype of `int`. -/
def PyInt_Check (o : PyObject) : Bool :=
  match o with
  | .pyInt _ => true
  | .pyBool _ => true
  | _ => false

/-- The C API test `PyLong_Check(o)`. -/
def PyLong_Check (o : PyObject) : Bool :=
  match o with
  | .pyLong _ => true
  | _ => false

/-- The C API test `PyUnicode_Check(o)`. -/
def PyUnicode_Check (o : PyObject) : Bool :=
  match o with
  | .pyUnicode _ => true
  | _ => false

/-- The C API test `PyString_Check(o)`. -/
def PyString_Check (o : PyObject) : Bool :=
  match o with
  | .pyString _ => true
  | _ => false

/-- The C API function `PyObject_IsTrue(o)`: 1 when the object is true, 0 when it is false.
Zero, the empty text, `None` and the empty container are false. -/
def PyObject_IsTrue (o : PyObject) : Int :=
  match o with
  | .pyFloat x => if x = 0 then 0 else 1
  | .pyInt n => if n = 0 then 0 else 1
  | .pyLong n => if n = 0 then 0 else 1
  | .pyBool b => if b then 1 else 0
  | .pyUnicode s => if s.isEmpty then 0 else 1
  | .pyString s => if s.isEmpty then 0 else 1
  | .pyNone => 0
  | .pyContainer size => if size = 0 then 0 else 1

/-- The C API function `PyInt_AsLong(o)`: the value of an `int` or `bool`; any other object
is first converted as by `int(o)`, which truncates a `float` toward zero; -1 when the
conversion fails or the value does not fit a `long`. -/
def PyInt_AsLong (o : PyObject) : Int :=
  match o with
  | .pyInt n => n
  | .pyBool b => if b then 1 else 0
  | .pyLong n => if LONG_MIN ≤ n ∧ n ≤ LONG_MAX then n else -1
  | .pyFloat x =>
    if LONG_MIN ≤ doubleToInt x ∧ doubleToInt x ≤ LONG_MAX then doubleToInt x else -1
  | _ => -1

/-- The C API function `PyLong_AsLong(o)`: the value of a `long` that fits a `long`, -1 with
an overflow error otherwise; other objects are converted as by `PyInt_AsLong`. -/
def PyLong_AsLong (o : PyObject) : Int :=
  match o with
  | .pyLong n => if LONG_MIN ≤ n ∧ n ≤ LONG_MAX then n else -1
  | _ => PyInt_AsLong o

/-- The C API function `PyFloat_AsDouble(o)`: the value of a `float`; an `int`, `long` or
`bool` is converted as by `float(o)`; -1.0 when the object has no such conversion. -/
def PyFloat_AsDouble (o : PyObject) : ℚ :=
  match o with
  | .pyFloat x => x
  | .pyInt n => (n : ℚ)
  | .pyLong n => (n : ℚ)
  | .pyBool b => if b then 1 else 0
  | _ => -1

/-- The specialisation `KnobHelper::pyObjectToType<int>(o, view)`. -/
def pyObjectToTypeInt (o : PyObject) (_view : ViewIdx) : Int :=
  longToInt (PyInt_AsLong o)

/-- The specialisation `KnobHelper::pyObjectToType<bool>(o, view)`. -/
def pyObjectToTypeBool (o : PyObject) (_view : ViewIdx) : Bool :=
  if PyObject_IsTrue o = 1 then true else false

/-- The specialisation `KnobHelper::pyObjectToType<double>(o, view)`. -/
def pyObjectToTypeDouble (o : PyObject) (_view : ViewIdx) : ℚ :=
  PyFloat_AsDouble o

/-- The specialisation `KnobHelper::pyObjectToType<std::string>(o, view)`.
`isStringAnimated` is the result of `dynamic_cast<const AnimatingKnobStringHelper*>(this)`,
consumed through its `stringFromInterpolatedValue(index, view)`. -/
def pyObjectToTypeString (isStringAnimated : Option (Int → ViewIdx → String)) (o : PyObject)
    (view : ViewIdx) : String :=
  match o with
  | .pyUnicode s => s
  | .pyString s => s
  | _ =>
    let index : Int := 0
    let index :=
      if PyFloat_Check o then ⌊PyFloat_AsDouble o + 1 / 2⌋
      else if PyLong_Check o then longToInt (PyInt_AsLong o)
      else if PyObject_IsTrue o = 1 then 1
      else index
    match isStringAnimated with
    | none => ""
    | some stringFromInterpolatedValue => stringFromInterpolatedValue index view

/-- The function `hashFunction(a)` on `unsigned int`, a 32-bit integer whose sum and
product wrap around. -/
def hashFunction (a : Nat) : Nat :=
  let a := (a ^^^ 61) ^^^ (a >>> 16)
  let a := (a + (a <<< 3)) % 2 ^ 32
  let a := a ^^^ (a >>> 4)
  let a := (a * 0x27d4eb2d) % 2 ^ 32
  let a := a ^^^ (a >>> 15)
  a

/-- The conversion of a `DimIdx` to the `unsigned int` parameter of `hashFunction`. -/
def dimToUnsigned (dimension : DimIdx) : Nat := (dimension % 2 ^ 32).toNat

namespace Knob

variable {T : Type}

/-- Modelled from the spec: `randomSeed(time, seed)`, which reseeds "the parameter's
internal pseudo-random generator with a value derived from" its two arguments: the state of
the generator after the call is determined by them. -/
def randomSeed (k : Knob T) (time : ℚ) (seed : Nat) : Knob T :=
  { k with randomState := { time := time, seed := seed } }

/-- The function `Knob<T>::evaluateExpression(time, view, dimension, value, error)`: the
value or the error message, and the parameter as the call leaves it. `executeExpression` is
the scripting evaluator, which sees the parameter and its generator; `pyObjectToType` is
the specialisation of `pyObjectToType<T>`. -/
def evaluateExpression (pyObjectToType : PyObject → ViewIdx → T)
    (executeExpression : Knob T → ℚ → ViewIdx → DimIdx → Except String PyObject)
    (k : Knob T) (time : ℚ) (view : ViewIdx) (dimension : DimIdx) :
    Except String T × Knob T :=
  let k1 := k.randomSeed time (hashFunction (dimToUnsigned dimension))
  match executeExpression k1 time view dimension with
  | .error e => (.error e, k1)
  | .ok ret => (.ok (pyObjectToType ret view), k1)

/-- The function `Knob<T>::evaluateExpression_pod(time, view, dimension, value, error)`. -/
def evaluateExpression_pod
    (executeExpression : Knob T → ℚ → ViewIdx → DimIdx → Except String PyObject)
    (k : Knob T) (time : ℚ) (view : ViewIdx) (dimension : DimIdx) :
    Except String ℚ × Knob T :=
  let k1 := k.randomSeed time (hashFunction (dimToUnsigned dimension))
  match executeExpression k1 time view dimension with
  | .error e => (.error e, k1)
  | .ok ret =>
    if PyFloat_Check ret then (.ok (PyFloat_AsDouble ret), k1)
    else if PyInt_Check ret then (.ok ((longToInt (PyInt_AsLong ret) : Int) : ℚ), k1)
    else if PyLong_Check ret then (.ok ((longToInt (PyLong_AsLong ret) : Int) : ℚ), k1)
    else if PyObject_IsTrue ret = 1 then (.ok 1, k1)
    else (.ok 0, k1)

end Knob

/-! ## `KnobImpl.h`: the hash contributor -/

/-- What is appended to the `Hash64` sink: the fingerprint of a curve
(`Hash64::appendCurve`), an encoded text (`Hash64::appendQString`) or a value
(`hash->append(v)`). -/
inductive HashItem (T : Type) where
  | curve (keys : List KeyFrame)
  | qstring (s : String)
  | value (v : T)

/-- The sink `Hash64`, as the sequence of what was appended. -/
abbrev Hash64 (T : Type) := List (HashItem T)

/-- The function template `handleAnimatedHashing(knob, view, dimension, hash)`. -/
def handleAnimatedHashing {T : Type} (knob : Knob T) (view : ViewIdx) (dimension : DimIdx)
    (hash : Hash64 T) : Hash64 T :=
  hash ++ [.curve (knob.getCurve view dimension)]

/-- The specialisation of `handleAnimatedHashing` for `Knob<std::string>`. `isAnimated` is
the result of `dynamic_cast<AnimatingKnobStringHelper*>(knob)`, consumed through the
keys `getStringAnimation()->save(&keys)` returns: per view, the texts in time order. -/
def KnobStringBase.handleAnimatedHashing
    (isAnimated : Option (PerViewMap (List (ℚ × String)))) (knob : Knob String)
    (view : ViewIdx) (dimension : DimIdx) (hash : Hash64 String) : Hash64 String :=
  match isAnimated with
  | some keys =>
    keys.foldl (fun h it => it.2.foldl (fun h2 it2 => h2 ++ [.qstring it2.2]) h) hash
  | none => hash ++ [.curve (knob.getCurve view dimension)]

/-- The function template `appendValueToHash(v, hash)`. -/
def appendValueToHash {T : Type} (v : T) (hash : Hash64 T) : Hash64 T :=
  hash ++ [.value v]

/-- The specialisation of `appendValueToHash` for `std::string`. -/
def KnobStringBase.appendValueToHash (v : String) (hash : Hash64 String) : Hash64 String :=
  hash ++ [.qstring v]

namespace Knob

variable {T : Type}

/-- Modelled from the spec: `getHashingStrategy()`, the "policy selecting whether
cache-identity digests reflect only the instantaneous value or the full animation
timeline". -/
def getHashingStrategy (k : Knob T) : KnobFrameViewHashingStrategyEnum := k.hashingStrategy

/-- Modelled from the spec: `isAnimated(dimension, view)`, "the dimension is animated": its
curve is. -/
def isAnimated (k : Knob T) (dimension : DimIdx) (view : ViewIdx) : Bool :=
  curveIsAnimated (k.getCurve view dimension)

/-- The function `Knob<T>::appendToHash(time, view, hash)`. `handleAnimated` and
`appendValue` are the specialisations of `handleAnimatedHashing` and `appendValueToHash`
for `T`; `getValueAtTime` is the resolving read; `isAnimated(i)` is called without a view
and addresses the current view. -/
def appendToHash (handleAnimated : Knob T → ViewIdx → DimIdx → Hash64 T → Hash64 T)
    (appendValue : T → Hash64 T → Hash64 T) (currentView : ViewIdx)
    (getValueAtTime : ℚ → DimIdx → ViewIdx → T) (k : Knob T) (time : ℚ) (view : ViewIdx)
    (hash : Hash64 T) : Except KnobError (Hash64 T) :=
  let hashingStrat := k.getHashingStrategy
  forLoop k.dimension
    (fun i h =>
      if hashingStrat = .eKnobHashingStrategyAnimation ∧ k.isAnimated (i : Int) currentView
          = true then
        .ok (handleAnimated k view (i : Int) h)
      else
        let v := getValueAtTime time (i : Int) view
        .ok (appendValue v h))
    hash

end Knob

/-! ## `KnobImpl.h`: the views of the value store -/

namespace Knob

variable {T : Type}

/-- The function `Knob<T>::splitView(view)`. The subscript `_values[i][ViewIdx(0)]` adds an
entry holding `T()` when the map of the dimension has none for the main view. `base` is the
call `KnobHelper::splitView(view)` that ends the function; it acts on the base-class part of
the parameter. -/
def splitView [KnobValue T] (base : KnobHelper → ViewIdx → KnobHelper) (k : Knob T)
    (view : ViewIdx) : Except KnobError (Knob T) :=
  match forLoop k.dimension
      (fun i vals =>
        vecModify vals i (fun m =>
          let m1 : PerViewMap T :=
            match m.find 0 with
            | some _ => m
            | none => m.assign 0 KnobValue.zero
          let mainViewVal : T :=
            match m1.find 0 with
            | some x => x
            | none => KnobValue.zero
          m1.assign view mainViewVal))
      k._values with
  | .ok vals => .ok { k with toKnobHelper := base k.toKnobHelper view, _values := vals }
  | .error e => .error e

/-- The function `Knob<T>::unSplitView(view)`. `base` is the call
`KnobHelper::unSplitView(view)` that ends the function; it acts on the base-class part of
the parameter. -/
def unSplitView (base : KnobHelper → ViewIdx → KnobHelper) (k : Knob T) (view : ViewIdx) :
    Except KnobError (Knob T) :=
  match forLoop k.dimension
      (fun i vals =>
        vecModify vals i (fun m =>
          match m.find view with
          | some _ => m.erase view
          | none => m))
      k._values with
  | .ok vals => .ok { k with toKnobHelper := base k.toKnobHelper view, _values := vals }
  | .error e => .error e

/-! ## `KnobImpl.h`: the cache of expression results -/

/-- The statement `it->second.clear()` on every entry of a per-view map. -/
def clearAllViews (m : PerViewMap (FrameValueMap T)) : PerViewMap (FrameValueMap T) :=
  m.map (fun it => (it.1, []))

/-- The function `Knob<T>::clearExpressionsResults(dimension, view)`. The state of the loop
over the dimensions pairs the cache with whether the `return` inside the loop has been
taken. -/
def clearExpressionsResults (ctx : EvalContext) (k : Knob T) (dimension : DimSpec)
    (view : ViewSetSpec) : Except KnobError (Knob T) :=
  match dimension with
  | .all =>
    match forLoop k.dimension
        (fun i (st : List (PerViewMap (FrameValueMap T)) × Bool) =>
          if st.2 then .ok st
          else
            match view with
            | .all =>
              match vecModify st.1 i clearAllViews with
              | .ok res => .ok (res, false)
              | .error e => .error e
            | .view v =>
              let view_i := ctx.getViewIdxFromGetSpec (.view v)
              match vecGet st.1 i with
              | .error e => .error e
              | .ok m =>
                match m.find view_i with
                | none => .ok (st.1, true)
                | some _ =>
                  match vecModify st.1 i (fun m1 => m1.assign view_i []) with
                  | .ok res => .ok (res, false)
                  | .error e => .error e)
        (k._exprRes, false) with
    | .ok st => .ok { k with _exprRes := st.1 }
    | .error e => .error e
  | .dim d =>
    if d < 0 ∨ d ≥ k.getNDimensions then .error .invalidArgument
    else
      match view with
      | .all =>
        match vecModify k._exprRes d clearAllViews with
        | .ok res => .ok { k with _exprRes := res }
        | .error e => .error e
      | .view v =>
        let view_i := ctx.getViewIdxFromGetSpec (.view v)
        match vecGet k._exprRes d with
        | .error e => .error e
        | .ok m =>
          match m.find view_i with
          | none => .ok k
          | some _ =>
            match vecModify k._exprRes d (fun m1 => m1.assign view_i []) with
            | .ok res => .ok { k with _exprRes := res }
            | .error e => .error e

/-- The function `Knob<T>::getExpressionResults(dim, view, map)`: the argument `map` as the
call leaves it. -/
def getExpressionResults (ctx : EvalContext) (k : Knob T) (dim : DimIdx) (view : ViewGetSpec)
    (map : FrameValueMap T) : Except KnobError (FrameValueMap T) :=
  if dim < 0 ∨ dim ≥ k.getNDimensions then .error .invalidArgument
  else
    let view_i := ctx.getViewIdxFromGetSpec view
    match vecGet k._exprRes dim with
    | .error e => .error e
    | .ok m =>
      match m.find view_i with
      | none => .ok map
      | some r => .ok r

end Knob

/-! ## `KnobImpl.h`: the scopes of the locks -/

/-- The two locks of a parameter: `_valueMutex` and `_minMaxMutex`. -/
inductive Lock where
  | valueMutex
  | minMaxMutex
deriving DecidableEq, Repr

/-- What a call does that matters to locking, in program order: the construction of a
`QMutexLocker` or `QWriteLocker`, its destruction at the end of the enclosing block, and the
emission of a notification. -/
inductive LockEvent where
  | acquire (l : Lock)
  | release (l : Lock)
  | notify (s : Signal)
deriving DecidableEq, Repr

/-- A block `{ QMutexLocker l(&mutex); body }`: the lock is held from the construction of the
locker to the end of the block. -/
def locked (l : Lock) (body : List LockEvent) : List LockEvent :=
  [.acquire l] ++ body ++ [.release l]

/-- The notifications a call emitted, read off the log of the state before and after it. -/
def emitted (before after : List Signal) : List LockEvent :=
  (after.drop before.length).map .notify

/-- The number of locks held after the events, `depth` being the number held before. -/
def finalDepth (depth : Nat) (events : List LockEvent) : Nat :=
  match events with
  | [] => depth
  | .acquire _ :: rest => finalDepth (depth + 1) rest
  | .release _ :: rest => finalDepth (depth - 1) rest
  | .notify _ :: rest => finalDepth depth rest

/-- The notifications among the events, each with the number of locks held when it is
emitted, `depth` being the number held before the first event. -/
def notifyDepths (depth : Nat) (events : List LockEvent) : List (Signal × Nat) :=
  match events with
  | [] => []
  | .acquire _ :: rest => notifyDepths (depth + 1) rest
  | .release _ :: rest => notifyDepths (depth - 1) rest
  | .notify s :: rest => (s, depth) :: notifyDepths depth rest

namespace Knob

variable {T : Type}

/-- The lock scopes of `setRange`: the block that holds the `QWriteLocker` on
`_minMaxMutex`, then `s_minMaxChanged`. -/
def setRangeTrace (k : Knob T) (mini maxi : T) (dimension : DimSpec) : List LockEvent :=
  locked .minMaxMutex [] ++
    match k.setRange mini maxi dimension with
    | .ok k1 => emitted k.signals k1.signals
    | .error _ => []

/-- The lock scopes of `setDisplayRange`: the block that holds the `QWriteLocker` on
`_minMaxMutex`, then `s_displayMinMaxChanged`. -/
def setDisplayRangeTrace (k : Knob T) (mini maxi : T) (dimension : DimSpec) :
    List LockEvent :=
  locked .minMaxMutex [] ++
    match k.setDisplayRange mini maxi dimension with
    | .ok k1 => emitted k.signals k1.signals
    | .error _ => []

/-- The block `if (!hasModif) { QMutexLocker k(&_valueMutex); ... }` of
`computeHasModifications()` on one (dimension, view): entered when the expression, the curve
and the link have left the flag false. -/
def computeHasModifLocks (k : Knob T) (i : DimIdx) (view : ViewIdx) : List LockEvent :=
  let hasModif0 := !(k.getExpression i view).isEmpty
  let hasModif1 := if !hasModif0 then curveIsAnimated (k.getCurve view i) else hasModif0
  let hasModif2 := if !hasModif1 then (k.getMaster i view).isSome else hasModif1
  if !hasModif2 then locked .valueMutex [] else []

/-- The lock scopes of `computeHasModifications()`: the blocks inside the two loops, then
the notification after them. -/
def computeHasModificationsTrace [DecidableEq T] (k : Knob T) : List LockEvent :=
  match k.computeHasModifications with
  | .ok k1 =>
    (List.range k.dimension).flatMap
        (fun i : Nat => k.getViewsList.flatMap (fun view => k.computeHasModifLocks (i : Int) view))
      ++ emitted k.signals k1.signals
  | .error _ => []

/-- The lock scopes of the loop of `resetToDefaultValue` that reads the default values: one
block `{ QMutexLocker l(&_valueMutex); defValues[i] = _defaultValues[i].value; }` for every
addressed dimension. -/
def collectDefaultsTrace (nDims : Nat) (dimension : DimSpec) : List LockEvent :=
  (List.range nDims).flatMap
    (fun i : Nat => if dimension.targets (i : Int) then locked .valueMutex [] else [])

/-- The lock scopes of `resetToDefaultValue(dimension, view)`, as the compiler resolves the
call: the notifications of `removeAnimation`, `clearExpression` and
`resetExtraToDefaultValue`, then, unless the parameter is a `KnobDoubleBase` that is no
`KnobDouble`, the blocks that read the default values and the notifications of the
value-set path. -/
def resetToDefaultValueTrace [KnobPOD T] (k : Knob T) (dimension : DimSpec)
    (view : ViewSetSpec) : List LockEvent :=
  match k.removeAnimation view dimension with
  | .error _ => []
  | .ok k1 =>
    match k1.clearExpression dimension view true with
    | .error _ => emitted k.signals k1.signals
    | .ok k2 =>
      let k3 := k2.resetExtraToDefaultValue dimension view
      emitted k.signals k3.signals ++
        (if KnobPOD.isDoubleBase T && k1.isKnobDouble.isNone then []
        else
          collectDefaultsTrace k3.dimension dimension ++
            match k.callResetToDefaultValue dimension view with
            | .ok k4 => emitted k3.signals k4.signals
            | .error _ => [])

/-- The lock scopes of `setDefaultValue(v, dimension)`: the block that holds the
`QMutexLocker` on `_valueMutex` and writes the default records, then
`resetToDefaultValue(dimension, ViewSetSpec::all())` and `computeHasModifications()`. -/
def setDefaultValueTrace [KnobPOD T] [DecidableEq T] (k : Knob T) (v : T)
    (dimension : DimSpec) : List LockEvent :=
  locked .valueMutex [] ++
    match k.writeDefaultValue v dimension with
    | .error _ => []
    | .ok defs =>
      let k0 : Knob T := { k with _defaultValues := defs }
      k0.resetToDefaultValueTrace dimension .all ++
        match k0.callResetToDefaultValue dimension .all with
        | .error _ => []
        | .ok k1 => k1.computeHasModificationsTrace

/-- The lock scopes of `setDefaultValueWithoutApplying(v, dimension)`: the block that holds
the `QMutexLocker` on `_valueMutex` and writes the default records, then
`computeHasModifications()`. -/
def setDefaultValueWithoutApplyingTrace [DecidableEq T] (k : Knob T) (v : T)
    (dimension : DimSpec) : List LockEvent :=
  locked .valueMutex [] ++
    match k.writeDefaultValue v dimension with
    | .error _ => []
    | .ok defs => computeHasModificationsTrace { k with _defaultValues := defs }

/-- The lock scopes of `setDefaultValues(values, dimensionStartOffset)`: after the return on
an empty vector and the argument check, the `QMutexLocker` on `_valueMutex` is constructed
in the body of the function and lives to its end, past the loop that writes the default
records and past the call of `computeHasModifications()`. -/
def setDefaultValuesTrace [DecidableEq T] (k : Knob T) (values : List T)
    (dimensionStartOffset : DimIdx) : List LockEvent :=
  if values.isEmpty then []
  else
    match k.writeDefaultValues values dimensionStartOffset with
    | .error _ => []
    | .ok defs => locked .valueMutex (computeHasModificationsTrace { k with _defaultValues := defs })

/-- The lock scopes of `setDefaultValuesWithoutApplying(values, dimensionStartOffset)`, whose
body is that of `setDefaultValues`. -/
def setDefaultValuesWithoutApplyingTrace [DecidableEq T] (k : Knob T) (values : List T)
    (dimensionStartOffset : DimIdx) : List LockEvent :=
  if values.isEmpty then []
  else
    match k.writeDefaultValues values dimensionStartOffset with
    | .error _ => []
    | .ok defs => locked .valueMutex (computeHasModificationsTrace { k with _defaultValues := defs })

end Knob

/-! ## Concrete parameters -/

/-- The base state of a one-dimensional parameter that is no `KnobDouble`, at time 0. -/
def baseOneDim : KnobHelper := KnobHelper.create 1 none (fun _ _ => false) 0

/-- The base state of a two-dimensional parameter that is no `KnobDouble`, at time 0. -/
def baseTwoDim : KnobHelper := KnobHelper.create 2 none (fun _ _ => false) 0

/-- A one-dimensional integer parameter as construction and `populate()` leave it. -/
def intKnobOneDim : Knob Int where
  toKnobHelper := baseOneDim
  _values := [[(0, 0)]]
  _defaultValues := [{ initialValue := 0, value := 0, defaultValueSet := false }]
  _exprRes := [[]]
  _minimums := [INT_MIN]
  _maximums := [INT_MAX]
  _displayMins := [INT_MIN]
  _displayMaxs := [INT_MAX]

/-- A two-dimensional integer parameter as construction and `populate()` leave it. -/
def intKnobTwoDim : Knob Int where
  toKnobHelper := baseTwoDim
  _values := [[(0, 0)], [(0, 0)]]
  _defaultValues := [{ initialValue := 0, value := 0, defaultValueSet := false },
    { initialValue := 0, value := 0, defaultValueSet := false }]
  _exprRes := [[], []]
  _minimums := [INT_MIN, INT_MIN]
  _maximums := [INT_MAX, INT_MAX]
  _displayMins := [INT_MIN, INT_MIN]
  _displayMaxs := [INT_MAX, INT_MAX]

/-- The one-dimensional integer parameter with the range `[0, 10]`, as `setRange(0, 10)`
leaves it. -/
def intKnobRange10 : Knob Int :=
  { intKnobOneDim with
    _minimums := [0], _maximums := [10]
    signals := [.s_minMaxChanged .all] }

/-- A one-dimensional floating-point parameter that is no `KnobDouble` (a colour
parameter), as construction and `populate()` leave it. -/
def colorKnobOneDim : Knob ℚ where
  toKnobHelper := baseOneDim
  _values := [[(0, 0)]]
  _defaultValues := [{ initialValue := 0, value := 0, defaultValueSet := false }]
  _exprRes := [[]]
  _minimums := [-DBL_MAX]
  _maximums := [DBL_MAX]
  _displayMins := [-DBL_MAX]
  _displayMaxs := [DBL_MAX]

/-- The one-dimensional floating-point parameter with the range `[0, 10]`, as
`setRange(0, 10)` leaves it. -/
def colorKnobRange10 : Knob ℚ :=
  { colorKnobOneDim with
    _minimums := [0], _maximums := [10]
    signals := [.s_minMaxChanged .all] }

/-- A one-dimensional text parameter, as construction and `populate()` leave it. -/
def stringKnobOneDim : Knob String where
  toKnobHelper := baseOneDim
  _values := [[(0, "")]]
  _defaultValues := [{ initialValue := "", value := "", defaultValueSet := false }]
  _exprRes := [[]]
  _minimums := [""]
  _maximums := [""]
  _displayMins := [""]
  _displayMaxs := [""]

/-- A `KnobDouble` whose defaults and values are both non-normalised: no coordinate
normalisation is configured, the two conversions are never called. -/
def plainKnobDouble : KnobDouble where
  getDefaultValuesAreNormalized := false
  getValueIsNormalized := fun _ => .eValueIsNormalizedNone
  denormalize := fun _ _ x => x
  normalize := fun _ _ x => x

/-- A one-dimensional `KnobDouble` without coordinate normalisation, as construction and
`populate()` leave it. -/
def doubleKnobOneDim : Knob ℚ :=
  { colorKnobOneDim with isKnobDouble := some plainKnobDouble }

/-- The one-dimensional integer parameter with dimension 0 of the main view slaved to
dimension 0, view 0 of the live parameter 7. -/
def intKnobSlaved : Knob Int :=
  { intKnobOneDim with
    masters := fun i w =>
      if i = 0 ∧ w = 0 then
        some { masterKnob := some 7, masterDimension := 0, masterView := 0 }
      else none }

/-- Every declared view has an entry in the value store of every dimension. -/
def Knob.DeclaredViewsStored {T : Type} (k : Knob T) : Prop :=
  ∀ i : Nat, i < k.dimension → ∀ v ∈ k.getViewsList, (k.storedValue i v).isSome = true

/-- The value store of `k1` has the entries of the value store of `k`: as many maps, and
for every (dimension, view) the same entry or none in both. -/
def Knob.SameStore {T : Type} (k1 k : Knob T) : Prop :=
  k1._values.length = k._values.length ∧ ∀ (i : Nat) (v : ViewIdx),
    k1.storedValue i v = k.storedValue i v

/-- The source of a clone holds one map, one default record and one result cache per
dimension. -/
def AnyKnob.WellFormed (a : AnyKnob) : Prop :=
  match a with
  | .intBase o => o.WellFormed
  | .boolBase o => o.WellFormed
  | .doubleBase o => o.WellFormed
  | .stringBase o => o.WellFormed

/-- A context in which every read is 0, no curve is evaluated and no master is reachable:
the two master calls fail. -/
def flatContext : EvalContext where
  currentView := 0
  getValueAtTime := fun _ _ _ => 0
  getDerivativeAt := fun _ _ => 0
  getIntegrateFromTo := fun _ _ _ => 0
  masterGetDerivativeAtTime := fun _ _ _ _ => .error .invalidArgument
  masterGetIntegrateFromTimeToTime := fun _ _ _ _ _ => .error .invalidArgument

/-- A context in which the effective value at time `t` is `t` itself, on every dimension
and view, and every master has the derivative 2 and the integral `2 * (t2 - t1)`. -/
def timeContext : EvalContext :=
  { flatContext with
    getValueAtTime := fun t _ _ => t
    masterGetDerivativeAtTime := fun _ _ _ _ => .ok 2
    masterGetIntegrateFromTimeToTime := fun _ t1 t2 _ _ => .ok (2 * (t2 - t1)) }

/-- The one-dimensional integer parameter holding the raw value 3 in the main view. -/
def intKnobValue3 : Knob Int :=
  { intKnobOneDim with _values := [[(0, 3)]] }

/-- The one-dimensional integer parameter with the expression `frame` on dimension 0. -/
def intKnobExpression : Knob Int :=
  { intKnobOneDim with expressions := fun i _ => if i = 0 then "frame" else "" }

/-- The one-dimensional integer parameter with one keyframe on dimension 0 of the main
view. -/
def intKnobAnimated : Knob Int :=
  { intKnobOneDim with
    curves := fun i w => if i = 0 ∧ w = 0 then [{ time := 0, value := 1 }] else [] }

/-- The one-dimensional integer parameter with the declared views 0 and 1, of which only
view 0 has an entry in the value store. -/
def intKnobTwoViews : Knob Int :=
  { intKnobOneDim with viewsList := [0, 1] }

/-- The one-dimensional floating-point parameter with the expression `frame` on dimension
0. -/
def colorKnobExpression : Knob ℚ :=
  { colorKnobOneDim with expressions := fun i _ => if i = 0 then "frame" else "" }

/-- A one-dimensional floating-point parameter holding the raw value 5/2 in the main
view. -/
def colorKnobValue : Knob ℚ :=
  { colorKnobOneDim with _values := [[(0, 5 / 2)]] }

/-- The one-dimensional integer parameter with dimension 0 of the main view slaved to a
master that has been destroyed: the weak pointer of the link is expired and the dimension
is disabled. -/
def intKnobSlavedToExpired : Knob Int :=
  { intKnobOneDim with
    masters := fun i w =>
      if i = 0 ∧ w = 0 then
        some { masterKnob := none, masterDimension := 0, masterView := 0 }
      else none
    enabled := fun _ => false }

/-- A two-dimensional integer parameter holding 4 and 9 in the main view, with dimension 1
of the main view slaved to dimension 1, view 0 of the live parameter 7, and disabled. -/
def intKnobTwoDimSlaved : Knob Int :=
  { intKnobTwoDim with
    _values := [[(0, 4)], [(0, 9)]]
    masters := fun i w =>
      if i = 1 ∧ w = 0 then
        some { masterKnob := some 7, masterDimension := 1, masterView := 0 }
      else none
    enabled := fun i => decide (i ≠ 1) }

/-- A two-dimensional integer parameter holding 5 and 7 in the main view, the master of
`intKnobTwoDimSlaved`. -/
def intKnobTwoDimMaster : Knob Int :=
  { intKnobTwoDim with _values := [[(0, 5)], [(0, 7)]] }

/-- Every live identity resolves to `intKnobTwoDimMaster`. -/
def lockTwoDimMaster : Nat → KnobIPtr := fun _ => .other (.intBase intKnobTwoDimMaster)

/-- An evaluator whose result depends on the generator only: the sum of the two values the
generator was reseeded with. -/
def seedEvaluator {T : Type} : Knob T → ℚ → ViewIdx → DimIdx → Except String PyObject :=
  fun k _ _ _ => .ok (.pyFloat (k.randomState.time + k.randomState.seed))

/-- An evaluator that returns the text `abc` for every call. -/
def textEvaluator {T : Type} : Knob T → ℚ → ViewIdx → DimIdx → Except String PyObject :=
  fun _ _ _ _ => .ok (.pyString "abc")

/-- The two-dimensional integer parameter with the animation-aware hashing strategy and
two keyframes on dimension 1 of the main view. -/
def intKnobTwoDimAnimated : Knob Int :=
  { intKnobTwoDim with
    hashingStrategy := .eKnobHashingStrategyAnimation
    curves := fun i w =>
      if i = 1 ∧ w = 0 then [{ time := 0, value := 1 }, { time := 10, value := 2 }] else [] }

/-- A context in which the effective value at time `t` is `a * t + b`, on every dimension
and view. -/
def affineContext (a b : ℚ) : EvalContext :=
  { flatContext with getValueAtTime := fun t _ _ => a * t + b }

/-- The size invariant of the range engine: the minimums, maximums, display-minimums and
display-maximums vectors have one entry per dimension. -/
def Knob.RangeSized {T : Type} (k : Knob T) : Prop :=
  k._minimums.length = k.dimension ∧ k._maximums.length = k.dimension ∧
    k._displayMins.length = k.dimension ∧ k._displayMaxs.length = k.dimension

instance Knob.instDecidableRangeSized {T : Type} (k : Knob T) : Decidable k.RangeSized := by
  unfold Knob.RangeSized
  infer_instance

/-- The invariant of the value store that the map of every dimension holds an entry for the
main view, `ViewIdx(0)`. -/
def Knob.MainViewStored {T : Type} (k : Knob T) : Prop :=
  ∀ i : Nat, i < k.dimension → (k.storedValue i 0).isSome = true

instance Knob.instDecidableMainViewStored {T : Type} (k : Knob T) :
    Decidable k.MainViewStored := by
  unfold Knob.MainViewStored
  infer_instance

/-- A possible behaviour of the call `KnobHelper::splitView(view)`, used to run `splitView`
on concrete parameters: the view is added to the declared views and the rest of the
base-class part is kept. -/
def helperSplitView (base : KnobHelper) (view : ViewIdx) : KnobHelper :=
  { base with viewsList := base.viewsList ++ [view] }

/-- A possible behaviour of the call `KnobHelper::unSplitView(view)`, used to run
`unSplitView` on concrete parameters: the view is removed from the declared views and the
rest of the base-class part is kept. -/
def helperUnSplitView (base : KnobHelper) (view : ViewIdx) : KnobHelper :=
  { base with viewsList := base.viewsList.filter (fun w => w != view) }

/-- The two-dimensional integer parameter whose cache of expression results holds no entry
on dimension 0 and, on dimension 1, the result 5 at time 1 for view 0. -/
def intKnobTwoDimCached : Knob Int :=
  { intKnobTwoDim with _exprRes := [[], [(0, [(1, 5)])]] }

/-- The two-dimensional integer parameter whose cache of expression results holds, for view
0, the result 4 at time 1 on dimension 0 and the result 5 at time 1 on dimension 1, and for
view 1 the result 6 at time 1 on dimension 1. -/
def intKnobTwoDimCachedBoth : Knob Int :=
  { intKnobTwoDim with _exprRes := [[(0, [(1, 4)])], [(0, [(1, 5)]), (1, [(1, 6)])]] }

/-- Events that leave the number of held locks as they found it and emit every notification
with that number of locks held. -/
def KeepsDepth (events : List LockEvent) : Prop :=
  ∀ d : Nat, finalDepth d events = d ∧ ∀ p ∈ notifyDepths d events, p.2 = d

/-! ## Vectors and loops: lemmas -/

/-- The sum of two `int`s is the mathematical sum when that is a value of `int`. -/
theorem intAdd_of_fits (a b : Int) (h1 : -(2 ^ 31) ≤ a + b) (h2 : a + b ≤ 2 ^ 31 - 1) :
    intAdd a b = a + b := by
  unfold intAdd
  omega

/-- The wrapped sum of two `int`s that are not negative does not exceed their sum. -/
theorem intAdd_le (a b : Int) (ha : 0 ≤ a) (hb : 0 ≤ b) : intAdd a b ≤ a + b := by
  unfold intAdd
  omega

theorem doubleToInt_intCast (n : Int) : doubleToInt (n : ℚ) = n := by
  unfold doubleToInt
  split <;> simp

theorem doubleToIntChecked_of_fits (n : Int) (h : fitsInt n = true) :
    doubleToIntChecked (n : ℚ) = .ok n := by
  simp only [doubleToIntChecked, doubleToInt_intCast, h, if_true]

theorem vecGet_of_lt {α : Type} {xs : List α} {i : Nat} (h : i < xs.length) :
    vecGet xs (i : Int) = .ok xs[i] := by
  simp [vecGet, List.getElem?_eq_getElem h]

theorem vecModify_of_lt {α : Type} {xs : List α} {i : Nat} (h : i < xs.length)
    (f : α → α) : vecModify xs (i : Int) f = .ok (xs.set i (f xs[i])) := by
  simp [vecModify, List.getElem?_eq_getElem h]

theorem vecGet_of_some {α : Type} {xs : List α} {i : Nat} {x : α} (h : xs[i]? = some x) :
    vecGet xs (i : Int) = .ok x := by
  simp [vecGet, h]

/-- Hoare rule of the counted loop: an invariant indexed by the number of iterations
done, which every iteration re-establishes without failing, holds when the loop ends. -/
theorem forLoop_inv {σ : Type} (P : Nat → σ → Prop) (n : Nat)
    (body : Nat → σ → Except KnobError σ) (s : σ) (h0 : P 0 s)
    (hstep : ∀ i t, i < n → P i t → ∃ t', body i t = .ok t' ∧ P (i + 1) t') :
    ∃ s', forLoop n body s = .ok s' ∧ P n s' := by
  induction n with
  | zero => exact ⟨s, rfl, h0⟩
  | succ m ih =>
    obtain ⟨s1, hs1, hP1⟩ := ih (fun i t hi hP => hstep i t (Nat.lt_succ_of_lt hi) hP)
    obtain ⟨s2, hs2, hP2⟩ := hstep m s1 (Nat.lt_succ_self m) hP1
    exact ⟨s2, by simp [forLoop, hs1, hs2], hP2⟩

/-- Hoare rule of the iteration over a list, for an invariant of the state. -/
theorem forEach_inv {α σ : Type} (P : σ → Prop) (xs : List α)
    (body : α → σ → Except KnobError σ) (s : σ) (h0 : P s)
    (hstep : ∀ x t, x ∈ xs → P t → ∃ t', body x t = .ok t' ∧ P t') :
    ∃ s', forEach xs body s = .ok s' ∧ P s' := by
  induction xs generalizing s with
  | nil => exact ⟨s, rfl, h0⟩
  | cons x rest ih =>
    obtain ⟨s1, hs1, hP1⟩ := hstep x s (List.mem_cons_self x rest) h0
    obtain ⟨s2, hs2, hP2⟩ :=
      ih s1 hP1 (fun y t hy hP => hstep y t (List.mem_cons_of_mem x hy) hP)
    exact ⟨s2, by simp [forEach, hs1, hs2], hP2⟩

/-- The loop `for (i = 0; i < n; ++i) xs[i] = f(i, xs[i])` over a vector that has at least
`n` elements: it does not fail, keeps the size and rewrites the first `n` elements. -/
theorem forLoop_vecModify {α : Type} (f : Nat → α → α) (xs : List α) (n : Nat)
    (hn : n ≤ xs.length) :
    ∃ ys, forLoop n (fun i ys => vecModify ys (i : Int) (f i)) xs = .ok ys ∧
      ys.length = xs.length ∧
      ∀ j, ys[j]? = (xs[j]?).map (fun x => if j < n then f j x else x) := by
  refine forLoop_inv
    (fun i ys => ys.length = xs.length ∧
      ∀ j, ys[j]? = (xs[j]?).map (fun x => if j < i then f j x else x)) n _ xs ?_ ?_
  · refine ⟨rfl, fun j => ?_⟩
    cases xs[j]? <;> simp
  · intro i t hi ⟨hlen, hpt⟩
    have hit : i < t.length := by omega
    refine ⟨_, vecModify_of_lt hit (f i), by simp [hlen], fun j => ?_⟩
    rw [List.getElem?_set]
    by_cases hij : i = j
    · subst hij
      have h1 := hpt i
      rw [List.getElem?_eq_getElem hit, List.getElem?_eq_getElem (by omega : i < xs.length)]
        at h1
      simp at h1
      simp [hit, List.getElem?_eq_getElem (by omega : i < xs.length), h1]
    · rw [if_neg hij, hpt j]
      have : (j < i + 1) ↔ (j < i) := by omega
      simp [this]

/-! ## Modification tracking: lemmas -/

namespace Knob

variable {T : Type}

theorem storedValueHasModif_ok [DecidableEq T] (k : Knob T) (hwf : k.WellFormed) (i : Nat)
    (hi : i < k.dimension) (view : ViewIdx) :
    ∃ b, k.storedValueHasModif (i : Int) view = .ok b := by
  obtain ⟨hv, hd, _⟩ := hwf
  have h1 : vecGet k._values (i : Int) = .ok k._values[i] := vecGet_of_lt (by omega)
  have h2 : vecGet k._defaultValues (i : Int) = .ok k._defaultValues[i] :=
    vecGet_of_lt (by omega)
  unfold storedValueHasModif
  simp only [h1, h2]
  cases hf : PerViewMap.find k._values[i] view <;> exact ⟨_, rfl⟩

theorem computeHasModif_ok [DecidableEq T] (k : Knob T) (hwf : k.WellFormed) (i : Nat)
    (hi : i < k.dimension) (view : ViewIdx) :
    ∃ b, k.computeHasModif (i : Int) view = .ok b := by
  obtain ⟨b, hb⟩ := storedValueHasModif_ok k hwf i hi view
  have key : ∀ (c a : Bool), ∃ r,
      (match (if (!c) = true then k.storedValueHasModif (i : Int) view else .ok a) with
        | .ok hasModif3 =>
          Except.ok (if (!hasModif3) = true then k.hasModificationsVirtual (i : Int) view
            else hasModif3)
        | .error e => .error e) = .ok r := by
    intro c a
    cases c <;> simp only [hb] <;> exact ⟨_, rfl⟩
  exact key _ _

/-- Under the size invariant `computeHasModifications()` does not fail, and it writes the
stored modification flags and the notification log only. -/
theorem computeHasModifications_ok [DecidableEq T] (k : Knob T) (hwf : k.WellFormed) :
    ∃ flags sigs,
      k.computeHasModifications = .ok { k with modifications := flags, signals := sigs } := by
  obtain ⟨st, hst, -⟩ := forLoop_inv (fun _ _ => True) k.dimension
    (fun i st =>
      forEach k.getViewsList
        (fun view st1 =>
          match computeHasModif k i view with
          | .ok hasModif =>
            let r := setHasModifications st1.1 i view hasModif
            .ok (r.2, st1.2 || r.1)
          | .error e => .error e)
        st)
    (k.modifications, false) trivial
    (by
      intro i t hi _
      obtain ⟨t', ht', -⟩ := forEach_inv (fun _ => True) k.getViewsList
        (fun view st1 =>
          match computeHasModif k i view with
          | .ok hasModif =>
            let r := setHasModifications st1.1 i view hasModif
            .ok (r.2, st1.2 || r.1)
          | .error e => .error e)
        t trivial
        (by
          intro view t1 _ _
          obtain ⟨b, hb⟩ := computeHasModif_ok k hwf i hi view
          exact ⟨_, by simp only [hb]; rfl, trivial⟩)
      exact ⟨t', ht', trivial⟩)
  exact ⟨st.1, _, by simp only [computeHasModifications, hst]; rfl⟩

/-! ## The value-set path and reset: lemmas -/

theorem validArgs_dim {k : Knob T} {d : DimIdx} {view : ViewSetSpec}
    (h : k.validArgs (.dim d) view = true) : ∃ n : Nat, d = (n : Int) ∧ n < k.dimension := by
  simp only [validArgs, getNDimensions, Bool.and_eq_true, decide_eq_true_eq] at h
  obtain ⟨⟨h0, h1⟩, -⟩ := h
  have h2 : ((d.toNat : Nat) : Int) = d := Int.toNat_of_nonneg h0
  refine ⟨d.toNat, h2.symm, ?_⟩
  have h3 : ((d.toNat : Nat) : Int) < (k.dimension : Int) := by rw [h2]; exact h1
  exact Int.ofNat_lt.mp h3

theorem validArgs_all_of {k : Knob T} {dimension : DimSpec} {view : ViewSetSpec}
    (h : k.validArgs dimension view = true) : k.validArgs .all view = true := by
  simp only [validArgs, Bool.and_eq_true] at h ⊢
  exact ⟨trivial, h.2⟩

/-- Writing one value to one dimension for a list of views keeps the size of the store. -/
theorem forEach_assign_ok (views : List ViewIdx) (vals : List (PerViewMap T)) (n : Nat)
    (hn : n < vals.length) (v : T) :
    ∃ vals', forEach views
        (fun w vals1 => vecModify vals1 (n : Int) (fun m => m.assign w v)) vals = .ok vals' ∧
      vals'.length = vals.length := by
  refine forEach_inv (fun t => t.length = vals.length) views _ vals rfl ?_
  intro w t _ ht
  exact ⟨_, vecModify_of_lt (by omega) _, by simp [ht]⟩

/-- Under the size invariant, `setValue` on a valid dimension and view argument does not
fail; it writes the value store and the notification log only. -/
theorem setValue_ok (k : Knob T) (hlen : k._values.length = k.dimension) (v : T)
    (view : ViewSetSpec) (d : DimIdx) (reason : ValueChangedReasonEnum)
    (hv : k.validArgs (.dim d) view = true) :
    ∃ vals, vals.length = k._values.length ∧
      k.setValue v view d reason =
        .ok { k with
          _values := vals
          signals := k.signals ++ [.s_valueChanged (.dim d) view reason] } := by
  obtain ⟨n, rfl, hn⟩ := validArgs_dim hv
  obtain ⟨vals, hvals, hl⟩ := forEach_assign_ok (k.targetViews view) k._values n (by omega) v
  exact ⟨vals, hl, by simp only [setValue, hv, if_true, hvals]⟩

/-- Under the size invariant, `setValueAcrossDimensions` from dimension 0 with at most
`nDimensions` values does not fail; it writes the value store and the notification log
only. -/
theorem setValueAcrossDimensions_ok (k : Knob T) (hlen : k._values.length = k.dimension)
    (values : List T) (view : ViewSetSpec) (reason : ValueChangedReasonEnum)
    (hv : k.validArgs .all view = true) (hvals : values.length ≤ k.dimension) :
    ∃ vals, vals.length = k._values.length ∧
      k.setValueAcrossDimensions values 0 view reason =
        .ok { k with
          _values := vals
          signals := k.signals ++ [.s_valueChanged .all view reason] } := by
  obtain ⟨vals, hvals', hl⟩ := forLoop_inv (fun _ t => t.length = k._values.length)
    values.length
    (fun i vals =>
      match values[i]? with
      | some v =>
        forEach (k.targetViews view)
          (fun w vals1 => vecModify vals1 ((0 : Int) + (i : Int)) (fun m => m.assign w v)) vals
      | none => .error .outOfRange)
    k._values rfl
    (by
      intro i t hi ht
      simp only [List.getElem?_eq_getElem hi, Int.zero_add]
      obtain ⟨t', ht', hl'⟩ :=
        forEach_assign_ok (k.targetViews view) t i (by omega) values[i]
      exact ⟨t', ht', by omega⟩)
  refine ⟨vals, hl, ?_⟩
  have hc : k.validArgs .all view = true ∧ (0 : Int) ≤ 0 ∧
      (0 : Int) + (values.length : Int) ≤ k.getNDimensions := by
    refine ⟨hv, le_refl _, ?_⟩
    simp only [getNDimensions]
    omega
  simp only [setValueAcrossDimensions, hc, and_self, if_true, hvals']

/-- The loop of `resetToDefaultValue` that fills `defValues` does not fail when there is a
default record per dimension, and `defValues` has one entry per dimension. -/
theorem collectDefaults_ok [KnobPOD T] (defs : List (DefaultValue T)) (n : Nat)
    (hlen : defs.length = n) (dimension : DimSpec) (conv : DimIdx → ℚ → ℚ) :
    ∃ dv, collectDefaults defs n dimension conv = .ok dv ∧
      dv.length = n ∧
      ∀ j (hj : j < defs.length), dimension.targets (j : Int) = true →
        dv[j]? = some (conv (j : Int) (KnobPOD.toDouble defs[j].value)) := by
  subst hlen
  obtain ⟨dv, hdv, hl, hpt⟩ := forLoop_inv
    (fun i (dv : List ℚ) => dv.length = defs.length ∧
      ∀ j (hj : j < defs.length), j < i → dimension.targets (j : Int) = true →
        dv[j]? = some (conv (j : Int) (KnobPOD.toDouble defs[j].value)))
    defs.length
    (fun i dv =>
      if dimension.targets (i : Int) then
        match vecGet defs (i : Int) with
        | .ok d => vecModify dv (i : Int) (fun _ => conv (i : Int) (KnobPOD.toDouble d.value))
        | .error e => .error e
      else .ok dv)
    (List.replicate defs.length (0 : ℚ))
    ⟨by simp, fun j _ hj => absurd hj (Nat.not_lt_zero j)⟩
    (by
      intro i t hi ⟨hl, hpt⟩
      by_cases ht : dimension.targets (i : Int) = true
      · simp only [ht, if_true, vecGet_of_lt hi, vecModify_of_lt (by omega : i < t.length)]
        refine ⟨_, rfl, by simp [hl], ?_⟩
        intro j hj hji htj
        rw [List.getElem?_set]
        by_cases hij : i = j
        · subst hij
          simp [hl, hi]
        · rw [if_neg hij]
          exact hpt j hj (by omega) htj
      · simp only [ht]
        refine ⟨t, rfl, hl, ?_⟩
        intro j hj hji htj
        have hne : j ≠ i := by
          intro h
          subst h
          exact ht htj
        exact hpt j hj (by omega) htj)
  exact ⟨dv, hdv, hl, fun j hj htj => hpt j hj hj htj⟩

/-- Under the size invariant the generic `resetToDefaultValue` on valid arguments does not
fail: it empties the curve and the expression of the addressed (dimension, view) pairs and
writes the value store and the notification log. -/
theorem resetToDefaultValue_ok [KnobPOD T] (k : Knob T) (hwf : k.WellFormed)
    (dimension : DimSpec) (view : ViewSetSpec) (hv : k.validArgs dimension view = true) :
    ∃ vals, vals.length = k._values.length ∧
      k.resetToDefaultValue dimension view =
        .ok { k with
          curves := fun i w =>
            if dimension.targets i && decide (w ∈ k.targetViews view) then []
            else k.curves i w
          expressions := fun i w =>
            if dimension.targets i && decide (w ∈ k.targetViews view) then ""
            else k.expressions i w
          _values := vals
          signals := k.signals ++
            [.s_valueChanged dimension view .eValueChangedReasonRestoreDefault] } := by
  obtain ⟨hlv, hld, -⟩ := hwf
  obtain ⟨dv, hdv, hdl, hpt⟩ :=
    collectDefaults_ok k._defaultValues k.dimension hld dimension (fun _ x => x)
  have hv2 : validArgs { k with
      curves := fun i w =>
        if dimension.targets i && decide (w ∈ k.targetViews view) then []
        else k.curves i w } dimension view = true := hv
  cases dimension with
  | all =>
    obtain ⟨vals, hvl, hset⟩ := setValueAcrossDimensions_ok
      { k with
        curves := fun i w =>
          if DimSpec.all.targets i && decide (w ∈ k.targetViews view) then []
          else k.curves i w
        expressions := fun i w =>
          if DimSpec.all.targets i && decide (w ∈ k.targetViews view) then ""
          else k.expressions i w }
      hlv (dv.map KnobPOD.ofDouble) view .eValueChangedReasonRestoreDefault hv
      (by simp [hdl])
    refine ⟨vals, hvl, ?_⟩
    simp only [resetToDefaultValue, removeAnimation, hv, if_true, clearExpression, hv2,
      resetExtraToDefaultValue, bind, Except.bind]
    simp only [hdv]
    exact hset
  | dim d =>
    obtain ⟨n, rfl, hn⟩ := validArgs_dim hv
    have hnd : n < k._defaultValues.length := by omega
    obtain ⟨vals, hvl, hset⟩ := setValue_ok
      { k with
        curves := fun i w =>
          if (DimSpec.dim (n : Int)).targets i && decide (w ∈ k.targetViews view) then []
          else k.curves i w
        expressions := fun i w =>
          if (DimSpec.dim (n : Int)).targets i && decide (w ∈ k.targetViews view) then
            ""
          else k.expressions i w }
      hlv (KnobPOD.ofDouble (KnobPOD.toDouble k._defaultValues[n].value)) view
      (n : Int) .eValueChangedReasonRestoreDefault hv
    refine ⟨vals, hvl, ?_⟩
    have hget : vecGet dv (n : Int) =
        .ok (KnobPOD.toDouble k._defaultValues[n].value) :=
      vecGet_of_some (hpt n (by omega) (by simp [DimSpec.targets]))
    simp only [resetToDefaultValue, removeAnimation, hv, if_true, clearExpression, hv2,
      resetExtraToDefaultValue, bind, Except.bind]
    simp only [hdv, hget]
    exact hset

/-- Under the size invariant the specialisation `KnobDoubleBase::resetToDefaultValue` on
valid arguments does not fail: it empties the curve and the expression of the addressed
(dimension, view) pairs and writes at most the value store and the notification log. -/
theorem KnobDoubleBase_resetToDefaultValue_ok [KnobPOD T] (k : Knob T) (hwf : k.WellFormed)
    (dimension : DimSpec) (view : ViewSetSpec) (hv : k.validArgs dimension view = true) :
    ∃ vals sigs, vals.length = k._values.length ∧
      KnobDoubleBase.resetToDefaultValue k dimension view =
        .ok { k with
          curves := fun i w =>
            if dimension.targets i && decide (w ∈ k.targetViews view) then []
            else k.curves i w
          expressions := fun i w =>
            if dimension.targets i && decide (w ∈ k.targetViews view) then ""
            else k.expressions i w
          _values := vals
          signals := sigs } := by
  obtain ⟨hlv, hld, -⟩ := hwf
  have hv2 : validArgs { k with
      curves := fun i w =>
        if dimension.targets i && decide (w ∈ k.targetViews view) then []
        else k.curves i w } dimension view = true := hv
  cases hdbl : k.isKnobDouble with
  | none =>
    refine ⟨k._values, k.signals, rfl, ?_⟩
    simp only [KnobDoubleBase.resetToDefaultValue, removeAnimation, hv, if_true,
      clearExpression, hv2, resetExtraToDefaultValue, bind, Except.bind]
    simp only [hdbl]
    rfl
  | some dbl =>
    obtain ⟨dv, hdv, hdl, hpt⟩ :=
      collectDefaults_ok k._defaultValues k.dimension hld dimension
        (dbl.convertDefault k.currentTime)
    cases dimension with
    | all =>
      obtain ⟨vals, hvl, hset⟩ := setValueAcrossDimensions_ok
        { k with
          curves := fun i w =>
            if DimSpec.all.targets i && decide (w ∈ k.targetViews view) then []
            else k.curves i w
          expressions := fun i w =>
            if DimSpec.all.targets i && decide (w ∈ k.targetViews view) then ""
            else k.expressions i w }
        hlv (dv.map KnobPOD.ofDouble) view .eValueChangedReasonRestoreDefault hv
        (by simp [hdl])
      refine ⟨vals, k.signals ++
        [.s_valueChanged .all view .eValueChangedReasonRestoreDefault], hvl, ?_⟩
      simp only [KnobDoubleBase.resetToDefaultValue, removeAnimation, hv, if_true,
        clearExpression, hv2, resetExtraToDefaultValue, bind, Except.bind]
      simp only [hdbl, getCurrentTime, hdv]
      rw [hdbl] at hset
      exact hset
    | dim d =>
      obtain ⟨n, rfl, hn⟩ := validArgs_dim hv
      have hnd : n < k._defaultValues.length := by omega
      obtain ⟨vals, hvl, hset⟩ := setValue_ok
        { k with
          curves := fun i w =>
            if (DimSpec.dim (n : Int)).targets i && decide (w ∈ k.targetViews view) then []
            else k.curves i w
          expressions := fun i w =>
            if (DimSpec.dim (n : Int)).targets i && decide (w ∈ k.targetViews view) then
              ""
            else k.expressions i w }
        hlv
        (KnobPOD.ofDouble (dbl.convertDefault k.currentTime (n : Int)
          (KnobPOD.toDouble k._defaultValues[n].value))) view
        (n : Int) .eValueChangedReasonRestoreDefault hv
      refine ⟨vals, k.signals ++
        [.s_valueChanged (.dim (n : Int)) view .eValueChangedReasonRestoreDefault], hvl, ?_⟩
      have hget : vecGet dv (n : Int) =
          .ok (dbl.convertDefault k.currentTime (n : Int)
            (KnobPOD.toDouble k._defaultValues[n].value)) :=
        vecGet_of_some (hpt n (by omega) (by simp [DimSpec.targets]))
      simp only [KnobDoubleBase.resetToDefaultValue, removeAnimation, hv, if_true,
        clearExpression, hv2, resetExtraToDefaultValue, bind, Except.bind]
      simp only [hdbl, getCurrentTime, hdv, hget]
      rw [hdbl] at hset
      exact hset

/-- Under the size invariant, the call `resetToDefaultValue(dimension, view)` on valid
arguments does not fail for any value type; it leaves the default records, the master
links and the sizes alone. -/
theorem callResetToDefaultValue_ok [KnobPOD T] (k : Knob T) (hwf : k.WellFormed)
    (dimension : DimSpec) (view : ViewSetSpec) (hv : k.validArgs dimension view = true) :
    ∃ vals sigs, vals.length = k._values.length ∧
      k.callResetToDefaultValue dimension view =
        .ok { k with
          curves := fun i w =>
            if dimension.targets i && decide (w ∈ k.targetViews view) then []
            else k.curves i w
          expressions := fun i w =>
            if dimension.targets i && decide (w ∈ k.targetViews view) then ""
            else k.expressions i w
          _values := vals
          signals := sigs } := by
  unfold callResetToDefaultValue
  split
  · exact KnobDoubleBase_resetToDefaultValue_ok k hwf dimension view hv
  · obtain ⟨vals, hvl, h⟩ := resetToDefaultValue_ok k hwf dimension view hv
    exact ⟨vals, _, hvl, h⟩

/-! ## The default engine: lemmas -/

theorem writeDefaultValue_ok (k : Knob T) (hld : k._defaultValues.length = k.dimension)
    (v : T) (dimension : DimSpec)
    (hdim : ∀ i, dimension = .dim i → 0 ≤ i ∧ i < (k.dimension : Int)) :
    ∃ defs, k.writeDefaultValue v dimension = .ok defs ∧
      defs.length = k._defaultValues.length ∧
      ∀ j : Nat, defs[j]? = (k._defaultValues[j]?).map
        (fun r => if dimension.targets (j : Int) then r.writeDefault v else r) := by
  cases dimension with
  | all =>
    obtain ⟨ys, hys, hl, hpt⟩ := forLoop_vecModify (fun _ (r : DefaultValue T) => r.writeDefault v)
      k._defaultValues k.dimension (by omega)
    refine ⟨ys, hys, hl, fun j => ?_⟩
    rw [hpt j]
    cases hj : k._defaultValues[j]? with
    | none => rfl
    | some r =>
      have : j < k.dimension := by
        have := (List.getElem?_eq_some.mp hj).1
        omega
      simp [this, DimSpec.targets]
  | dim d =>
    obtain ⟨h0, h1⟩ := hdim d rfl
    lift d to ℕ using h0 with n
    have h1' : (n : Int) < (k.dimension : Int) := h1
    have hn : n < k._defaultValues.length := by omega
    have hc : ¬((n : Int) < 0 ∨ (n : Int) ≥ (k._defaultValues.length : Int)) := by omega
    refine ⟨_, by simp only [writeDefaultValue, hc, if_false]; exact vecModify_of_lt hn _,
      by simp, fun j => ?_⟩
    rw [List.getElem?_set]
    by_cases hnj : n = j
    · subst hnj
      simp [hn, DimSpec.targets]
    · have hne : ¬((j : Int) = (n : Int)) := by omega
      rw [if_neg hnj]
      cases k._defaultValues[j]? <;> simp [DimSpec.targets, hne]

theorem writeDefaultValues_ok (k : Knob T) (hld : k._defaultValues.length = k.dimension)
    (values : List T) (o : Nat) (ho : o + values.length ≤ k.dimension) :
    ∃ defs, k.writeDefaultValues values (o : Int) = .ok defs ∧
      defs.length = k._defaultValues.length ∧
      ∀ j, defs[j]? = (k._defaultValues[j]?).map
        (fun r =>
          if o ≤ j ∧ j < o + values.length then
            (match values[j - o]? with
              | some v => r.writeDefault v
              | none => r)
          else r) := by
  have hc : ¬((o : Int) < 0 ∨
      intAdd (o : Int) (values.length : Int) > k.getNDimensions) := by
    have hle := intAdd_le (o : Int) (values.length : Int) (by omega) (by omega)
    simp only [getNDimensions]
    omega
  obtain ⟨ys, hys, hl, hpt⟩ := forLoop_inv
    (fun i (ys : List (DefaultValue T)) => ys.length = k._defaultValues.length ∧
      ∀ j, ys[j]? = (k._defaultValues[j]?).map
        (fun r =>
          if o ≤ j ∧ j < o + i then
            (match values[j - o]? with
              | some v => r.writeDefault v
              | none => r)
          else r))
    values.length
    (fun i defs =>
      match values[i]? with
      | some v => vecModify defs ((i : Int) + (o : Int)) (fun d => d.writeDefault v)
      | none => .error .outOfRange)
    k._defaultValues
    ⟨rfl, fun j => by
      have : ¬(o ≤ j ∧ j < o) := by omega
      cases k._defaultValues[j]? <;> simp [this]⟩
    (by
      intro i t hi ⟨hl, hpt⟩
      have hio : i + o < t.length := by omega
      have hcast : ((i : Int) + (o : Int)) = ((i + o : Nat) : Int) := by push_cast; rfl
      simp only [List.getElem?_eq_getElem hi, hcast, vecModify_of_lt hio]
      refine ⟨_, rfl, by simp [hl], fun j => ?_⟩
      rw [List.getElem?_set]
      by_cases hij : i + o = j
      · subst hij
        have h1 := hpt (i + o)
        have hx : i + o < k._defaultValues.length := by omega
        rw [List.getElem?_eq_getElem hio, List.getElem?_eq_getElem hx] at h1
        have hno : ¬(o ≤ i + o ∧ i + o < o + i) := by omega
        simp only [hno, if_false, Option.map_some', Option.some.injEq] at h1
        have hyes : o ≤ i + o ∧ i + o < o + (i + 1) := by omega
        simp [hio, List.getElem?_eq_getElem hx, hyes, List.getElem?_eq_getElem hi, h1]
      · rw [if_neg hij, hpt j]
        have : (o ≤ j ∧ j < o + (i + 1)) ↔ (o ≤ j ∧ j < o + i) := by omega
        simp only [this])
  exact ⟨ys, by simp only [writeDefaultValues, hc, if_false]; exact hys, hl, hpt⟩

theorem computeHasModifications_frame [DecidableEq T] (k : Knob T) (hwf : k.WellFormed) :
    ∃ k', k.computeHasModifications = .ok k' ∧ k'.WellFormed ∧
      k'.dimension = k.dimension ∧ k'._defaultValues = k._defaultValues ∧
      k'._values = k._values := by
  obtain ⟨flags, sigs, h⟩ := computeHasModifications_ok k hwf
  exact ⟨_, h, hwf, rfl, rfl, rfl⟩

theorem callResetToDefaultValue_frame [KnobPOD T] (k : Knob T) (hwf : k.WellFormed)
    (dimension : DimSpec) (view : ViewSetSpec) (hv : k.validArgs dimension view = true) :
    ∃ k', k.callResetToDefaultValue dimension view = .ok k' ∧ k'.WellFormed ∧
      k'.dimension = k.dimension ∧ k'._defaultValues = k._defaultValues := by
  obtain ⟨vals, sigs, hvl, h⟩ := callResetToDefaultValue_ok k hwf dimension view hv
  obtain ⟨hlv, hld, hle⟩ := hwf
  exact ⟨_, h, ⟨by simp only [hvl]; exact hlv, hld, hle⟩, rfl, rfl⟩

theorem setDefaultValueWithoutApplying_ok [DecidableEq T] (k : Knob T) (hwf : k.WellFormed)
    (v : T) (dimension : DimSpec)
    (hdim : ∀ i, dimension = .dim i → 0 ≤ i ∧ i < (k.dimension : Int)) :
    ∃ k', k.setDefaultValueWithoutApplying v dimension = .ok k' ∧ k'.WellFormed ∧
      k'.dimension = k.dimension ∧
      ∀ j : Nat, k'._defaultValues[j]? = (k._defaultValues[j]?).map
        (fun r => if dimension.targets (j : Int) then r.writeDefault v else r) := by
  obtain ⟨hlv, hld, hle⟩ := hwf
  obtain ⟨defs, hdefs, hl, hpt⟩ := writeDefaultValue_ok k hld v dimension hdim
  obtain ⟨k', hk', hwf', hdim', hdefs', -⟩ :=
    computeHasModifications_frame { k with _defaultValues := defs }
      ⟨hlv, by simp only [hl, hld], hle⟩
  refine ⟨k', ?_, hwf', hdim', fun j => ?_⟩
  · simp only [setDefaultValueWithoutApplying, hdefs, bind, Except.bind]
    exact hk'
  · rw [hdefs']
    exact hpt j

theorem setDefaultValue_ok [KnobPOD T] [DecidableEq T] (k : Knob T) (hwf : k.WellFormed)
    (v : T) (dimension : DimSpec)
    (hdim : ∀ i, dimension = .dim i → 0 ≤ i ∧ i < (k.dimension : Int)) :
    ∃ k', k.setDefaultValue v dimension = .ok k' ∧ k'.WellFormed ∧
      k'.dimension = k.dimension ∧
      ∀ j : Nat, k'._defaultValues[j]? = (k._defaultValues[j]?).map
        (fun r => if dimension.targets (j : Int) then r.writeDefault v else r) := by
  obtain ⟨hlv, hld, hle⟩ := hwf
  obtain ⟨defs, hdefs, hl, hpt⟩ := writeDefaultValue_ok k hld v dimension hdim
  have hwf1 : WellFormed { k with _defaultValues := defs } :=
    ⟨hlv, by simp only [hl, hld], hle⟩
  have hv : validArgs { k with _defaultValues := defs } dimension .all = true := by
    cases dimension with
    | all => rfl
    | dim i =>
      obtain ⟨h0, h1⟩ := hdim i rfl
      simp only [validArgs, getNDimensions, Bool.and_true, decide_eq_true_eq]
      exact ⟨h0, h1⟩
  obtain ⟨k1, hk1, hwf1', hdim1, hdefs1⟩ :=
    callResetToDefaultValue_frame { k with _defaultValues := defs } hwf1 dimension .all hv
  obtain ⟨k2, hk2, hwf2, hdim2, hdefs2, -⟩ := computeHasModifications_frame k1 hwf1'
  refine ⟨k2, ?_, hwf2, by rw [hdim2, hdim1], fun j => ?_⟩
  · simp only [setDefaultValue, hdefs, bind, Except.bind, hk1]
    exact hk2
  · rw [hdefs2, hdefs1]
    exact hpt j

theorem setDefaultValuesWithoutApplying_ok [DecidableEq T] (k : Knob T) (hwf : k.WellFormed)
    (values : List T) (o : Nat) (ho : values = [] ∨ o + values.length ≤ k.dimension) :
    ∃ k', k.setDefaultValuesWithoutApplying values (o : Int) = .ok k' ∧ k'.WellFormed ∧
      k'.dimension = k.dimension ∧
      ∀ j : Nat, k'._defaultValues[j]? = (k._defaultValues[j]?).map
        (fun r =>
          if o ≤ j ∧ j < o + values.length then
            (match values[j - o]? with
              | some v => r.writeDefault v
              | none => r)
          else r) := by
  by_cases hemp : values = []
  · subst hemp
    refine ⟨k, rfl, hwf, rfl, fun j => ?_⟩
    have : ¬(o ≤ j ∧ j < o) := by omega
    cases k._defaultValues[j]? <;> simp [this]
  · have ho' : o + values.length ≤ k.dimension := ho.resolve_left hemp
    obtain ⟨hlv, hld, hle⟩ := hwf
    obtain ⟨defs, hdefs, hl, hpt⟩ := writeDefaultValues_ok k hld values o ho'
    obtain ⟨k', hk', hwf', hdim', hdefs', -⟩ :=
      computeHasModifications_frame { k with _defaultValues := defs }
        ⟨hlv, by simp only [hl, hld], hle⟩
    have hne : values.isEmpty = false := by
      cases values with
      | nil => exact absurd rfl hemp
      | cons _ _ => rfl
    refine ⟨k', ?_, hwf', hdim', fun j => ?_⟩
    · simp only [setDefaultValuesWithoutApplying, hne]
      rw [hdefs]
      exact hk'
    · rw [hdefs']
      exact hpt j

theorem setDefaultValues_eq [DecidableEq T] (k : Knob T) (values : List T) (offset : DimIdx) :
    k.setDefaultValues values offset = k.setDefaultValuesWithoutApplying values offset := rfl

theorem setCurrentDefaultValueAsInitialValue_ok (k : Knob T)
    (hld : k._defaultValues.length = k.dimension) :
    ∃ defs, k.setCurrentDefaultValueAsInitialValue = .ok { k with _defaultValues := defs } ∧
      defs.length = k._defaultValues.length ∧
      ∀ j : Nat, defs[j]? = (k._defaultValues[j]?).map
        (fun r => { r with initialValue := r.value, defaultValueSet := true }) := by
  obtain ⟨ys, hys, hl, hpt⟩ := forLoop_vecModify
    (fun _ (r : DefaultValue T) => { r with initialValue := r.value, defaultValueSet := true })
    k._defaultValues k.dimension (by omega)
  refine ⟨ys, by simp only [setCurrentDefaultValueAsInitialValue, hys], hl, fun j => ?_⟩
  rw [hpt j]
  cases hj : k._defaultValues[j]? with
  | none => rfl
  | some r =>
    have : j < k.dimension := by
      have := (List.getElem?_eq_some.mp hj).1
      omega
    simp [this]

theorem cloneDefaultValues_ok [DecidableEq T] (k : Knob T) (hwf : k.WellFormed)
    (other : Option (Knob T)) (hin : ∀ o, other = some o → o.WellFormed) :
    ∃ k', k.cloneDefaultValues other = .ok k' ∧ k'.WellFormed ∧
      k'.dimension = k.dimension ∧
      ∀ j : Nat, k'._defaultValues[j]? = (k._defaultValues[j]?).map
        (fun r =>
          match (DefaultOp.cloneDefaultValues other).writes k.dimension j with
          | some v => r.writeDefault v
          | none => r) := by
  cases other with
  | none =>
    refine ⟨k, rfl, hwf, rfl, fun j => ?_⟩
    cases k._defaultValues[j]? <;> simp [DefaultOp.writes]
  | some o =>
    obtain ⟨-, hold, -⟩ := hin o rfl
    obtain ⟨k', hk', hwf', hdim', hpt⟩ := forLoop_inv
      (fun i (k1 : Knob T) => k1.WellFormed ∧ k1.dimension = k.dimension ∧
        ∀ j : Nat, k1._defaultValues[j]? = (k._defaultValues[j]?).map
          (fun r =>
            match (if j < i then
                (match o._defaultValues[j]? with
                  | some r' => if r'.defaultValueSet then some r'.value else none
                  | none => none)
              else none) with
            | some v => r.writeDefault v
            | none => r))
      (min k.dimension o.dimension)
      (fun i k1 => do
        let d ← vecGet o._defaultValues i
        if d.defaultValueSet then k1.setDefaultValueWithoutApplying d.value (.dim i)
        else .ok k1)
      k
      ⟨hwf, rfl, fun j => by cases k._defaultValues[j]? <;> simp⟩
      (by
        intro i k1 hi ⟨hwf1, hd1, hpt1⟩
        have hio : i < o._defaultValues.length := by omega
        simp only [vecGet_of_lt hio, bind, Except.bind]
        have hoi : o._defaultValues[i]? = some o._defaultValues[i] :=
          List.getElem?_eq_getElem hio
        by_cases hset : o._defaultValues[i].defaultValueSet = true
        · obtain ⟨k2, hk2, hwf2, hd2, hpt2⟩ :=
            setDefaultValueWithoutApplying_ok k1 hwf1 o._defaultValues[i].value (.dim (i : Int))
              (by
                intro i' hi'
                cases hi'
                refine ⟨Int.natCast_nonneg i, ?_⟩
                show (i : Int) < (k1.dimension : Int)
                omega)
          refine ⟨k2, by simp only [hset, if_true]; exact hk2, hwf2, by rw [hd2, hd1],
            fun j => ?_⟩
          rw [hpt2 j, hpt1 j]
          cases hj : k._defaultValues[j]? with
          | none => rfl
          | some r =>
            by_cases hji : j = i
            · subst hji
              simp [DimSpec.targets, hoi, hset]
            · have h1 : ¬((j : Int) = (i : Int)) := by omega
              have h2 : (j < i + 1) ↔ (j < i) := by omega
              simp [DimSpec.targets, h1, h2]
        · refine ⟨k1, by simp only [hset]; rfl, hwf1, hd1, fun j => ?_⟩
          rw [hpt1 j]
          cases hj : k._defaultValues[j]? with
          | none => rfl
          | some r =>
            by_cases hji : j = i
            · subst hji
              simp [hoi, hset]
            · have h2 : (j < i + 1) ↔ (j < i) := by omega
              simp [h2])
    exact ⟨k', hk', hwf', hdim', hpt⟩

/-- Every call of the default engine other than `setCurrentDefaultValueAsInitialValue`, on
in-range arguments, completes, keeps the size invariant and rewrites the default record
of each dimension it addresses with the repeated block `writeDefault`. -/
theorem defaultOp_run_ok [KnobPOD T] [DecidableEq T] (k : Knob T) (hwf : k.WellFormed)
    (op : DefaultOp T) (hin : op.inRange k.dimension)
    (hop : op ≠ .setCurrentDefaultValueAsInitialValue) :
    ∃ k', op.run k = .ok k' ∧ k'.WellFormed ∧ k'.dimension = k.dimension ∧
      ∀ j : Nat, k'._defaultValues[j]? = (k._defaultValues[j]?).map
        (fun r =>
          match op.writes k.dimension j with
          | some v => r.writeDefault v
          | none => r) := by
  have hsingle : ∀ (v : T) (dimension : DimSpec) (j : Nat) (r : DefaultValue T),
      (if dimension.targets (j : Int) then r.writeDefault v else r) =
        (match (if dimension.targets (j : Int) then some v else none) with
          | some v => r.writeDefault v
          | none => r) := by
    intro v dimension j r
    cases dimension.targets (j : Int) <;> rfl
  have hvec : ∀ (values : List T) (offset : DimIdx),
      (values = [] ∨ (0 ≤ offset ∧ offset + (values.length : Int) ≤ (k.dimension : Int))) →
      ∃ k', k.setDefaultValuesWithoutApplying values offset = .ok k' ∧ k'.WellFormed ∧
        k'.dimension = k.dimension ∧
        ∀ j : Nat, k'._defaultValues[j]? = (k._defaultValues[j]?).map
          (fun r =>
            match (if offset ≤ (j : Int) ∧ (j : Int) < offset + (values.length : Int) then
                values[((j : Int) - offset).toNat]?
              else none) with
            | some v => r.writeDefault v
            | none => r) := by
    intro values offset h
    by_cases hemp : values = []
    · subst hemp
      refine ⟨k, rfl, hwf, rfl, fun j => ?_⟩
      cases k._defaultValues[j]? <;> simp
    · obtain ⟨h0, h1⟩ := h.resolve_left hemp
      lift offset to ℕ using h0 with o
      have h1' : (o : Int) + (values.length : Int) ≤ (k.dimension : Int) := h1
      obtain ⟨k', hk', hwf', hdim', hpt⟩ :=
        setDefaultValuesWithoutApplying_ok k hwf values o (Or.inr (by omega))
      refine ⟨k', hk', hwf', hdim', fun j => ?_⟩
      rw [hpt j]
      cases hj : k._defaultValues[j]? with
      | none => rfl
      | some r =>
        simp only [Option.map_some', Option.some.injEq]
        by_cases hc : o ≤ j ∧ j < o + values.length
        · have hc' : (o : Int) ≤ (j : Int) ∧ (j : Int) < (o : Int) + (values.length : Int) := by
            omega
          have hidx : ((j : Int) - (o : Int)).toNat = j - o := by omega
          rw [if_pos hc, if_pos hc', hidx]
        · have hc' : ¬((o : Int) ≤ (j : Int) ∧
              (j : Int) < (o : Int) + (values.length : Int)) := by omega
          rw [if_neg hc, if_neg hc']
  cases op with
  | setDefaultValue v dimension =>
    obtain ⟨k', hk', hwf', hdim', hpt⟩ := setDefaultValue_ok k hwf v dimension
      (by
        intro i hi
        subst hi
        exact hin)
    refine ⟨k', hk', hwf', hdim', fun j => ?_⟩
    rw [hpt j]
    congr 1
    funext r
    exact hsingle v dimension j r
  | setDefaultValueWithoutApplying v dimension =>
    obtain ⟨k', hk', hwf', hdim', hpt⟩ := setDefaultValueWithoutApplying_ok k hwf v dimension
      (by
        intro i hi
        subst hi
        exact hin)
    refine ⟨k', hk', hwf', hdim', fun j => ?_⟩
    rw [hpt j]
    congr 1
    funext r
    exact hsingle v dimension j r
  | setDefaultValues values offset => exact hvec values offset hin
  | setDefaultValuesWithoutApplying values offset => exact hvec values offset hin
  | setCurrentDefaultValueAsInitialValue => exact absurd rfl hop
  | cloneDefaultValues other =>
    exact cloneDefaultValues_ok k hwf other
      (by
        intro o ho
        subst ho
        exact hin)

/-! ## Construction: lemmas -/

theorem initMinMax_ok [KnobValue T] (k : Knob T)
    (hr : k._minimums.length = k.dimension ∧ k._maximums.length = k.dimension ∧
      k._displayMins.length = k.dimension ∧ k._displayMaxs.length = k.dimension) :
    ∃ k', k.initMinMax = .ok k' ∧ k'.toKnobHelper = k.toKnobHelper ∧
      k'._values = k._values ∧ k'._defaultValues = k._defaultValues ∧
      k'._exprRes = k._exprRes ∧
      (k'._minimums.length = k.dimension ∧ k'._maximums.length = k.dimension ∧
        k'._displayMins.length = k.dimension ∧ k'._displayMaxs.length = k.dimension) := by
  unfold initMinMax
  cases hrange : KnobValue.initRange (T := T) with
  | none => exact ⟨k, rfl, rfl, rfl, rfl, rfl, hr⟩
  | some p =>
    obtain ⟨lo, hi⟩ := p
    exact forLoop_inv
      (fun _ (k1 : Knob T) => k1.toKnobHelper = k.toKnobHelper ∧
        k1._values = k._values ∧ k1._defaultValues = k._defaultValues ∧
        k1._exprRes = k._exprRes ∧
        (k1._minimums.length = k.dimension ∧ k1._maximums.length = k.dimension ∧
          k1._displayMins.length = k.dimension ∧ k1._displayMaxs.length = k.dimension))
      k.dimension _ k ⟨rfl, rfl, rfl, rfl, hr⟩
      (by
        intro i k1 hi ⟨hb, hv, hd, he, h1, h2, h3, h4⟩
        simp only [vecModify_of_lt (by omega : i < k1._minimums.length),
          vecModify_of_lt (by omega : i < k1._maximums.length),
          vecModify_of_lt (by omega : i < k1._displayMins.length),
          vecModify_of_lt (by omega : i < k1._displayMaxs.length), bind, Except.bind]
        exact ⟨_, rfl, hb, hv, hd, he, by simp [h1], by simp [h2], by simp [h3],
          by simp [h4]⟩)

theorem populate_ok [KnobValue T] (k : Knob T) (hlv : k._values.length = k.dimension)
    (hld : k._defaultValues.length = k.dimension) :
    ∃ k', k.populate = .ok k' ∧ k'.toKnobHelper = k.toKnobHelper ∧
      k'._exprRes = k._exprRes ∧
      k'._values.length = k.dimension ∧ k'._defaultValues.length = k.dimension ∧
      (∀ j : Nat, k'._values[j]? =
        (k._values[j]?).map (fun m => m.assign 0 KnobValue.zero)) ∧
      (∀ j : Nat, k'._defaultValues[j]? = (k._defaultValues[j]?).map
        (fun d => { d with value := KnobValue.zero, defaultValueSet := false })) := by
  obtain ⟨k', hk', hb, he, h1, h2, h3, h4⟩ := forLoop_inv
    (fun i (k1 : Knob T) => k1.toKnobHelper = k.toKnobHelper ∧ k1._exprRes = k._exprRes ∧
      k1._values.length = k.dimension ∧ k1._defaultValues.length = k.dimension ∧
      (∀ j : Nat, k1._values[j]? =
        (k._values[j]?).map (fun m => if j < i then m.assign 0 KnobValue.zero else m)) ∧
      (∀ j : Nat, k1._defaultValues[j]? = (k._defaultValues[j]?).map
        (fun d => if j < i then
          { d with value := KnobValue.zero, defaultValueSet := false } else d)))
    k.dimension
    (fun i k1 => do
      let vals ← vecModify k1._values i (fun m => m.assign 0 KnobValue.zero)
      let defs ← vecModify k1._defaultValues i
        (fun d => { d with value := KnobValue.zero, defaultValueSet := false })
      .ok { k1 with _values := vals, _defaultValues := defs })
    k
    ⟨rfl, rfl, hlv, hld, fun j => by cases k._values[j]? <;> simp,
      fun j => by cases k._defaultValues[j]? <;> simp⟩
    (by
      intro i k1 hi ⟨hb, he, h1, h2, h3, h4⟩
      have hi1 : i < k1._values.length := by omega
      have hi2 : i < k1._defaultValues.length := by omega
      have hk1 : i < k._values.length := by omega
      have hk2 : i < k._defaultValues.length := by omega
      simp only [vecModify_of_lt hi1, vecModify_of_lt hi2, bind, Except.bind]
      refine ⟨_, rfl, hb, he, by simp [h1], by simp [h2], fun j => ?_, fun j => ?_⟩
      · show (k1._values.set i _)[j]? = _
        rw [List.getElem?_set]
        by_cases hij : i = j
        · subst hij
          have h := h3 i
          rw [List.getElem?_eq_getElem hi1, List.getElem?_eq_getElem hk1] at h
          simp at h
          simp [hi1, List.getElem?_eq_getElem hk1, h]
        · rw [if_neg hij, h3 j]
          have : (j < i + 1) ↔ (j < i) := by omega
          simp only [this]
      · show (k1._defaultValues.set i _)[j]? = _
        rw [List.getElem?_set]
        by_cases hij : i = j
        · subst hij
          have h := h4 i
          rw [List.getElem?_eq_getElem hi2, List.getElem?_eq_getElem hk2] at h
          simp at h
          simp [hi2, List.getElem?_eq_getElem hk2, h]
        · rw [if_neg hij, h4 j]
          have : (j < i + 1) ↔ (j < i) := by omega
          simp only [this])
  refine ⟨k', hk', hb, he, h1, h2, fun j => ?_, fun j => ?_⟩
  · rw [h3 j]
    cases hj : k._values[j]? with
    | none => rfl
    | some m =>
      have : j < k.dimension := by
        have := (List.getElem?_eq_some.mp hj).1
        omega
      simp [this]
  · rw [h4 j]
    cases hj : k._defaultValues[j]? with
    | none => rfl
    | some m =>
      have : j < k.dimension := by
        have := (List.getElem?_eq_some.mp hj).1
        omega
      simp [this]

/-- Construction followed by `populate()` does not fail; the parameter it yields satisfies
the size invariant, and each of its default records is unset with both values `T()`. -/
theorem create_ok [KnobValue T] (base : KnobHelper) :
    ∃ k0 : Knob T, Knob.create base = .ok k0 ∧ k0.WellFormed ∧
      k0.toKnobHelper = base ∧
      (∀ j : Nat, j < base.dimension → k0._values[j]? = some [(0, KnobValue.zero)]) ∧
      (∀ j : Nat, j < base.dimension → k0._defaultValues[j]? =
        some { initialValue := KnobValue.zero, value := KnobValue.zero,
               defaultValueSet := false }) := by
  obtain ⟨k1, hk1, hb1, hv1, hd1, he1, -⟩ := initMinMax_ok (init (T := T) base)
    ⟨by simp [init], by simp [init], by simp [init], by simp [init]⟩
  have hdim1 : k1.dimension = base.dimension := by rw [hb1]; rfl
  obtain ⟨k2, hk2, hb2, he2, hl1, hl2, hpv, hpd⟩ := populate_ok k1
    (by rw [hv1, hdim1]; simp [init]) (by rw [hd1, hdim1]; simp [init])
  have hdim2 : k2.dimension = base.dimension := by rw [hb2, hb1]; rfl
  refine ⟨k2, ?_, ⟨by rw [hl1, hdim2, hdim1], by rw [hl2, hdim2, hdim1], ?_⟩, ?_, ?_, ?_⟩
  · simp only [Knob.create, construct, hk1]
    exact hk2
  · rw [he2, he1, hdim2]
    simp [init]
  · rw [hb2, hb1]
    rfl
  · intro j hj
    rw [hpv j, hv1]
    simp [init, hj, PerViewMap.assign]
  · intro j hj
    rw [hpd j, hd1]
    simp [init, hj]

/-! ## Sequences of default-engine calls: lemmas -/

theorem writeDefault_of_set (r : DefaultValue T) (v : T) (h : r.defaultValueSet = true) :
    r.writeDefault v = { r with value := v } := by
  simp [DefaultValue.writeDefault, h]

theorem writeDefault_of_unset (r : DefaultValue T) (v : T) (h : r.defaultValueSet = false) :
    r.writeDefault v = { initialValue := v, value := v, defaultValueSet := true } := by
  simp [DefaultValue.writeDefault, h]

/-- A sequence of in-range calls, none of them `setCurrentDefaultValueAsInitialValue`,
completes; the default record of dimension `d` is the fold of `writeDefault` over the
values the calls pass for `d`. -/
theorem runDefaultOps_ok [KnobPOD T] [DecidableEq T] (n d : Nat) (ops : List (DefaultOp T)) :
    ∀ (k : Knob T) (r : DefaultValue T), k.WellFormed → k.dimension = n →
      k._defaultValues[d]? = some r →
      (∀ op ∈ ops, op.inRange n ∧ op ≠ .setCurrentDefaultValueAsInitialValue) →
      ∃ k', k.runDefaultOps ops = .ok k' ∧ k'.WellFormed ∧ k'.dimension = n ∧
        k'._defaultValues[d]? = some (ops.foldl
          (fun r op =>
            match op.writes n d with
            | some v => r.writeDefault v
            | none => r) r) := by
  induction ops with
  | nil =>
    intro k r hwf hdim hr _
    exact ⟨k, rfl, hwf, hdim, hr⟩
  | cons op rest ih =>
    intro k r hwf hdim hr hall
    obtain ⟨hin, hop⟩ := hall op (List.mem_cons_self op rest)
    obtain ⟨k1, hk1, hwf1, hdim1, hpt1⟩ := defaultOp_run_ok k hwf op (by rw [hdim]; exact hin) hop
    have hr1 := hpt1 d
    rw [hr, hdim] at hr1
    obtain ⟨k2, hk2, hwf2, hdim2, hr2⟩ := ih k1 _ hwf1 (by rw [hdim1, hdim]) hr1
      (fun op' hop' => hall op' (List.mem_cons_of_mem op hop'))
    refine ⟨k2, ?_, hwf2, hdim2, hr2⟩
    simp only [runDefaultOps, forEach, hk1]
    exact hk2

theorem foldl_writes_set (n d : Nat) (ops : List (DefaultOp T)) :
    ∀ r : DefaultValue T, r.defaultValueSet = true →
      (∀ op ∈ ops, (op.writes n d).isSome = true) →
      (ops.foldl (fun r op =>
          match op.writes n d with
          | some v => r.writeDefault v
          | none => r) r).defaultValueSet = true ∧
      (ops.foldl (fun r op =>
          match op.writes n d with
          | some v => r.writeDefault v
          | none => r) r).initialValue = r.initialValue ∧
      ∀ hne : ops ≠ [], (ops.getLast hne).writes n d =
        some (ops.foldl (fun r op =>
          match op.writes n d with
          | some v => r.writeDefault v
          | none => r) r).value := by
  induction ops with
  | nil =>
    intro r hr _
    exact ⟨hr, rfl, fun hne => absurd rfl hne⟩
  | cons op rest ih =>
    intro r hr hall
    obtain ⟨v, hv⟩ := Option.isSome_iff_exists.mp (hall op (List.mem_cons_self op rest))
    have hstep : (match op.writes n d with
        | some v => r.writeDefault v
        | none => r) = { r with value := v } := by
      rw [hv]
      exact writeDefault_of_set r v hr
    obtain ⟨h1, h2, h3⟩ := ih { r with value := v } hr
      (fun op' hop' => hall op' (List.mem_cons_of_mem op hop'))
    simp only [List.foldl_cons, hstep]
    refine ⟨h1, h2, fun _ => ?_⟩
    by_cases hrest : rest = []
    · subst hrest
      simpa using hv
    · rw [List.getLast_cons hrest]
      exact h3 hrest

theorem foldl_writes_unset (n d : Nat) (ops : List (DefaultOp T)) (hne : ops ≠ [])
    (r : DefaultValue T) (hr : r.defaultValueSet = false)
    (hall : ∀ op ∈ ops, (op.writes n d).isSome = true) :
    (ops.head hne).writes n d =
        some (ops.foldl (fun r op =>
          match op.writes n d with
          | some v => r.writeDefault v
          | none => r) r).initialValue ∧
      (ops.getLast hne).writes n d =
        some (ops.foldl (fun r op =>
          match op.writes n d with
          | some v => r.writeDefault v
          | none => r) r).value := by
  cases ops with
  | nil => exact absurd rfl hne
  | cons op rest =>
    obtain ⟨v, hv⟩ := Option.isSome_iff_exists.mp (hall op (List.mem_cons_self op rest))
    have hstep : (match op.writes n d with
        | some v => r.writeDefault v
        | none => r) = { initialValue := v, value := v, defaultValueSet := true } := by
      rw [hv]
      exact writeDefault_of_unset r v hr
    obtain ⟨-, h2, h3⟩ := foldl_writes_set n d rest
      { initialValue := v, value := v, defaultValueSet := true } rfl
      (fun op' hop' => hall op' (List.mem_cons_of_mem op hop'))
    simp only [List.foldl_cons, hstep, List.head_cons]
    refine ⟨by rw [h2]; exact hv, ?_⟩
    by_cases hrest : rest = []
    · subst hrest
      simpa using hv
    · rw [List.getLast_cons hrest]
      exact h3 hrest

theorem getDefaultValue_of_some (k : Knob T) (d : Nat) (r : DefaultValue T)
    (h : k._defaultValues[d]? = some r) : k.getDefaultValue (d : Int) = .ok r.value := by
  have hd : d < k._defaultValues.length := (List.getElem?_eq_some.mp h).1
  have hc : ¬((d : Int) < 0 ∨ (d : Int) ≥ (k._defaultValues.length : Int)) := by omega
  simp only [getDefaultValue, hc, if_false, vecGet_of_some h, bind, Except.bind]

theorem getInitialDefaultValue_of_some (k : Knob T) (d : Nat) (r : DefaultValue T)
    (h : k._defaultValues[d]? = some r) :
    k.getInitialDefaultValue (d : Int) = .ok r.initialValue := by
  have hd : d < k._defaultValues.length := (List.getElem?_eq_some.mp h).1
  have hc : ¬((d : Int) < 0 ∨ (d : Int) ≥ (k._defaultValues.length : Int)) := by omega
  simp only [getInitialDefaultValue, hc, if_false, vecGet_of_some h, bind, Except.bind]

theorem isDefaultValueSet_of_some (k : Knob T) (d : Nat) (r : DefaultValue T)
    (h : k._defaultValues[d]? = some r) :
    k.isDefaultValueSet (d : Int) = .ok r.defaultValueSet := by
  have hd : d < k._defaultValues.length := (List.getElem?_eq_some.mp h).1
  have hc : ¬((d : Int) < 0 ∨ (d : Int) ≥ (k._defaultValues.length : Int)) := by omega
  simp only [isDefaultValueSet, hc, if_false, vecGet_of_some h, bind, Except.bind]

theorem hasDefaultValueChanged_of_some [DecidableEq T] (k : Knob T) (d : Nat)
    (r : DefaultValue T) (h : k._defaultValues[d]? = some r) :
    k.hasDefaultValueChanged (d : Int) = .ok (decide (r.initialValue ≠ r.value)) := by
  have hd : d < k._defaultValues.length := (List.getElem?_eq_some.mp h).1
  have hc : ¬((d : Int) < 0 ∨ (d : Int) ≥ (k._defaultValues.length : Int)) := by omega
  simp only [hasDefaultValueChanged, hc, if_false, vecGet_of_some h, bind, Except.bind]

end Knob

/-! ## The default engine: claims -/

/-- C1. On a parameter as construction and `populate()` leave it, every non-empty sequence
of in-range calls of `setDefaultValue`, `setDefaultValues`, `setDefaultValueWithoutApplying`
and `setDefaultValuesWithoutApplying` that all address dimension `d` (by its index, by the
wildcard, or by an element of their vector) completes, and afterwards
`getInitialDefaultValue(d)` is the value the first call passed for `d` and
`getDefaultValue(d)` the value the last call passed for `d`. -/
theorem setDefault_first_call_fixes_initial_last_call_fixes_value {T : Type} [KnobPOD T]
    [DecidableEq T] (base : KnobHelper) (k0 : Knob T) (hk0 : Knob.create base = .ok k0)
    (d : Nat) (hd : d < base.dimension) (ops : List (DefaultOp T)) (hne : ops ≠ [])
    (htgt : ∀ op ∈ ops, op.isSetter = true ∧ op.inRange base.dimension ∧
      (op.writes base.dimension d).isSome = true) :
    ∃ k' first last, k0.runDefaultOps ops = .ok k' ∧
      (ops.head hne).writes base.dimension d = some first ∧
      (ops.getLast hne).writes base.dimension d = some last ∧
      k'.getInitialDefaultValue (d : Int) = .ok first ∧
      k'.getDefaultValue (d : Int) = .ok last := by
  obtain ⟨k1, hk1, hwf, hbase, -, hdefs⟩ := Knob.create_ok (T := T) base
  have hk : k1 = k0 := by
    rw [hk1] at hk0
    exact Except.ok.inj hk0
  subst hk
  have hdim : k1.dimension = base.dimension := by rw [hbase]
  obtain ⟨k', hk', -, -, hr'⟩ := Knob.runDefaultOps_ok base.dimension d ops k1 _ hwf hdim
    (hdefs d hd)
    (fun op hop => ⟨(htgt op hop).2.1, by
      intro h
      have := (htgt op hop).1
      rw [h] at this
      cases this⟩)
  obtain ⟨h1, h2⟩ := Knob.foldl_writes_unset base.dimension d ops hne
    { initialValue := KnobValue.zero, value := KnobValue.zero, defaultValueSet := false } rfl
    (fun op hop => (htgt op hop).2.2)
  exact ⟨k', _, _, hk', h1, h2, Knob.getInitialDefaultValue_of_some k' d _ hr',
    Knob.getDefaultValue_of_some k' d _ hr'⟩

/-- An instance of C1: on a two-dimensional integer parameter, `setDefaultValue(5, 1)`, then
`setDefaultValues({7, 8}, 0)`, then `setDefaultValueWithoutApplying(9, all)` leave
dimension 1 with the initial default 5 and the default 9. -/
theorem setDefault_first_call_fixes_initial_last_call_fixes_value_witness :
    ∃ k0 k', Knob.create (T := Int) baseTwoDim = .ok k0 ∧
      k0.runDefaultOps
        [.setDefaultValue 5 (.dim 1), .setDefaultValues [7, 8] 0,
          .setDefaultValueWithoutApplying 9 .all] = .ok k' ∧
      k'.getInitialDefaultValue 1 = .ok 5 ∧ k'.getDefaultValue 1 = .ok 9 := by
  obtain ⟨k0, hk0, -⟩ := Knob.create_ok (T := Int) baseTwoDim
  obtain ⟨k', first, last, hrun, hf, hl, hi, hv⟩ :=
    setDefault_first_call_fixes_initial_last_call_fixes_value baseTwoDim k0 hk0 1
      (by decide)
      [.setDefaultValue 5 (.dim 1), .setDefaultValues [7, 8] 0,
        .setDefaultValueWithoutApplying 9 .all]
      (by simp)
      (by
        intro op hop
        simp only [List.mem_cons, List.mem_singleton, List.not_mem_nil, or_false] at hop
        rcases hop with rfl | rfl | rfl <;>
          exact ⟨rfl, by simp [DefaultOp.inRange, baseTwoDim, KnobHelper.create],
            by simp [DefaultOp.writes, DimSpec.targets]⟩)
  have hf' : first = 5 := by
    simpa [DefaultOp.writes, DimSpec.targets] using hf.symm
  have hl' : last = 9 := by
    simpa [DefaultOp.writes, DimSpec.targets] using hl.symm
  subst hf' hl'
  exact ⟨k0, k', hk0, hrun, hi, hv⟩

namespace Knob

variable {T : Type}

theorem isDefaultValueSet_ok_iff (k : Knob T) (d : Nat) (b : Bool)
    (h : k.isDefaultValueSet (d : Int) = .ok b) :
    ∃ r, k._defaultValues[d]? = some r ∧ r.defaultValueSet = b := by
  by_cases hc : (d : Int) < 0 ∨ (d : Int) ≥ (k._defaultValues.length : Int)
  · simp only [isDefaultValueSet, hc, if_true] at h
    cases h
  · have hd : d < k._defaultValues.length := by omega
    have hr := isDefaultValueSet_of_some k d _ (List.getElem?_eq_getElem hd)
    rw [hr] at h
    exact ⟨_, List.getElem?_eq_getElem hd, Except.ok.inj h⟩

end Knob

/-- C2, as the code has it. With in-range arguments every call of the default engine
completes and leaves `isDefaultValueSet(d)` true; `setDefaultValue`, `setDefaultValues`,
their `WithoutApplying` variants and `cloneDefaultValues` leave
`getInitialDefaultValue(d)` of a dimension whose default is set unchanged, while
`setCurrentDefaultValueAsInitialValue` overwrites it with the current default value. -/
theorem initialValue_kept_except_by_setCurrentDefaultValueAsInitialValue {T : Type}
    [KnobPOD T] [DecidableEq T] (k : Knob T) (hwf : k.WellFormed) (d : Nat)
    (hset : k.isDefaultValueSet (d : Int) = .ok true) (op : DefaultOp T)
    (hin : op.inRange k.dimension) :
    ∃ k', op.run k = .ok k' ∧ k'.isDefaultValueSet (d : Int) = .ok true ∧
      (op ≠ .setCurrentDefaultValueAsInitialValue →
        k'.getInitialDefaultValue (d : Int) = k.getInitialDefaultValue (d : Int)) ∧
      (op = .setCurrentDefaultValueAsInitialValue →
        k'.getInitialDefaultValue (d : Int) = k.getDefaultValue (d : Int)) := by
  obtain ⟨r, hr, hrset⟩ := Knob.isDefaultValueSet_ok_iff k d true hset
  by_cases hop : op = .setCurrentDefaultValueAsInitialValue
  · subst hop
    obtain ⟨defs, hrun, -, hpt⟩ := Knob.setCurrentDefaultValueAsInitialValue_ok k hwf.2.1
    have hr' := hpt d
    rw [hr] at hr'
    refine ⟨_, hrun, ?_, fun h => absurd rfl h, fun _ => ?_⟩
    · rw [Knob.isDefaultValueSet_of_some _ d _ hr']
    · rw [Knob.getInitialDefaultValue_of_some _ d _ hr', Knob.getDefaultValue_of_some k d r hr]
  · obtain ⟨k', hrun, -, -, hpt⟩ := Knob.defaultOp_run_ok k hwf op hin hop
    have hr' := hpt d
    rw [hr] at hr'
    refine ⟨k', hrun, ?_, fun _ => ?_, fun h => absurd h hop⟩
    · rw [Knob.isDefaultValueSet_of_some _ d _ hr']
      cases op.writes k.dimension d with
      | none => exact congrArg Except.ok hrset
      | some v => simp [Knob.writeDefault_of_set r v hrset, hrset]
    · rw [Knob.getInitialDefaultValue_of_some _ d _ hr',
        Knob.getInitialDefaultValue_of_some k d r hr]
      cases op.writes k.dimension d with
      | none => rfl
      | some v => simp [Knob.writeDefault_of_set r v hrset]

set_option maxRecDepth 8000 in
/-- Counterexample to C2 as stated: on a one-dimensional integer parameter,
`setDefaultValue(1, 0)` then `setDefaultValue(2, 0)` leave dimension 0 with its default
set and the initial default 1; `setCurrentDefaultValueAsInitialValue()` then changes the
initial default to 2. -/
theorem initialValue_changed_by_setCurrentDefaultValueAsInitialValue :
    ∃ k k' : Knob Int,
      intKnobOneDim.runDefaultOps [.setDefaultValue 1 (.dim 0), .setDefaultValue 2 (.dim 0)] =
        .ok k ∧
      k.isDefaultValueSet 0 = .ok true ∧ k.getInitialDefaultValue 0 = .ok 1 ∧
      (DefaultOp.setCurrentDefaultValueAsInitialValue).run k = .ok k' ∧
      k'.getInitialDefaultValue 0 = .ok 2 :=
  ⟨_, _, rfl, rfl, rfl, rfl, rfl⟩

set_option maxRecDepth 8000 in
/-- An instance of C2: after `setDefaultValue(1, 0)` on a one-dimensional integer
parameter the default of dimension 0 is set, and `setDefaultValueWithoutApplying(2, 0)`
completes and keeps the initial default. -/
theorem initialValue_kept_except_by_setCurrentDefaultValueAsInitialValue_witness :
    ∃ k k' : Knob Int, intKnobOneDim.setDefaultValue 1 (.dim 0) = .ok k ∧
      (DefaultOp.setDefaultValueWithoutApplying 2 (.dim 0)).run k = .ok k' ∧
      k'.isDefaultValueSet 0 = .ok true ∧
      k'.getInitialDefaultValue 0 = k.getInitialDefaultValue 0 := by
  obtain ⟨k, hk, hwf, hdim, hpt⟩ := Knob.setDefaultValue_ok intKnobOneDim (by decide) 1 (.dim 0)
    (by
      intro i hi
      cases hi
      decide)
  have hset : k.isDefaultValueSet ((0 : Nat) : Int) = .ok true := by
    rw [Knob.isDefaultValueSet_of_some k 0 _ (hpt 0)]
    rfl
  obtain ⟨k', hrun, hs, hkeep, -⟩ :=
    initialValue_kept_except_by_setCurrentDefaultValueAsInitialValue k hwf 0 hset
      (.setDefaultValueWithoutApplying 2 (.dim 0))
      (by
        rw [hdim]
        exact ⟨le_refl _, by decide⟩)
  exact ⟨k, k', hk, hrun, hs, hkeep (by simp)⟩

/-- The concrete one-dimensional integer parameter is the one construction and
`populate()` produce. -/
theorem create_baseOneDim : Knob.create (T := Int) baseOneDim = .ok intKnobOneDim := rfl

set_option maxRecDepth 4000 in
/-- The concrete two-dimensional integer parameter is the one construction and
`populate()` produce. -/
theorem create_baseTwoDim : Knob.create (T := Int) baseTwoDim = .ok intKnobTwoDim := rfl

/-- C3, as the code has it. On a valid dimension `d`, `setDefaultValue(v, d)` completes,
and afterwards `hasDefaultValueChanged(d)` is true exactly when a default had already been
set for `d` and `v` differs from the initial default of `d`; the first `setDefaultValue` on
a dimension captures `v` as the initial default and so reports no change. -/
theorem hasDefaultValueChanged_after_setDefaultValue {T : Type} [KnobPOD T] [DecidableEq T]
    (k : Knob T) (hwf : k.WellFormed) (d : Nat) (hd : d < k.dimension) (v : T) :
    ∃ k' wasSet initial, k.isDefaultValueSet (d : Int) = .ok wasSet ∧
      k.getInitialDefaultValue (d : Int) = .ok initial ∧
      k.setDefaultValue v (.dim (d : Int)) = .ok k' ∧
      k'.hasDefaultValueChanged (d : Int) = .ok (wasSet && decide (initial ≠ v)) := by
  have hlen : d < k._defaultValues.length := by
    rw [hwf.2.1]
    exact hd
  have hr : k._defaultValues[d]? = some k._defaultValues[d] := List.getElem?_eq_getElem hlen
  obtain ⟨k', hrun, -, -, hpt⟩ := Knob.setDefaultValue_ok k hwf v (.dim (d : Int))
    (by
      intro i hi
      cases hi
      refine ⟨Int.natCast_nonneg d, ?_⟩
      show (d : Int) < (k.dimension : Int)
      omega)
  have hr' := hpt d
  rw [hr] at hr'
  simp only [DimSpec.targets, decide_True, if_true, Option.map_some'] at hr'
  refine ⟨k', k._defaultValues[d].defaultValueSet, k._defaultValues[d].initialValue,
    Knob.isDefaultValueSet_of_some k d _ hr, Knob.getInitialDefaultValue_of_some k d _ hr,
    hrun, ?_⟩
  rw [Knob.hasDefaultValueChanged_of_some k' d _ hr']
  cases hs : k._defaultValues[d].defaultValueSet with
  | false => simp [Knob.writeDefault_of_unset _ v hs]
  | true => simp [Knob.writeDefault_of_set _ v hs]

set_option maxRecDepth 8000 in
/-- Counterexample to C3 as stated: on a one-dimensional integer parameter as constructed,
whose default of dimension 0 is 0, `setDefaultValue(5, 0)` passes a value different from
the current default, and `hasDefaultValueChanged(0)` is false afterwards. -/
theorem first_setDefaultValue_reports_no_change :
    ∃ k' : Knob Int, intKnobOneDim.getDefaultValue 0 = .ok 0 ∧
      intKnobOneDim.setDefaultValue 5 (.dim 0) = .ok k' ∧
      k'.hasDefaultValueChanged 0 = .ok false :=
  ⟨_, rfl, rfl, rfl⟩

set_option maxRecDepth 8000 in
/-- An instance of C3: on the two-dimensional integer parameter as constructed,
`setDefaultValue(5, 1)` completes and `hasDefaultValueChanged(1)` is false. -/
theorem hasDefaultValueChanged_after_setDefaultValue_witness :
    ∃ k' : Knob Int, intKnobTwoDim.setDefaultValue 5 (.dim 1) = .ok k' ∧
      k'.hasDefaultValueChanged 1 = .ok false := by
  obtain ⟨k', wasSet, initial, hs, hi, hrun, hch⟩ :=
    hasDefaultValueChanged_after_setDefaultValue intKnobTwoDim (by decide) 1 (by decide) 5
  have hs' : wasSet = false := (Except.ok.inj hs).symm
  subst hs'
  exact ⟨k', hrun, hch⟩

/-- C4. `hasDefaultValueChanged(d)` is false on every dimension of a parameter as
construction and `populate()` leave it; after `setCurrentDefaultValueAsInitialValue()`,
which completes from any state, it is false on every valid dimension; and in any state it
is the test `initialValue[d] != value[d]`. -/
theorem hasDefaultValueChanged_false_when_fresh_or_synced {T : Type} [KnobValue T]
    [DecidableEq T] (base : KnobHelper) (k : Knob T) (hwf : k.WellFormed) (d : Nat)
    (hd : d < k.dimension) :
    (∃ k0 : Knob T, Knob.create base = .ok k0 ∧
      ∀ j : Nat, j < base.dimension → k0.hasDefaultValueChanged (j : Int) = .ok false) ∧
    (∃ k', k.setCurrentDefaultValueAsInitialValue = .ok k' ∧
      k'.hasDefaultValueChanged (d : Int) = .ok false) ∧
    (∃ initial value, k.getInitialDefaultValue (d : Int) = .ok initial ∧
      k.getDefaultValue (d : Int) = .ok value ∧
      k.hasDefaultValueChanged (d : Int) = .ok (decide (initial ≠ value))) := by
  have hlen : d < k._defaultValues.length := by
    rw [hwf.2.1]
    exact hd
  have hr : k._defaultValues[d]? = some k._defaultValues[d] := List.getElem?_eq_getElem hlen
  refine ⟨?_, ?_, ?_⟩
  · obtain ⟨k0, hk0, -, -, -, hdefs⟩ := Knob.create_ok (T := T) base
    refine ⟨k0, hk0, fun j hj => ?_⟩
    rw [Knob.hasDefaultValueChanged_of_some k0 j _ (hdefs j hj)]
    simp
  · obtain ⟨defs, hrun, -, hpt⟩ := Knob.setCurrentDefaultValueAsInitialValue_ok k hwf.2.1
    have hr' := hpt d
    rw [hr] at hr'
    refine ⟨_, hrun, ?_⟩
    rw [Knob.hasDefaultValueChanged_of_some _ d _ hr']
    simp
  · exact ⟨_, _, Knob.getInitialDefaultValue_of_some k d _ hr,
      Knob.getDefaultValue_of_some k d _ hr, Knob.hasDefaultValueChanged_of_some k d _ hr⟩

/-- An instance of C4, at the one-dimensional integer parameter and its dimension 0. -/
theorem hasDefaultValueChanged_false_when_fresh_or_synced_witness :
    (∃ k0 : Knob Int, Knob.create baseOneDim = .ok k0 ∧
      ∀ j : Nat, j < baseOneDim.dimension → k0.hasDefaultValueChanged (j : Int) = .ok false) ∧
    (∃ k', intKnobOneDim.setCurrentDefaultValueAsInitialValue = .ok k' ∧
      k'.hasDefaultValueChanged ((0 : Nat) : Int) = .ok false) ∧
    (∃ initial value, intKnobOneDim.getInitialDefaultValue ((0 : Nat) : Int) = .ok initial ∧
      intKnobOneDim.getDefaultValue ((0 : Nat) : Int) = .ok value ∧
      intKnobOneDim.hasDefaultValueChanged ((0 : Nat) : Int) =
        .ok (decide (initial ≠ value))) :=
  hasDefaultValueChanged_false_when_fresh_or_synced baseOneDim intKnobOneDim (by decide) 0
    (by decide)

/-! ## The range engine: claims -/

theorem vecGet_ok_iff {α : Type} (xs : List α) (d : Nat) (x : α)
    (h : vecGet xs (d : Int) = .ok x) : xs[d]? = some x := by
  cases hx : xs[d]? with
  | none => simp [vecGet, hx] at h
  | some y =>
    rw [vecGet_of_some hx] at h
    rw [Except.ok.inj h]

theorem vecGet_ne_invalidArgument {α : Type} (xs : List α) (i : Int) :
    vecGet xs i ≠ .error .invalidArgument := by
  unfold vecGet
  split
  · simp
  · split <;> simp

/-- The generic `clampToMinMax` on a dimension that both bound vectors hold. -/
theorem clampToMinMax_of_bounds {T : Type} [KnobPOD T] (k : Knob T) (d : Nat) (lo hi v : T)
    (hlo : k.getMinimum (d : Int) = .ok lo) (hhi : k.getMaximum (d : Int) = .ok hi) :
    k.clampToMinMax v (d : Int) = .ok (KnobPOD.ofDouble
      (max (KnobPOD.toDouble lo) (min (KnobPOD.toDouble hi) (KnobPOD.toDouble v)))) := by
  have h1 := vecGet_ok_iff _ d lo hlo
  have hd : d < k._minimums.length := (List.getElem?_eq_some.mp h1).1
  have hc : ¬((d : Int) < 0 ∨ (d : Int) ≥ (k._minimums.length : Int)) := by omega
  simp only [Knob.getMinimum, Knob.getMaximum] at hlo hhi
  simp only [Knob.clampToMinMax, hc, if_false, hlo, hhi, bind, Except.bind]

theorem ofDouble_toDouble_int (i : Int) :
    (KnobPOD.ofDouble (KnobPOD.toDouble i) : Int) = i := by
  show (if (0 : ℚ) ≤ (i : ℚ) then ⌊(i : ℚ)⌋ else ⌈(i : ℚ)⌉) = i
  split <;> simp

/-- C5. For an integer and for a floating-point parameter (a `double` taken as an exact
rational), on a dimension `d` whose bounds are `minimums[d] = lo` and `maximums[d] = hi`,
`clampToMinMax(v, d)` returns `max(lo, min(hi, v))`; with the bounds 0 and 10 it returns
`v` for `0 <= v <= 10`, 0 for `v < 0` and 10 for `v > 10`. -/
theorem clampToMinMax_eq_max_min (kI : Knob Int) (kD : Knob ℚ) (d : Nat)
    (loI hiI vI : Int) (loD hiD vD : ℚ)
    (hloI : kI.getMinimum (d : Int) = .ok loI) (hhiI : kI.getMaximum (d : Int) = .ok hiI)
    (hloD : kD.getMinimum (d : Int) = .ok loD) (hhiD : kD.getMaximum (d : Int) = .ok hiD) :
    kI.clampToMinMax vI (d : Int) = .ok (max loI (min hiI vI)) ∧
    kD.clampToMinMax vD (d : Int) = .ok (max loD (min hiD vD)) ∧
    (loI = 0 → hiI = 10 →
      (0 ≤ vI → vI ≤ 10 → kI.clampToMinMax vI (d : Int) = .ok vI) ∧
      (vI < 0 → kI.clampToMinMax vI (d : Int) = .ok 0) ∧
      (10 < vI → kI.clampToMinMax vI (d : Int) = .ok 10)) ∧
    (loD = 0 → hiD = 10 →
      (0 ≤ vD → vD ≤ 10 → kD.clampToMinMax vD (d : Int) = .ok vD) ∧
      (vD < 0 → kD.clampToMinMax vD (d : Int) = .ok 0) ∧
      (10 < vD → kD.clampToMinMax vD (d : Int) = .ok 10)) := by
  have hI : kI.clampToMinMax vI (d : Int) = .ok (max loI (min hiI vI)) := by
    rw [clampToMinMax_of_bounds kI d loI hiI vI hloI hhiI]
    have hcast : max (KnobPOD.toDouble loI) (min (KnobPOD.toDouble hiI) (KnobPOD.toDouble vI)) =
        KnobPOD.toDouble (max loI (min hiI vI)) := by
      show max (loI : ℚ) (min (hiI : ℚ) (vI : ℚ)) = ((max loI (min hiI vI) : Int) : ℚ)
      rw [Int.cast_max, Int.cast_min]
    rw [hcast, ofDouble_toDouble_int]
  have hD : kD.clampToMinMax vD (d : Int) = .ok (max loD (min hiD vD)) := by
    rw [clampToMinMax_of_bounds kD d loD hiD vD hloD hhiD]
    rfl
  refine ⟨hI, hD, ?_, ?_⟩
  · intro h0 h10
    subst h0 h10
    refine ⟨fun h1 h2 => ?_, fun h1 => ?_, fun h1 => ?_⟩
    · rw [hI, min_eq_right h2, max_eq_right h1]
    · rw [hI, min_eq_right (by omega), max_eq_left (by omega)]
    · rw [hI, min_eq_left (by omega), max_eq_right (by omega)]
  · intro h0 h10
    subst h0 h10
    refine ⟨fun h1 h2 => ?_, fun h1 => ?_, fun h1 => ?_⟩
    · rw [hD, min_eq_right h2, max_eq_right h1]
    · rw [hD, min_eq_right (by linarith), max_eq_left (by linarith)]
    · rw [hD, min_eq_left (by linarith), max_eq_right (by norm_num)]

/-- The concrete parameters with the range `[0, 10]` are what `setRange(0, 10, all)` makes
of the constructed ones. -/
theorem setRange_intKnobOneDim :
    intKnobOneDim.setRange 0 10 .all = .ok intKnobRange10 ∧
      Knob.create (T := ℚ) baseOneDim = .ok colorKnobOneDim ∧
      colorKnobOneDim.setRange 0 10 .all = .ok colorKnobRange10 ∧
      Knob.create (T := String) baseOneDim = .ok stringKnobOneDim :=
  ⟨rfl, rfl, rfl, rfl⟩

/-- An instance of C5, on the one-dimensional parameters with the range `[0, 10]`: 11 is
clamped to 10 on the integer parameter and 1/2 is kept on the floating-point one. -/
theorem clampToMinMax_eq_max_min_witness :
    intKnobRange10.clampToMinMax 11 0 = .ok 10 ∧
      colorKnobRange10.clampToMinMax (1 / 2) 0 = .ok (1 / 2) := by
  have h := clampToMinMax_eq_max_min intKnobRange10 colorKnobRange10 0 0 10 11 0 10 (1 / 2)
    rfl rfl rfl rfl
  refine ⟨(h.2.2.1 rfl rfl).2.2 (by decide), (h.2.2.2 rfl rfl).1 (by norm_num) (by norm_num)⟩

/-- C6, as the code has it. For every numeric parameter, value and dimension argument,
`clampToMinMax` fails with an invalid-argument error if and only if the dimension is
negative or not below the size of the minimums vector; that size is `nDimensions` whenever
the minimums vector has one entry per dimension, as after construction and `setRange`.
When it fails, the outcome does not depend on the entries of the range vectors. -/
theorem clampToMinMax_fails_iff_outside_minimums {T : Type} [KnobPOD T] (k : Knob T) (v : T)
    (dimension : DimIdx) :
    (k.clampToMinMax v dimension = .error .invalidArgument ↔
      (dimension < 0 ∨ dimension ≥ (k._minimums.length : Int))) ∧
    (k._minimums.length = k.dimension →
      (k.clampToMinMax v dimension = .error .invalidArgument ↔
        (dimension < 0 ∨ dimension ≥ k.getNDimensions))) ∧
    ((dimension < 0 ∨ dimension ≥ (k._minimums.length : Int)) →
      ∀ mins maxs : List T, mins.length = k._minimums.length →
        Knob.clampToMinMax { k with _minimums := mins, _maximums := maxs } v dimension =
          .error .invalidArgument) := by
  have hiff : k.clampToMinMax v dimension = .error .invalidArgument ↔
      (dimension < 0 ∨ dimension ≥ (k._minimums.length : Int)) := by
    constructor
    · intro h
      by_contra hc
      simp only [Knob.clampToMinMax, hc, if_false, bind, Except.bind] at h
      have h1 := vecGet_ne_invalidArgument k._minimums dimension
      have h2 := vecGet_ne_invalidArgument k._maximums dimension
      cases hlo : vecGet k._minimums dimension with
      | error e =>
        rw [hlo] at h h1
        simp only at h
        exact h1 h
      | ok lo =>
        rw [hlo] at h
        simp only at h
        cases hhi : vecGet k._maximums dimension with
        | error e =>
          rw [hhi] at h h2
          simp only at h
          exact h2 h
        | ok hi =>
          rw [hhi] at h
          cases h
    · intro hc
      simp only [Knob.clampToMinMax, hc, if_true]
  refine ⟨hiff, fun hlen => ?_, fun hc mins maxs hl => ?_⟩
  · rw [hiff, hlen]
    rfl
  · have hc' : dimension < 0 ∨ dimension ≥ (mins.length : Int) := by rw [hl]; exact hc
    simp only [Knob.clampToMinMax, hc', if_true]

/-- Counterexample to C6 as stated: after `setRangeAcrossDimensions` with empty vectors on
a one-dimensional integer parameter, `clampToMinMax(5, 0)` fails although dimension 0 is
below `nDimensions = 1`; and after `setRangeAcrossDimensions` with two-entry vectors,
`clampToMinMax(5, 1)` returns a value although dimension 1 is not below `nDimensions`. -/
theorem clampToMinMax_bound_is_minimums_size :
    (intKnobOneDim.setRangeAcrossDimensions [] []).getNDimensions = 1 ∧
      (intKnobOneDim.setRangeAcrossDimensions [] []).clampToMinMax 5 0 =
        .error .invalidArgument ∧
      (intKnobOneDim.setRangeAcrossDimensions [0, 0] [10, 10]).getNDimensions = 1 ∧
      (intKnobOneDim.setRangeAcrossDimensions [0, 0] [10, 10]).clampToMinMax 5 1 = .ok 5 :=
  ⟨rfl, rfl, rfl, rfl⟩

/-- C7, as the code has it. On a text-valued parameter `clampToMinMax` is the identity: for
every value and every dimension argument it returns the value unchanged and does not fail;
so does the specialisation for boolean parameters. -/
theorem clampToMinMax_identity_on_text_and_bool (ks : Knob String) (kb : Knob Bool)
    (s : String) (b : Bool) (dimension : DimIdx) :
    KnobStringBase.clampToMinMax ks s dimension = .ok s ∧
      KnobBoolBase.clampToMinMax kb b dimension = .ok b :=
  ⟨rfl, rfl⟩

/-- Counterexample to C7 as stated: on a one-dimensional text parameter, clamping the text
`abc` succeeds and returns it, for the valid dimension 0 and for the invalid dimensions 7
and -1 alike. -/
theorem clampToMinMax_on_text_does_not_fail :
    KnobStringBase.clampToMinMax stringKnobOneDim "abc" 0 = .ok "abc" ∧
      KnobStringBase.clampToMinMax stringKnobOneDim "abc" 7 = .ok "abc" ∧
      KnobStringBase.clampToMinMax stringKnobOneDim "abc" (-1) = .ok "abc" :=
  ⟨rfl, rfl, rfl⟩

/-! ## Reset and raw reads: claims -/

set_option maxRecDepth 8000 in
/-- C8, the failing input. On a one-dimensional floating-point parameter that is no
`KnobDouble` (a colour parameter), after the default of dimension 0 is set to 1,
`resetToDefaultValue(0, all views)` completes and leaves the raw value of the main view at
0 while `getDefaultValue(0)` is 1; `setDefaultValue(1, 0)`, which resets, leaves it at 0 as
well. On a `KnobDouble` without normalisation and on an integer parameter the same calls
leave the raw value at 1. -/
theorem resetToDefaultValue_skips_value_of_non_KnobDouble :
    (∃ k1 k2 : Knob ℚ,
      colorKnobOneDim.setDefaultValueWithoutApplying 1 (.dim 0) = .ok k1 ∧
      k1.callResetToDefaultValue (.dim 0) .all = .ok k2 ∧
      k2.getDefaultValue 0 = .ok 1 ∧ (k2.getRawValue 0 0).1 = .ok 0) ∧
    (∃ k3 : Knob ℚ, colorKnobOneDim.setDefaultValue 1 (.dim 0) = .ok k3 ∧
      k3.getDefaultValue 0 = .ok 1 ∧ (k3.getRawValue 0 0).1 = .ok 0) ∧
    (∃ k1 k2 : Knob ℚ,
      doubleKnobOneDim.setDefaultValueWithoutApplying 1 (.dim 0) = .ok k1 ∧
      k1.callResetToDefaultValue (.dim 0) .all = .ok k2 ∧
      k2.getDefaultValue 0 = .ok 1 ∧ (k2.getRawValue 0 0).1 = .ok 1) ∧
    (∃ k1 k2 : Knob Int,
      intKnobOneDim.setDefaultValueWithoutApplying 1 (.dim 0) = .ok k1 ∧
      k1.callResetToDefaultValue (.dim 0) .all = .ok k2 ∧
      k2.getDefaultValue 0 = .ok 1 ∧ (k2.getRawValue 0 0).1 = .ok 1) :=
  ⟨⟨_, _, rfl, rfl, rfl, rfl⟩, ⟨_, rfl, rfl, rfl⟩, ⟨_, _, rfl, rfl, rfl, rfl⟩,
    ⟨_, _, rfl, rfl, rfl, rfl⟩⟩

/-- C9, as the code has it. For every valid dimension `d` and view argument, the call
`resetToDefaultValue(d, view)` completes; afterwards dimension `d` has no expression and no
animation keyframes on every addressed view, and the master link of every (dimension,
view) is the one it was before the call: a link is not cleared by a reset. -/
theorem resetToDefaultValue_clears_expression_and_animation_keeps_link {T : Type}
    [KnobPOD T] (k : Knob T) (hwf : k.WellFormed) (d : DimIdx) (view : ViewSetSpec)
    (hv : k.validArgs (.dim d) view = true) :
    ∃ k', k.callResetToDefaultValue (.dim d) view = .ok k' ∧
      (∀ w ∈ k.targetViews view, k'.getExpression d w = "" ∧ k'.getCurve w d = []) ∧
      (∀ i w, k'.getMaster i w = k.getMaster i w) := by
  obtain ⟨vals, sigs, -, h⟩ := Knob.callResetToDefaultValue_ok k hwf (.dim d) view hv
  refine ⟨_, h, fun w hw => ?_, fun i w => rfl⟩
  simp [Knob.getExpression, Knob.getCurve, DimSpec.targets, hw]

set_option maxRecDepth 8000 in
/-- Counterexample to C9 as stated: on the one-dimensional integer parameter whose
dimension 0 is slaved in the main view, `resetToDefaultValue(0, view 0)` completes and
`getMaster(0, view 0)` still reports the link. -/
theorem resetToDefaultValue_leaves_master_link :
    ∃ k' : Knob Int, intKnobSlaved.callResetToDefaultValue (.dim 0) (.view 0) = .ok k' ∧
      k'.getMaster 0 0 = some { masterKnob := some 7, masterDimension := 0, masterView := 0 } :=
  ⟨_, rfl, rfl⟩

/-- An instance of C9, on the slaved one-dimensional integer parameter, dimension
0 and the main view. -/
theorem resetToDefaultValue_clears_expression_and_animation_keeps_link_witness :
    ∃ k' : Knob Int, intKnobSlaved.callResetToDefaultValue (.dim 0) (.view 0) = .ok k' ∧
      (∀ w ∈ intKnobSlaved.targetViews (.view 0),
        k'.getExpression 0 w = "" ∧ k'.getCurve w 0 = []) ∧
      (∀ i w, k'.getMaster i w = intKnobSlaved.getMaster i w) :=
  resetToDefaultValue_clears_expression_and_animation_keeps_link intKnobSlaved (by decide) 0
    (.view 0) (by decide)

/-- C10. On a valid dimension `d` of a parameter of any value type, `getRawValue(d, view)`
does not fail for any view: it returns the value stored for the view when the store of `d`
has an entry for it and `T()` otherwise, and it leaves the value store as it was. `T()` is
`false`, 0, 0.0 and the empty text. -/
theorem getRawValue_total_on_valid_dimension {T : Type} [KnobValue T] (k : Knob T)
    (hwf : k.WellFormed) (d : Nat) (hd : d < k.dimension) (view : ViewIdx) :
    (∃ m, k._values[d]? = some m ∧
      (k.getRawValue (d : Int) view).1 =
        .ok (match m.find view with
          | some x => x
          | none => KnobValue.zero)) ∧
    (k.getRawValue (d : Int) view).2 = k._values ∧
    ((KnobValue.zero : Bool) = false ∧ (KnobValue.zero : Int) = 0 ∧
      (KnobValue.zero : ℚ) = 0 ∧ (KnobValue.zero : String) = "") := by
  have hlen : d < k._values.length := by
    rw [hwf.1]
    exact hd
  have hc : ¬((d : Int) < 0 ∧ (d : Int) ≥ k.getNDimensions) := by
    intro h
    exact absurd h.1 (by omega)
  refine ⟨⟨k._values[d], List.getElem?_eq_getElem hlen, ?_⟩, ?_, rfl, rfl, rfl, rfl⟩
  · simp only [Knob.getRawValue, hc, if_false, vecGet_of_lt hlen]
    cases PerViewMap.find k._values[d] view <;> rfl
  · simp only [Knob.getRawValue, hc, if_false, vecGet_of_lt hlen]
    cases PerViewMap.find k._values[d] view <;> rfl

/-- An instance of C10: on the one-dimensional text parameter, dimension 0 has an entry for the
main view and none for view 3; both reads succeed, the second returns the empty text, and
neither changes the store. -/
theorem getRawValue_total_on_valid_dimension_witness :
    (stringKnobOneDim.getRawValue 0 0).1 = .ok "" ∧
      (stringKnobOneDim.getRawValue 0 3).1 = .ok "" ∧
      PerViewMap.find [(0, "")] 3 = none ∧
      (stringKnobOneDim.getRawValue 0 3).2 = stringKnobOneDim._values := by
  have h0 := getRawValue_total_on_valid_dimension stringKnobOneDim (by decide) 0 (by decide) 0
  have h3 := getRawValue_total_on_valid_dimension stringKnobOneDim (by decide) 0 (by decide) 3
  obtain ⟨⟨m0, hm0, hr0⟩, -, -⟩ := h0
  obtain ⟨⟨m3, hm3, hr3⟩, hs3, -⟩ := h3
  have e0 : m0 = [(0, "")] := (Option.some.inj hm0).symm
  have e3 : m3 = [(0, "")] := (Option.some.inj hm3).symm
  subst e0 e3
  exact ⟨hr0, hr3, rfl, hs3⟩

/-! ## The write of a reset on one dimension: lemmas -/

theorem PerViewMap.find_assign_self {V : Type} (m : PerViewMap V) (w : ViewIdx) (x : V) :
    (m.assign w x).find w = some x := by
  induction m with
  | nil => simp [PerViewMap.assign, PerViewMap.find]
  | cons p rest ih =>
    obtain ⟨k, y⟩ := p
    unfold PerViewMap.assign
    by_cases h1 : w < k
    · simp [h1, PerViewMap.find]
    · by_cases h2 : k = w
      · simp [h1, h2, PerViewMap.find]
      · simp [h1, h2, PerViewMap.find, ih]

theorem PerViewMap.find_assign_of_ne {V : Type} (m : PerViewMap V) (w w' : ViewIdx) (x : V)
    (h : w' ≠ w) : (m.assign w x).find w' = m.find w' := by
  induction m with
  | nil => simp [PerViewMap.assign, PerViewMap.find, Ne.symm h]
  | cons p rest ih =>
    obtain ⟨k, y⟩ := p
    unfold PerViewMap.assign
    by_cases h1 : w < k
    · simp [h1, PerViewMap.find, Ne.symm h]
    · by_cases h2 : k = w
      · subst h2
        simp [h1, PerViewMap.find, Ne.symm h]
      · by_cases h3 : k = w'
        · subst h3
          simp [h1, h2, PerViewMap.find]
        · simp [h1, h2, h3, PerViewMap.find, ih]

namespace Knob

variable {T : Type}

/-- Writing one value to one dimension for a list of views: every one of these views then
maps to the value in the store of that dimension. -/
theorem forEach_assign_find (views : List ViewIdx) (v : T) (n : Nat) :
    ∀ vals : List (PerViewMap T), n < vals.length →
      ∃ vals', forEach views
          (fun w vals1 => vecModify vals1 (n : Int) (fun m => m.assign w v)) vals = .ok vals' ∧
        vals'.length = vals.length ∧
        (∀ w, (w ∈ views ∨ ∃ m, vals[n]? = some m ∧ m.find w = some v) →
          ∃ m, vals'[n]? = some m ∧ m.find w = some v) := by
  induction views with
  | nil =>
    intro vals _
    refine ⟨vals, rfl, rfl, fun w hw => ?_⟩
    rcases hw with hw | hw
    · cases hw
    · exact hw
  | cons w0 rest ih =>
    intro vals hn
    obtain ⟨vals', hrun, hl, hfind⟩ := ih (vals.set n (vals[n].assign w0 v)) (by simp [hn])
    refine ⟨vals', ?_, by rw [hl]; simp, fun w hw => ?_⟩
    · simp only [forEach, vecModify_of_lt hn]
      exact hrun
    · apply hfind w
      by_cases hw0 : w = w0
      · subst hw0
        exact Or.inr ⟨vals[n].assign w v, List.getElem?_set_self hn,
          PerViewMap.find_assign_self _ _ _⟩
      · rcases hw with hw | ⟨m, hm, hmf⟩
        · rcases List.mem_cons.mp hw with h | h
          · exact absurd h hw0
          · exact Or.inl h
        · refine Or.inr ⟨vals[n].assign w0 v, List.getElem?_set_self hn, ?_⟩
          rw [PerViewMap.find_assign_of_ne _ _ _ _ hw0]
          have : vals[n] = m := by
            rw [List.getElem?_eq_getElem hn] at hm
            exact Option.some.inj hm
          rw [this]
          exact hmf

/-- After `setValue` on a valid dimension, every addressed view maps to the value. -/
theorem setValue_find (k : Knob T) (hlen : k._values.length = k.dimension) (v : T)
    (view : ViewSetSpec) (n : Nat) (reason : ValueChangedReasonEnum)
    (hv : k.validArgs (.dim (n : Int)) view = true) :
    ∃ k', k.setValue v view (n : Int) reason = .ok k' ∧
      k'._defaultValues = k._defaultValues ∧
      ∀ w ∈ k.targetViews view, ∃ m, k'._values[n]? = some m ∧ m.find w = some v := by
  obtain ⟨n', hn', hlt⟩ := validArgs_dim hv
  have hnn : n = n' := by exact_mod_cast hn'
  subst hnn
  obtain ⟨vals, hrun, -, hfind⟩ :=
    forEach_assign_find (k.targetViews view) v n k._values (by omega)
  refine ⟨{ k with
      _values := vals
      signals := k.signals ++ [.s_valueChanged (.dim (n : Int)) view reason] },
    by simp only [setValue, hv, if_true, hrun], rfl, fun w hw => hfind w (Or.inl hw)⟩

/-- The write of a reset. When the call `resetToDefaultValue(d, view)` on a valid dimension
resolves to the generic template, or to the specialisation on a `KnobDouble` whose
conversion step leaves the default of `d` as it is, every addressed view of `d` maps to the
default value converted to `double` and back. -/
theorem callResetToDefaultValue_writes_default [KnobPOD T] (k : Knob T) (hwf : k.WellFormed)
    (d : Nat) (view : ViewSetSpec) (hv : k.validArgs (.dim (d : Int)) view = true)
    (hpath : KnobPOD.isDoubleBase T = false ∨
      ∃ dbl, k.isKnobDouble = some dbl ∧ ∀ x, dbl.convertDefault k.currentTime (d : Int) x = x) :
    ∃ k' r, k.callResetToDefaultValue (.dim (d : Int)) view = .ok k' ∧
      k._defaultValues[d]? = some r ∧ k'._defaultValues = k._defaultValues ∧
      ∀ w ∈ k.targetViews view, ∃ m, k'._values[d]? = some m ∧
        m.find w = some (KnobPOD.ofDouble (KnobPOD.toDouble r.value)) := by
  obtain ⟨hlv, hld, -⟩ := hwf
  obtain ⟨n', hn', hlt⟩ := validArgs_dim hv
  have hnn : d = n' := by exact_mod_cast hn'
  subst hnn
  have hdl : d < k._defaultValues.length := by omega
  have hv2 : validArgs { k with
      curves := fun i w =>
        if (DimSpec.dim (d : Int)).targets i && decide (w ∈ k.targetViews view) then []
        else k.curves i w } (.dim (d : Int)) view = true := hv
  have hgeneric : ∀ conv : DimIdx → ℚ → ℚ, (∀ x, conv (d : Int) x = x) →
      ∃ dv, collectDefaults k._defaultValues k.dimension (.dim (d : Int)) conv = .ok dv ∧
        vecGet dv (d : Int) = .ok (KnobPOD.toDouble k._defaultValues[d].value) := by
    intro conv hconv
    obtain ⟨dv, hdv, -, hpt⟩ :=
      collectDefaults_ok k._defaultValues k.dimension hld (.dim (d : Int)) conv
    have h := hpt d hdl (by simp [DimSpec.targets])
    rw [hconv] at h
    exact ⟨dv, hdv, vecGet_of_some h⟩
  obtain ⟨k', hset, hdefs, hfind⟩ := setValue_find
    { k with
      curves := fun i w =>
        if (DimSpec.dim (d : Int)).targets i && decide (w ∈ k.targetViews view) then []
        else k.curves i w
      expressions := fun i w =>
        if (DimSpec.dim (d : Int)).targets i && decide (w ∈ k.targetViews view) then ""
        else k.expressions i w }
    hlv (KnobPOD.ofDouble (KnobPOD.toDouble k._defaultValues[d].value)) view d
    .eValueChangedReasonRestoreDefault hv
  refine ⟨k', k._defaultValues[d], ?_, List.getElem?_eq_getElem hdl, hdefs, hfind⟩
  rcases hpath with hp | ⟨dbl, hdbl, hconv⟩
  · obtain ⟨dv, hdv, hget⟩ := hgeneric (fun _ x => x) (fun _ => rfl)
    simp only [callResetToDefaultValue, hp, Bool.false_eq_true, if_false, resetToDefaultValue,
      removeAnimation, hv, if_true, clearExpression, hv2, resetExtraToDefaultValue, bind,
      Except.bind, hdv, hget]
    exact hset
  · obtain ⟨dv, hdv, hget⟩ := hgeneric (dbl.convertDefault k.currentTime) hconv
    by_cases hp : KnobPOD.isDoubleBase T = true
    · simp only [callResetToDefaultValue, hp, if_true, KnobDoubleBase.resetToDefaultValue,
        removeAnimation, hv, clearExpression, hv2, resetExtraToDefaultValue, bind,
        Except.bind]
      simp only [hdbl, getCurrentTime, hdv, hget]
      rw [hdbl] at hset
      exact hset
    · obtain ⟨dv', hdv', hget'⟩ := hgeneric (fun _ x => x) (fun _ => rfl)
      simp only [callResetToDefaultValue, hp, if_false, resetToDefaultValue,
        removeAnimation, hv, if_true, clearExpression, hv2, resetExtraToDefaultValue, bind,
        Except.bind, hdv', hget']
      exact hset

/-- On every path but that of a `KnobDoubleBase` that is no `KnobDouble`: for a value type
whose values survive the conversion to `double` and back, with the main view declared,
after `resetToDefaultValue(d, all views)` on a valid dimension the raw value of the main
view is the default value. -/
theorem callResetToDefaultValue_raw_eq_default [KnobPOD T] (k : Knob T) (hwf : k.WellFormed)
    (d : Nat) (hd : d < k.dimension) (hmain : 0 ∈ k.getViewsList)
    (hround : ∀ v : T, KnobPOD.ofDouble (KnobPOD.toDouble v) = v)
    (hpath : KnobPOD.isDoubleBase T = false ∨
      ∃ dbl, k.isKnobDouble = some dbl ∧ ∀ x, dbl.convertDefault k.currentTime (d : Int) x = x) :
    ∃ k', k.callResetToDefaultValue (.dim (d : Int)) .all = .ok k' ∧
      (k'.getRawValue (d : Int) 0).1 = k'.getDefaultValue (d : Int) := by
  have hv : k.validArgs (.dim (d : Int)) .all = true := by
    simp only [validArgs, getNDimensions, Bool.and_true, decide_eq_true_eq]
    exact ⟨Int.natCast_nonneg d, by exact_mod_cast hd⟩
  obtain ⟨k', r, hrun, hr, hdefs, hfind⟩ :=
    callResetToDefaultValue_writes_default k hwf d .all hv hpath
  obtain ⟨m, hm, hmf⟩ := hfind 0 hmain
  refine ⟨k', hrun, ?_⟩
  have hc : ¬((d : Int) < 0 ∧ (d : Int) ≥ k'.getNDimensions) := by
    intro h
    exact absurd h.1 (by omega)
  rw [getDefaultValue_of_some k' d r (by rw [hdefs]; exact hr)]
  simp only [getRawValue, hc, if_false, vecGet_of_some hm, hmf, hround]

end Knob

/-- The three plain-old-data value types survive the conversion to `double` and back. -/
theorem ofDouble_toDouble_pod :
    (∀ b : Bool, (KnobPOD.ofDouble (KnobPOD.toDouble b) : Bool) = b) ∧
      (∀ i : Int, (KnobPOD.ofDouble (KnobPOD.toDouble i) : Int) = i) ∧
      (∀ x : ℚ, (KnobPOD.ofDouble (KnobPOD.toDouble x) : ℚ) = x) := by
  refine ⟨fun b => ?_, ofDouble_toDouble_int, fun _ => rfl⟩
  cases b
  · show decide ((0 : ℚ) ≠ 0) = false
    simp
  · show decide ((1 : ℚ) ≠ 0) = true
    simp

/-! ## Raw reads out of range, type compatibility and refused copies: claims -/

set_option maxRecDepth 8000 in
/-- C11, the failing input. On the one-dimensional integer parameter `getRawValue(1, view)`
(dimension equal to `nDimensions`) and `getRawValue(-1, view)` do not fail with an
invalid-argument error: the guard `dimension < 0 && dimension >= getNDimensions()` is false
and the value store is subscripted out of its bounds. The guard fires for no parameter, no
dimension and no view. -/
theorem getRawValue_out_of_range_subscripts_the_store :
    (intKnobOneDim.getRawValue 1 0).1 = .error .outOfRange ∧
      (intKnobOneDim.getRawValue (-1) 0).1 = .error .outOfRange ∧
      ∀ (T : Type) [KnobValue T] (k : Knob T) (dimension : DimIdx) (view : ViewIdx),
        (k.getRawValue dimension view).1 ≠ .error .invalidArgument := by
  refine ⟨rfl, rfl, ?_⟩
  intro T _ k dimension view
  have hc : ¬(dimension < 0 ∧ dimension ≥ k.getNDimensions) := by
    intro h
    have h1 : dimension < 0 := h.1
    have h2 : (k.dimension : Int) ≤ dimension := h.2
    exact absurd (lt_of_le_of_lt (le_trans (Int.natCast_nonneg _) h2) h1) (lt_irrefl _)
  simp only [Knob.getRawValue, hc, if_false]
  cases hv : vecGet k._values dimension with
  | error e =>
    intro h
    have h3 : e = .invalidArgument := Except.error.inj h
    rw [h3] at hv
    exact vecGet_ne_invalidArgument _ _ hv
  | ok m =>
    show (match PerViewMap.find m view with
      | none => ((Except.ok KnobValue.zero : Except KnobError T), k._values)
      | some x => (Except.ok x, k._values)).1 ≠ _
    split <;> simp

/-- C20. `isTypeCompatible(a, b)` holds exactly when `a` and `b` are both plain-old-data
parameters (boolean, integer, floating-point) or both text parameters: the three numeric
kinds are mutually compatible, a text parameter is compatible only with a text parameter,
and the relation is reflexive, symmetric and transitive. -/
theorem isTypeCompatible_iff_same_class :
    (∀ a b : AnyKnob, a.isTypeCompatible b = true ↔ a.isTypePOD = b.isTypePOD) ∧
      (∀ (i : Knob Int) (b : Knob Bool) (d : Knob ℚ) (s t : Knob String),
        (AnyKnob.intBase i).isTypeCompatible (.boolBase b) = true ∧
        (AnyKnob.intBase i).isTypeCompatible (.doubleBase d) = true ∧
        (AnyKnob.boolBase b).isTypeCompatible (.doubleBase d) = true ∧
        (AnyKnob.stringBase s).isTypeCompatible (.stringBase t) = true ∧
        (AnyKnob.stringBase s).isTypeCompatible (.intBase i) = false ∧
        (AnyKnob.stringBase s).isTypeCompatible (.boolBase b) = false ∧
        (AnyKnob.stringBase s).isTypeCompatible (.doubleBase d) = false) ∧
      (∀ a : AnyKnob, a.isTypeCompatible a = true) ∧
      (∀ a b : AnyKnob, a.isTypeCompatible b = b.isTypeCompatible a) ∧
      (∀ a b c : AnyKnob, a.isTypeCompatible b = true → b.isTypeCompatible c = true →
        a.isTypeCompatible c = true) := by
  refine ⟨?_, ?_, ?_, ?_, ?_⟩
  · intro a b
    simp [AnyKnob.isTypeCompatible]
  · intro i b d s t
    exact ⟨rfl, rfl, rfl, rfl, rfl, rfl, rfl⟩
  · intro a
    simp [AnyKnob.isTypeCompatible]
  · intro a b
    cases a <;> cases b <;> rfl
  · intro a b c hab hbc
    simp only [AnyKnob.isTypeCompatible, beq_iff_eq] at *
    rw [hab, hbc]

/-- C17. `copyKnob` with a null source or with the called parameter itself as source
returns false and leaves the whole state as it was: value store, expression results and
default records are unchanged and nothing is emitted, neither `beginChanges()` nor
`evaluateValueChange(...)`. This holds whatever `cloneValues` the virtual call resolves to,
for every state and all other arguments. -/
theorem copyKnob_refused_on_self_or_null {T : Type}
    (cloneValues : Knob T → KnobIPtr → ViewPair → DimPair → Except KnobError (Bool × Knob T))
    (k : Knob T) (views : ViewPair) (dims : DimPair) (range : Option RangeD) (offset : ℚ) :
    k.copyKnob cloneValues .null views dims range offset = .ok (false, k) ∧
      k.copyKnob cloneValues .self views dims range offset = .ok (false, k) ∧
      (∀ k', k.copyKnob cloneValues .self views dims range offset = .ok (false, k') →
        k'._values = k._values ∧ k'._exprRes = k._exprRes ∧
          k'._defaultValues = k._defaultValues ∧ k'.signals = k.signals ∧
          Signal.beginChanges ∉ (k'.signals.drop k.signals.length) ∧
          ∀ d t v r, Signal.evaluateValueChange d t v r ∉ (k'.signals.drop k.signals.length)) := by
  refine ⟨rfl, rfl, ?_⟩
  intro k' h
  have hk : k' = k := by
    have h1 := Except.ok.inj h
    exact (congrArg Prod.snd h1).symm
  subst hk
  simp

/-! ## The derivative and integral evaluator: claims -/

set_option maxRecDepth 8000 in
/-- C12, the failing input. On the one-dimensional integer parameter, `getDerivativeAtTime`
and `getIntegrateFromTimeToTime` with dimension 1 (equal to `nDimensions`) pass the guard
`dimension > getNDimensions() || dimension < 0`: the derivative goes on to the expression,
link and curve of dimension 1 and returns 0, the integral goes on to subscript the value
store out of its bounds. For every dimension above `nDimensions` or below 0 both functions
do fail with an invalid-argument error, whatever the state holds. -/
theorem derivative_and_integral_guard_lets_nDimensions_through :
    Knob.getDerivativeAtTime flatContext intKnobOneDim 0 (.view 0) 1 = .ok 0 ∧
      (∀ mapToDouble : PerViewMap Int → ℚ,
        Knob.getIntegrateFromTimeToTime mapToDouble flatContext intKnobOneDim 0 1 (.view 0) 1
          = .error .outOfRange) ∧
      intKnobOneDim.getNDimensions = 1 ∧
      ∀ (T : Type) [KnobPOD T] (mapToDouble : PerViewMap T → ℚ) (ctx : EvalContext)
        (k : Knob T) (time1 time2 : ℚ) (view : ViewGetSpec) (dimension : DimIdx),
        dimension > k.getNDimensions ∨ dimension < 0 →
          k.getDerivativeAtTime ctx time1 view dimension = .error .invalidArgument ∧
          k.getIntegrateFromTimeToTime mapToDouble ctx time1 time2 view dimension
            = .error .invalidArgument := by
  refine ⟨rfl, fun _ => rfl, rfl, ?_⟩
  intro T _ mapToDouble ctx k time1 time2 view dimension h
  simp only [Knob.getDerivativeAtTime, Knob.getIntegrateFromTimeToTime, h, if_true, and_self]

/-- C16. On a valid dimension `getDerivativeAtTime(t)` resolves in this order: with a
non-empty expression it returns `(f(t + 0.5) - f(t - 0.5)) / 2`, `f` being the effective
value, whatever link or keyframes exist; otherwise, with a master link whose master is
alive, it returns the derivative of the master at the dimension and view of the link;
otherwise, with at least one keyframe on the curve, the derivative of the curve at `t`;
otherwise 0. -/
theorem getDerivativeAtTime_priority_order {T : Type} (ctx : EvalContext) (k : Knob T)
    (t : ℚ) (view : ViewGetSpec) (d : DimIdx) (hd : 0 ≤ d ∧ d < k.getNDimensions) :
    ((k.getExpression d (ctx.getViewIdxFromGetSpec .current)).isEmpty = false →
      k.getDerivativeAtTime ctx t view d =
        .ok ((ctx.getValueAtTime (t + 1 / 2) d view
          - ctx.getValueAtTime (t - 1 / 2) d view) / 2)) ∧
    ((k.getExpression d (ctx.getViewIdxFromGetSpec .current)).isEmpty = true →
      (∀ link master, k.getMaster d (ctx.getViewIdxFromGetSpec .current) = some link →
        link.masterKnob = some master →
        k.getDerivativeAtTime ctx t view d =
          ctx.masterGetDerivativeAtTime master t link.masterView link.masterDimension) ∧
      ((k.getMaster d (ctx.getViewIdxFromGetSpec .current) = none ∨
          ∃ link, k.getMaster d (ctx.getViewIdxFromGetSpec .current) = some link ∧
            link.masterKnob = none) →
        (0 < (k.getCurve (ctx.getViewIdxFromGetSpec view) d).length →
          k.getDerivativeAtTime ctx t view d =
            .ok (ctx.getDerivativeAt (k.getCurve (ctx.getViewIdxFromGetSpec view) d) t)) ∧
        ((k.getCurve (ctx.getViewIdxFromGetSpec view) d).length = 0 →
          k.getDerivativeAtTime ctx t view d = .ok 0))) := by
  have hg : ¬(d > k.getNDimensions ∨ d < 0) := by
    intro h
    rcases h with h | h
    · exact absurd (lt_trans hd.2 h) (lt_irrefl _)
    · exact absurd (lt_of_le_of_lt hd.1 h) (lt_irrefl _)
  refine ⟨?_, ?_⟩
  · intro he
    simp only [Knob.getDerivativeAtTime, hg, if_false, he, Bool.not_false, if_true]
  · intro he
    refine ⟨?_, ?_⟩
    · intro link master hl hm
      simp only [Knob.getDerivativeAtTime, hg, if_false, he, Bool.not_true, hl, hm]
      rfl
    · intro hno
      have hrest : k.getDerivativeAtTime ctx t view d =
          if (k.getCurve (ctx.getViewIdxFromGetSpec view) d).length > 0 then
            .ok (ctx.getDerivativeAt (k.getCurve (ctx.getViewIdxFromGetSpec view) d) t)
          else .ok 0 := by
        rcases hno with hn | ⟨link, hl, hm⟩
        · simp only [Knob.getDerivativeAtTime, hg, if_false, he, Bool.not_true, hn]
          rfl
        · simp only [Knob.getDerivativeAtTime, hg, if_false, he, Bool.not_true, hl, hm]
          rfl
      refine ⟨?_, ?_⟩
      · intro hc
        rw [hrest, if_pos hc]
      · intro hc
        rw [hrest, if_neg (by omega)]

/-- An instance of C16: on dimension 0 of one-dimensional integer parameters, with the
effective value `f(t) = t` the expression-driven derivative at 3 is
`(3.5 - 2.5) / 2 = 1/2`; the parameter slaved to the live master 7 returns the derivative 2
of the master; the parameter without expression, link and keyframes returns 0. -/
theorem getDerivativeAtTime_priority_order_witness :
    Knob.getDerivativeAtTime timeContext intKnobExpression 3 (.view 0) 0 = .ok (1 / 2) ∧
      Knob.getDerivativeAtTime timeContext intKnobSlaved 3 (.view 0) 0 = .ok 2 ∧
      Knob.getDerivativeAtTime timeContext intKnobOneDim 3 (.view 0) 0 = .ok 0 := by
  have h1 := getDerivativeAtTime_priority_order timeContext intKnobExpression 3 (.view 0) 0
    (by decide)
  have h2 := getDerivativeAtTime_priority_order timeContext intKnobSlaved 3 (.view 0) 0
    (by decide)
  have h3 := getDerivativeAtTime_priority_order timeContext intKnobOneDim 3 (.view 0) 0
    (by decide)
  refine ⟨?_, ?_, ?_⟩
  · rw [h1.1 (by decide)]
    show Except.ok (((3 : ℚ) + 1 / 2 - (3 - 1 / 2)) / 2) = Except.ok (1 / 2)
    norm_num
  · exact (h2.2 (by decide)).1 { masterKnob := some 7, masterDimension := 0, masterView := 0 }
      7 rfl rfl
  · exact ((h3.2 (by decide)).2 (Or.inl rfl)).2 rfl

theorem forRange_add (g : Int → ℚ) (i j : Int) (v : ℚ) :
    forRange i j (fun t v1 => v1 + g t) v =
      v + ((List.range (j - i).toNat).map (fun n : Nat => g (i + (n : Int)))).sum := by
  unfold forRange
  induction (j - i).toNat with
  | zero => simp
  | succ n ih =>
    rw [List.range_succ, List.foldl_append, ih]
    simp [add_assoc]

theorem forRange_append {α : Type} (h : Int → α) (i j : Int) (l : List α) :
    forRange i j (fun t l1 => l1 ++ [h t]) l =
      l ++ (List.range (j - i).toNat).map (fun n : Nat => h (i + (n : Int))) := by
  unfold forRange
  induction (j - i).toNat with
  | zero => simp
  | succ n ih =>
    rw [List.range_succ, List.foldl_append, ih]
    simp

theorem tilesFromTo_append (a b c : ℚ) (l1 l2 : List (ℚ × ℚ)) (h1 : tilesFromTo a b l1)
    (h2 : tilesFromTo b c l2) : tilesFromTo a c (l1 ++ l2) := by
  induction l1 generalizing a with
  | nil =>
    have hab : a = b := h1
    rw [hab]
    exact h2
  | cons p rest ih => exact ⟨h1.1, ih p.2 h1.2⟩

theorem tilesFromTo_units (i : Int) (n : Nat) :
    tilesFromTo (i : ℚ) ((i : ℚ) + n)
      ((List.range n).map (fun m : Nat => (((i + (m : Int) : Int) : ℚ),
        ((i + (m : Int) : Int) : ℚ) + 1))) := by
  induction n with
  | zero =>
    show (i : ℚ) = (i : ℚ) + ((0 : Nat) : ℚ)
    simp
  | succ n ih =>
    rw [List.range_succ, List.map_append]
    refine tilesFromTo_append _ _ _ _ _ ih ?_
    refine ⟨?_, ?_⟩
    · show ((i + (n : Int) : Int) : ℚ) = (i : ℚ) + n
      push_cast
      rfl
    · show ((i + (n : Int) : Int) : ℚ) + 1 = (i : ℚ) + ((n + 1 : Nat) : ℚ)
      push_cast
      ring

theorem tilesFromTo_sum_widths (a b : ℚ) (l : List (ℚ × ℚ)) (h : tilesFromTo a b l) :
    (l.map (fun p => p.2 - p.1)).sum = b - a := by
  induction l generalizing a with
  | nil =>
    have hab : a = b := h
    simp [hab]
  | cons p rest ih =>
    have h1 : p.1 = a := h.1
    rw [List.map_cons, List.sum_cons, ih p.2 h.2, ← h1]
    ring

theorem getIntegrateFromTimeToTimeSimpson_eq {T : Type} (ctx : EvalContext) (k : Knob T)
    (a b : ℚ) (view : ViewGetSpec) (d : DimIdx) :
    k.getIntegrateFromTimeToTimeSimpson ctx a b view d =
      simpson (fun t => ctx.getValueAtTime t d view) a b := rfl

/-- The expression branch of `getIntegrateFromTimeToTime`, with its loop summed up. -/
theorem getIntegrateFromTimeToTime_expression {T : Type} [KnobPOD T]
    (mapToDouble : PerViewMap T → ℚ) (ctx : EvalContext)
    (k : Knob T) (t1 t2 : ℚ) (view : ViewGetSpec) (d : DimIdx)
    (hg : ¬(d > k.getNDimensions ∨ d < 0))
    (hexpr : (k.getExpression d (ctx.getViewIdxFromGetSpec .current)).isEmpty = false)
    (hi : fitsInt ⌈t1⌉ = true) (hj : fitsInt ⌊t2⌋ = true) :
    k.getIntegrateFromTimeToTime mapToDouble ctx t1 t2 view d =
      .ok (if ⌈t1⌉ > ⌊t2⌋ then simpson (fun t => ctx.getValueAtTime t d view) t1 t2
        else
          (if t1 < (⌈t1⌉ : ℚ) then simpson (fun t => ctx.getValueAtTime t d view) t1 ⌈t1⌉
            else 0)
          + ((List.range (⌊t2⌋ - ⌈t1⌉).toNat).map (fun n : Nat =>
              simpson (fun t => ctx.getValueAtTime t d view)
                ((⌈t1⌉ + (n : Int) : Int) : ℚ) (((⌈t1⌉ + (n : Int) : Int) : ℚ) + 1))).sum
          + (if (⌊t2⌋ : ℚ) < t2 then simpson (fun t => ctx.getValueAtTime t d view) ⌊t2⌋ t2
            else 0)) := by
  simp only [Knob.getIntegrateFromTimeToTime, hg, if_false, hexpr, Bool.not_false, if_true,
    doubleToIntChecked_of_fits _ hi, doubleToIntChecked_of_fits _ hj, Knob.integrateExpression,
    getIntegrateFromTimeToTimeSimpson_eq, forRange_add]
  by_cases hij : ⌈t1⌉ > ⌊t2⌋
  · simp only [hij, if_true]
  · simp only [hij, if_false]
    congr 1
    by_cases h1 : t1 < (⌈t1⌉ : ℚ) <;> by_cases h2 : (⌊t2⌋ : ℚ) < t2 <;>
      simp only [h1, h2, if_true, if_false, zero_add, add_zero]

theorem simpsonIntervals_eq (t1 t2 : ℚ) :
    simpsonIntervals t1 t2 =
      if ⌈t1⌉ > ⌊t2⌋ then [(t1, t2)]
      else
        (if t1 < (⌈t1⌉ : ℚ) then [(t1, (⌈t1⌉ : ℚ))] else [])
          ++ (List.range (⌊t2⌋ - ⌈t1⌉).toNat).map (fun n : Nat =>
              (((⌈t1⌉ + (n : Int) : Int) : ℚ), ((⌈t1⌉ + (n : Int) : Int) : ℚ) + 1))
          ++ (if (⌊t2⌋ : ℚ) < t2 then [((⌊t2⌋ : ℚ), t2)] else []) := by
  simp only [simpsonIntervals, forRange_append, List.nil_append]

/-- The expression branch of `getIntegrateFromTimeToTime` adds up the Simpson estimates
over the intervals of `simpsonIntervals`. -/
theorem getIntegrateFromTimeToTime_eq_sum_simpsonIntervals {T : Type} [KnobPOD T]
    (mapToDouble : PerViewMap T → ℚ) (ctx : EvalContext) (k : Knob T) (t1 t2 : ℚ)
    (view : ViewGetSpec) (d : DimIdx)
    (hg : ¬(d > k.getNDimensions ∨ d < 0))
    (hexpr : (k.getExpression d (ctx.getViewIdxFromGetSpec .current)).isEmpty = false)
    (hi : fitsInt ⌈t1⌉ = true) (hj : fitsInt ⌊t2⌋ = true) :
    k.getIntegrateFromTimeToTime mapToDouble ctx t1 t2 view d =
      .ok (((simpsonIntervals t1 t2).map
        (fun p => simpson (fun t => ctx.getValueAtTime t d view) p.1 p.2)).sum) := by
  rw [getIntegrateFromTimeToTime_expression mapToDouble ctx k t1 t2 view d hg hexpr hi hj,
    simpsonIntervals_eq]
  congr 1
  by_cases hij : ⌈t1⌉ > ⌊t2⌋
  · simp only [hij, if_true, List.map_cons, List.map_nil, List.sum_cons, List.sum_nil,
      add_zero]
  · simp only [hij, if_false, List.map_append, List.sum_append, List.map_map]
    by_cases h1 : t1 < (⌈t1⌉ : ℚ) <;> by_cases h2 : (⌊t2⌋ : ℚ) < t2 <;>
      simp only [h1, h2, if_true, if_false, List.map_cons, List.map_nil, List.sum_cons,
        List.sum_nil, add_zero] <;> rfl

/-! ## The piecewise Simpson scheme: claims -/

/-- For bounds in order, the intervals of the piecewise Simpson scheme have a width between
0 and 1 and lie end to end from `t1` to `t2`. -/
theorem simpsonIntervals_tile (t1 t2 : ℚ) (h12 : t1 ≤ t2) :
    (∀ p ∈ simpsonIntervals t1 t2, 0 ≤ p.2 - p.1 ∧ p.2 - p.1 ≤ 1) ∧
      tilesFromTo t1 t2 (simpsonIntervals t1 t2) := by
  rw [simpsonIntervals_eq]
  have hc1 : t1 ≤ (⌈t1⌉ : ℚ) := Int.le_ceil t1
  have hc2 : (⌈t1⌉ : ℚ) < t1 + 1 := Int.ceil_lt_add_one t1
  have hf1 : (⌊t2⌋ : ℚ) ≤ t2 := Int.floor_le t2
  have hf2 : t2 < (⌊t2⌋ : ℚ) + 1 := Int.lt_floor_add_one t2
  by_cases hij : ⌈t1⌉ > ⌊t2⌋
  · simp only [hij, if_true]
    have hq : (⌊t2⌋ : ℚ) + 1 ≤ (⌈t1⌉ : ℚ) := by exact_mod_cast hij
    refine ⟨?_, rfl, rfl⟩
    intro p hp
    rw [List.mem_singleton] at hp
    subst hp
    exact ⟨by linarith, by linarith⟩
  · simp only [hij, if_false]
    have hle : ⌈t1⌉ ≤ ⌊t2⌋ := not_lt.mp hij
    have hn : ((⌊t2⌋ - ⌈t1⌉).toNat : Int) = ⌊t2⌋ - ⌈t1⌉ := Int.toNat_of_nonneg (by omega)
    refine ⟨?_, ?_⟩
    · intro p hp
      rw [List.mem_append, List.mem_append] at hp
      rcases hp with (hp | hp) | hp
      · by_cases h1 : t1 < (⌈t1⌉ : ℚ)
        · simp only [h1, if_true, List.mem_singleton] at hp
          subst hp
          exact ⟨by linarith, by linarith⟩
        · simp only [h1, if_false, List.not_mem_nil] at hp
      · rw [List.mem_map] at hp
        obtain ⟨n, -, hp⟩ := hp
        subst hp
        exact ⟨by simp, by simp⟩
      · by_cases h2 : (⌊t2⌋ : ℚ) < t2
        · simp only [h2, if_true, List.mem_singleton] at hp
          subst hp
          exact ⟨by linarith, by linarith⟩
        · simp only [h2, if_false, List.not_mem_nil] at hp
    · refine tilesFromTo_append t1 (⌊t2⌋ : ℚ) t2 _ _
        (tilesFromTo_append t1 (⌈t1⌉ : ℚ) (⌊t2⌋ : ℚ) _ _ ?_ ?_) ?_
      · by_cases h1 : t1 < (⌈t1⌉ : ℚ)
        · simp only [h1, if_true]
          exact ⟨rfl, rfl⟩
        · simp only [h1, if_false]
          exact le_antisymm hc1 (not_lt.mp h1)
      · have hu := tilesFromTo_units ⌈t1⌉ (⌊t2⌋ - ⌈t1⌉).toNat
        have he : (⌈t1⌉ : ℚ) + ((⌊t2⌋ - ⌈t1⌉).toNat : ℚ) = (⌊t2⌋ : ℚ) := by
          have h3 : (((⌊t2⌋ - ⌈t1⌉).toNat : Int) : ℚ) = (⌊t2⌋ : ℚ) - (⌈t1⌉ : ℚ) := by
            rw [hn]
            push_cast
            rfl
          have h4 : (((⌊t2⌋ - ⌈t1⌉).toNat : Int) : ℚ) = ((⌊t2⌋ - ⌈t1⌉).toNat : ℚ) := by
            push_cast
            rfl
          rw [← h4, h3]
          ring
        rw [he] at hu
        exact hu
      · by_cases h2 : (⌊t2⌋ : ℚ) < t2
        · simp only [h2, if_true]
          exact ⟨rfl, rfl⟩
        · simp only [h2, if_false]
          exact le_antisymm hf1 (not_lt.mp h2)

/-- C15, as the code has it. For bounds `t1 ≤ t2` whose ceiling `ceil(t1)` and floor
`floor(t2)` are values of `int`, the expression-driven integral is the sum of the Simpson
estimates over intervals that each have a width between 0 and 1 and that tile `[t1, t2]`:
the first starts at `t1`, each next one starts where the one before ends, the last ends at
`t2`, and the widths add up to `t2 - t1`. -/
theorem simpson_intervals_tile_ordered_bounds {T : Type} [KnobPOD T]
    (mapToDouble : PerViewMap T → ℚ) (ctx : EvalContext)
    (k : Knob T) (t1 t2 : ℚ) (view : ViewGetSpec) (d : DimIdx)
    (hd : 0 ≤ d ∧ d < k.getNDimensions)
    (hexpr : (k.getExpression d (ctx.getViewIdxFromGetSpec .current)).isEmpty = false)
    (h12 : t1 ≤ t2) (hi : fitsInt ⌈t1⌉ = true) (hj : fitsInt ⌊t2⌋ = true) :
    k.getIntegrateFromTimeToTime mapToDouble ctx t1 t2 view d =
        .ok (((simpsonIntervals t1 t2).map
          (fun p => simpson (fun t => ctx.getValueAtTime t d view) p.1 p.2)).sum) ∧
      (∀ p ∈ simpsonIntervals t1 t2, 0 ≤ p.2 - p.1 ∧ p.2 - p.1 ≤ 1) ∧
      tilesFromTo t1 t2 (simpsonIntervals t1 t2) ∧
      ((simpsonIntervals t1 t2).map (fun p => p.2 - p.1)).sum = t2 - t1 := by
  have hg : ¬(d > k.getNDimensions ∨ d < 0) := by
    intro h
    rcases h with h | h
    · exact absurd (lt_trans hd.2 h) (lt_irrefl _)
    · exact absurd (lt_of_le_of_lt hd.1 h) (lt_irrefl _)
  have ht := simpsonIntervals_tile t1 t2 h12
  exact ⟨getIntegrateFromTimeToTime_eq_sum_simpsonIntervals mapToDouble ctx k t1 t2 view d hg
    hexpr hi hj, ht.1, ht.2, tilesFromTo_sum_widths t1 t2 _ ht.2⟩

/-- An instance of C15: from 1/2 to 7/2 the intervals are `[1/2, 1]`, `[1, 2]`, `[2, 3]` and
`[3, 7/2]`. -/
theorem simpson_intervals_tile_ordered_bounds_witness :
    simpsonIntervals (1 / 2) (7 / 2) = [(1 / 2, 1), (1, 2), (2, 3), (3, 7 / 2)] ∧
      tilesFromTo (1 / 2) (7 / 2) (simpsonIntervals (1 / 2) (7 / 2)) ∧
      ((simpsonIntervals (1 / 2) (7 / 2)).map (fun p => p.2 - p.1)).sum = 7 / 2 - 1 / 2 := by
  have c1 : ⌈(1 / 2 : ℚ)⌉ = 1 := by
    rw [Int.ceil_eq_iff]
    norm_num
  have f1 : ⌊(7 / 2 : ℚ)⌋ = 3 := by
    rw [Int.floor_eq_iff]
    norm_num
  have h := simpson_intervals_tile_ordered_bounds (fun _ => 0) timeContext colorKnobExpression
    (1 / 2) (7 / 2) (.view 0) 0 (by decide) (by rfl) (by norm_num) (by rw [c1]; decide)
    (by rw [f1]; decide)
  refine ⟨?_, h.2.2.1, h.2.2.2⟩
  have hn : ((3 : Int) - 1).toNat = 2 := rfl
  rw [simpsonIntervals_eq, c1, f1, hn]
  norm_num [List.range_succ]

/-- Counterexample to C15 as stated: on the floating-point parameter with an expression and
the bounds 5 and 0, the expression-driven integral is one Simpson estimate over the whole of
`[5, 0]`, an interval of width -5. -/
theorem simpson_interval_of_reversed_bounds :
    simpsonIntervals 5 0 = [(5, 0)] ∧
      (∀ mapToDouble : PerViewMap ℚ → ℚ,
        Knob.getIntegrateFromTimeToTime mapToDouble timeContext colorKnobExpression 5 0
          (.view 0) 0 = .ok (simpson (fun t => t) 5 0)) ∧
      ¬(0 ≤ ((5 : ℚ), (0 : ℚ)).2 - ((5 : ℚ), (0 : ℚ)).1) := by
  have c1 : ⌈(5 : ℚ)⌉ = 5 := by
    rw [Int.ceil_eq_iff]
    norm_num
  have f1 : ⌊(0 : ℚ)⌋ = 0 := Int.floor_zero
  have hi : simpsonIntervals 5 0 = [(5, 0)] := by
    rw [simpsonIntervals_eq, c1, f1]
    rfl
  refine ⟨hi, fun mapToDouble => ?_, by norm_num⟩
  rw [getIntegrateFromTimeToTime_eq_sum_simpsonIntervals mapToDouble timeContext
    colorKnobExpression 5 0 (.view 0) 0 (by decide) (by rfl) (by rw [c1]; decide)
    (by rw [f1]; decide), hi]
  simp [timeContext]

/-! ## Cloning values: lemmas -/

theorem vecModify_of_some {α : Type} {xs : List α} {i : Nat} {x : α} (h : xs[i]? = some x)
    (f : α → α) : vecModify xs (i : Int) f = .ok (xs.set i (f x)) := by
  simp [vecModify, h]

theorem vecGet_of_none {α : Type} {xs : List α} {i : Nat} (h : xs[i]? = none) :
    vecGet xs (i : Int) = .error .outOfRange := by
  simp [vecGet, h]

/-- Partial-correctness rule of the counted loop: an invariant that every iteration which
does not fail re-establishes holds of the result when the loop does not fail. -/
theorem forLoop_of_ok {σ : Type} (P : Nat → σ → Prop) (n : Nat)
    (body : Nat → σ → Except KnobError σ) (s s' : σ) (h0 : P 0 s)
    (hstep : ∀ i t t', i < n → P i t → body i t = .ok t' → P (i + 1) t')
    (h : forLoop n body s = .ok s') : P n s' := by
  induction n generalizing s' with
  | zero =>
    have hs : s = s' := Except.ok.inj h
    rw [← hs]
    exact h0
  | succ m ih =>
    unfold forLoop at h
    cases hm : forLoop m body s with
    | error e =>
      rw [hm] at h
      cases h
    | ok s1 =>
      rw [hm] at h
      exact hstep m s1 s' (Nat.lt_succ_self m)
        (ih s1 (fun i t t' hi hP hb => hstep i t t' (Nat.lt_succ_of_lt hi) hP hb) hm) h

namespace Knob

variable {T : Type}

theorem storedValue_set_self (k : Knob T) (i : Nat) (m m1 : PerViewMap T)
    (hm : k._values[i]? = some m) (v : ViewIdx) :
    ({ k with _values := k._values.set i m1 } : Knob T).storedValue i v = m1.find v := by
  have hlen : i < k._values.length := by
    by_contra hc
    rw [List.getElem?_eq_none (not_lt.mp hc)] at hm
    cases hm
  simp only [storedValue, List.getElem?_set_self hlen]

theorem storedValue_set_of_ne (k : Knob T) (i j : Nat) (m1 : PerViewMap T) (hij : j ≠ i)
    (v : ViewIdx) :
    ({ k with _values := k._values.set i m1 } : Knob T).storedValue j v = k.storedValue j v := by
  simp only [storedValue, List.getElem?_set_ne (Ne.symm hij)]

theorem storedValue_of_some (k : Knob T) (i : Nat) (m : PerViewMap T)
    (hm : k._values[i]? = some m) (v : ViewIdx) : k.storedValue i v = m.find v := by
  simp only [storedValue, hm]

theorem storedValue_some_iff (k : Knob T) (i : Nat) (v : ViewIdx) (x : T) :
    k.storedValue i v = some x ↔ ∃ m, k._values[i]? = some m ∧ m.find v = some x := by
  unfold storedValue
  cases h : k._values[i]? with
  | none => simp
  | some m => simp

theorem getRawValue_of_storedValue [KnobValue T] (k : Knob T) (i : Nat) (v : ViewIdx) (x : T)
    (h : k.storedValue i v = some x) : (k.getRawValue (i : Int) v).1 = .ok x := by
  obtain ⟨m, hm, hf⟩ := (storedValue_some_iff k i v x).mp h
  have hc : ¬((i : Int) < 0 ∧ (i : Int) ≥ k.getNDimensions) := by
    intro hh
    exact absurd hh.1 (by omega)
  simp only [getRawValue, hc, if_false, vecGet_of_some hm, hf]

/-- One call of `copyValueForType` whose read of the source succeeds and converts, on a
dimension the target has a map for. -/
theorem copyValueForType_ok {S : Type} [KnobValue S] [DecidableEq T]
    (cast : S → Except KnobError T)
    (k : Knob T) (o : Knob S) (w ow : ViewIdx) (i : Nat) (od : DimIdx) (x : S) (c : T)
    (m : PerViewMap T) (hx : (o.getRawValue od ow).1 = .ok x) (hc : cast x = .ok c)
    (hm : k._values[i]? = some m) :
    k.copyValueForType cast o w ow (i : Int) od =
      .ok ((match m.find w with
          | none => true
          | some y => decide (y ≠ c)),
        { k with _values := k._values.set i (m.assign w c) }) := by
  simp only [copyValueForType, hx, hc, vecGet_of_some hm, vecModify_of_some hm]
  cases m.find w <;> rfl

/-- One call of `copyValueForType` that does not fail has read the source, converted the
value and written it. -/
theorem copyValueForType_inv {S : Type} [KnobValue S] [DecidableEq T]
    (cast : S → Except KnobError T)
    (k : Knob T) (o : Knob S) (w ow : ViewIdx) (i : Nat) (od : DimIdx) (r : Bool × Knob T)
    (h : k.copyValueForType cast o w ow (i : Int) od = .ok r) :
    ∃ x c m, (o.getRawValue od ow).1 = .ok x ∧ cast x = .ok c ∧ k._values[i]? = some m ∧
      r = ((match m.find w with
          | none => true
          | some y => decide (y ≠ c)),
        { k with _values := k._values.set i (m.assign w c) }) := by
  cases hx : (o.getRawValue od ow).1 with
  | error e =>
    simp only [copyValueForType, hx] at h
    cases h
  | ok x =>
    cases hc : cast x with
    | error e =>
      simp only [copyValueForType, hx, hc] at h
      cases h
    | ok c =>
      cases hm : k._values[i]? with
      | none =>
        simp only [copyValueForType, hx, hc, vecGet_of_none hm] at h
        cases h
      | some m =>
        rw [copyValueForType_ok cast k o w ow i od x c m hx hc hm] at h
        exact ⟨x, c, m, rfl, hc, rfl, (Except.ok.inj h).symm⟩

end Knob

namespace Knob

variable {T : Type}

end Knob

namespace Knob

variable {T : Type}

/-- One statement `hasChanged |= copyValueForType(...)` with the called parameter itself as
source, on a (dimension, view) that has an entry: the entry is written back as it is and
`hasChanged` keeps its value. -/
theorem cloneValuesStep_self [KnobValue T] [DecidableEq T] (w : ViewIdx) (i : Nat)
    (s : Bool × Knob T) (y : T) (hy : s.2.storedValue i w = some y) :
    ∃ s1, cloneValuesStep (fun v ov d od k1 => copyValueForType sameCast k1 k1 v ov d od)
        w w (i : Int) (i : Int) s = .ok s1 ∧
      s1.1 = s.1 ∧ s1.2.SameStore s.2 := by
  obtain ⟨m, hm, hf⟩ := (storedValue_some_iff s.2 i w y).mp hy
  have hx : (s.2.getRawValue (i : Int) w).1 = .ok y := getRawValue_of_storedValue s.2 i w y hy
  refine ⟨(s.1, { s.2 with _values := s.2._values.set i (m.assign w y) }), ?_, rfl, ?_, ?_⟩
  · simp only [cloneValuesStep,
      copyValueForType_ok sameCast s.2 s.2 w w i (i : Int) y y m hx rfl hm, hf,
      ne_eq, not_true_eq_false, decide_False, Bool.or_false]
  · simp
  · intro j v
    by_cases hji : j = i
    · subst hji
      rw [storedValue_set_self s.2 j m _ hm, storedValue_of_some s.2 j m hm]
      by_cases hvw : v = w
      · subst hvw
        rw [PerViewMap.find_assign_self, hf]
      · exact PerViewMap.find_assign_of_ne _ _ _ _ hvw
    · exact storedValue_set_of_ne s.2 i j _ hji v

/-- The two nested loops of `cloneValues` with both wildcards and the called parameter
itself as source, when every declared view has an entry on every dimension. -/
theorem cloneValuesLoop_self [KnobValue T] [DecidableEq T] (k : Knob T)
    (hent : k.DeclaredViewsStored) :
    ∃ k1, cloneValuesLoop (fun v ov d od k1 => copyValueForType sameCast k1 k1 v ov d od) k
        k.getViewsList .all .all = .ok (false, k1) ∧ k1.SameStore k := by
  obtain ⟨r, hr, hP⟩ := forLoop_inv
    (fun _ (s : Bool × Knob T) => s.1 = false ∧ s.2.SameStore k) k.dimension
    (fun i s =>
      forEach k.getViewsList
        (fun it t =>
          cloneValuesStep (fun v ov d od k1 => copyValueForType sameCast k1 k1 v ov d od)
            it it (i : Int) (i : Int) t) s)
    (false, k) ⟨rfl, rfl, fun _ _ => rfl⟩
    (fun i t hi hPt =>
      forEach_inv (fun (s : Bool × Knob T) => s.1 = false ∧ s.2.SameStore k) k.getViewsList _ t
        hPt
        (fun w t1 hw hPt1 => by
          have hsome := hent i hi w hw
          rw [← hPt1.2.2 i w] at hsome
          obtain ⟨y, hy⟩ := Option.isSome_iff_exists.mp hsome
          obtain ⟨t2, ht2, h1, h2⟩ := cloneValuesStep_self w i t1 y hy
          exact ⟨t2, ht2, h1.trans hPt1.1, h2.1.trans hPt1.2.1,
            fun j v => (h2.2 j v).trans (hPt1.2.2 j v)⟩))
  obtain ⟨b, k1⟩ := r
  have hb : b = false := hP.1
  subst hb
  exact ⟨k1, hr, hP.2⟩

end Knob

/-- Partial-correctness rule of the iteration over a list: an invariant that every step
which does not fail re-establishes holds of the result when the iteration does not fail. -/
theorem forEach_of_ok {α σ : Type} (P : σ → Prop) (xs : List α)
    (body : α → σ → Except KnobError σ) (s s' : σ) (h0 : P s)
    (hstep : ∀ x t t', x ∈ xs → P t → body x t = .ok t' → P t')
    (h : forEach xs body s = .ok s') : P s' := by
  induction xs generalizing s with
  | nil =>
    have hs : s = s' := Except.ok.inj h
    rw [← hs]
    exact h0
  | cons x rest ih =>
    unfold forEach at h
    cases hb : body x s with
    | error e =>
      rw [hb] at h
      cases h
    | ok s1 =>
      rw [hb] at h
      exact ih s1 (hstep x s s1 (List.mem_cons_self x rest) h0 hb)
        (fun y t t' hy hP hbt => hstep y t t' (List.mem_cons_of_mem x hy) hP hbt) h

/-- The loops of `cloneValues` keep every property of the target that each call of
`copyValueForType` keeps. -/
theorem Knob.cloneValuesLoop_keeps {T : Type} (P : Knob T → Prop)
    (copy : ViewIdx → ViewIdx → DimIdx → DimIdx → Knob T → Except KnobError (Bool × Knob T))
    (hcopy : ∀ v ov d od k1 r, P k1 → copy v ov d od k1 = .ok r → P r.2)
    (k : Knob T) (hk : P k) (otherViews : List ViewIdx) (views : ViewPair) (dims : DimPair)
    (r : Bool × Knob T) (h : Knob.cloneValuesLoop copy k otherViews views dims = .ok r) :
    P r.2 := by
  have hstep : ∀ v ov d od (s s1 : Bool × Knob T), P s.2 →
      Knob.cloneValuesStep copy v ov d od s = .ok s1 → P s1.2 := by
    intro v ov d od s s1 hs hrun
    unfold Knob.cloneValuesStep at hrun
    cases hc : copy v ov d od s.2 with
    | error e =>
      rw [hc] at hrun
      cases hrun
    | ok r1 =>
      rw [hc] at hrun
      have hs1 : s1 = (s.1 || r1.1, r1.2) := (Except.ok.inj hrun).symm
      rw [hs1]
      exact hcopy v ov d od s.2 r1 hs hc
  have hviews : ∀ d od (s s1 : Bool × Knob T), P s.2 →
      forEach otherViews (fun it s2 => Knob.cloneValuesStep copy it it d od s2) s = .ok s1 →
      P s1.2 := by
    intro d od s s1 hs hrun
    exact forEach_of_ok (fun t : Bool × Knob T => P t.2) otherViews _ s s1 hs
      (fun x t t' _ hP hb => hstep x x d od t t' hP hb) hrun
  cases dims with
  | all =>
    cases views with
    | all =>
      exact forLoop_of_ok (fun _ (t : Bool × Knob T) => P t.2) k.dimension _ (false, k) r hk
        (fun i t t' _ hP hb => hviews (i : Int) (i : Int) t t' hP hb) h
    | views view otherView =>
      exact forLoop_of_ok (fun _ (t : Bool × Knob T) => P t.2) k.dimension _ (false, k) r hk
        (fun i t t' _ hP hb => hstep view otherView (i : Int) (i : Int) t t' hP hb) h
  | dims dimension otherDimension =>
    cases views with
    | all => exact hviews dimension otherDimension (false, k) r hk h
    | views view otherView => exact hstep view otherView dimension otherDimension (false, k) r hk h

/-- A call of `copyValueForType` that does not fail changes the value store only. -/
theorem Knob.copyValueForType_toKnobHelper {S T : Type} [KnobValue S] [DecidableEq T]
    (cast : S → Except KnobError T) (k : Knob T) (o : Knob S) (w ow : ViewIdx) (d od : DimIdx)
    (r : Bool × Knob T) (h : k.copyValueForType cast o w ow d od = .ok r) :
    r.2.toKnobHelper = k.toKnobHelper := by
  cases hx : (o.getRawValue od ow).1 with
  | error e =>
    simp only [Knob.copyValueForType, hx] at h
    cases h
  | ok x =>
    cases hc : cast x with
    | error e =>
      simp only [Knob.copyValueForType, hx, hc] at h
      cases h
    | ok c =>
      cases hv : vecGet k._values d with
      | error e =>
        simp only [Knob.copyValueForType, hx, hc, hv] at h
        cases h
      | ok m =>
        cases hmod : vecModify k._values d (fun m1 => m1.assign w c) with
        | error e =>
          cases hf : m.find w <;>
            simp only [Knob.copyValueForType, hx, hc, hv, hf, hmod] at h <;> cases h
        | ok vals =>
          cases hf : m.find w <;>
            simp only [Knob.copyValueForType, hx, hc, hv, hf, hmod] at h <;> cases h <;> rfl

/-- A call of `cloneValues` of the plain-old-data types that does not fail changes the value
store only. -/
theorem Knob.cloneValues_toKnobHelper {T : Type} [KnobPOD T] [DecidableEq T] (k : Knob T)
    (other : KnobIPtr) (views : ViewPair) (dims : DimPair)
    (r : Bool × Knob T) (h : k.cloneValues other views dims = .ok r) :
    r.2.toKnobHelper = k.toKnobHelper := by
  have hcopy : ∀ v ov d od (k1 : Knob T) (r1 : Bool × Knob T),
      k1.toKnobHelper = k.toKnobHelper →
      Knob.copyValueFromPOD other v ov d od k1 = .ok r1 →
      r1.2.toKnobHelper = k.toKnobHelper := by
    intro v ov d od k1 r1 hk1 hrun
    cases other with
    | null =>
      have hr : (false, k1) = r1 := Except.ok.inj hrun
      rw [← hr]
      exact hk1
    | self => exact (Knob.copyValueForType_toKnobHelper sameCast k1 k1 v ov d od r1 hrun).trans hk1
    | other a =>
      cases a with
      | intBase o =>
        exact (Knob.copyValueForType_toKnobHelper podCast k1 o v ov d od r1 hrun).trans hk1
      | boolBase o =>
        exact (Knob.copyValueForType_toKnobHelper podCast k1 o v ov d od r1 hrun).trans hk1
      | doubleBase o =>
        exact (Knob.copyValueForType_toKnobHelper podCast k1 o v ov d od r1 hrun).trans hk1
      | stringBase o =>
        have hr : (false, k1) = r1 := Except.ok.inj hrun
        rw [← hr]
        exact hk1
  have hloop : ∀ otherViews, Knob.cloneValuesLoop (Knob.copyValueFromPOD other) k otherViews
      views dims = .ok r → r.2.toKnobHelper = k.toKnobHelper :=
    fun otherViews hrun =>
      Knob.cloneValuesLoop_keeps (fun k1 => k1.toKnobHelper = k.toKnobHelper) _ hcopy k rfl
        otherViews views dims r hrun
  cases other with
  | null =>
    have hr : (false, k) = r := Except.ok.inj h
    rw [← hr]
  | self => exact hloop _ h
  | other a =>
    cases a with
    | intBase o => exact hloop _ h
    | boolBase o => exact hloop _ h
    | doubleBase o => exact hloop _ h
    | stringBase o =>
      have hr : (false, k) = r := Except.ok.inj h
      rw [← hr]

/-- A call of `KnobStringBase::cloneValues` that does not fail changes the value store
only. -/
theorem KnobStringBase.cloneValuesString_toKnobHelper (k : Knob String)
    (other : KnobIPtr) (views : ViewPair) (dims : DimPair) (r : Bool × Knob String)
    (h : KnobStringBase.cloneValues k other views dims = .ok r) :
    r.2.toKnobHelper = k.toKnobHelper := by
  have hcopy : ∀ v ov d od (k1 : Knob String) (r1 : Bool × Knob String),
      k1.toKnobHelper = k.toKnobHelper →
      KnobStringBase.copyValueFromString other v ov d od k1 = .ok r1 →
      r1.2.toKnobHelper = k.toKnobHelper := by
    intro v ov d od k1 r1 hk1 hrun
    have hsame1 : Except.ok (false, k1) =
        (Except.ok r1 : Except KnobError (Bool × Knob String)) →
        r1.2.toKnobHelper = k.toKnobHelper := by
      intro hrun1
      have hr : (false, k1) = r1 := Except.ok.inj hrun1
      rw [← hr]
      exact hk1
    cases other with
    | null => exact hsame1 hrun
    | self => exact (Knob.copyValueForType_toKnobHelper sameCast k1 k1 v ov d od r1 hrun).trans hk1
    | other a =>
      cases a with
      | intBase o => exact hsame1 hrun
      | boolBase o => exact hsame1 hrun
      | doubleBase o => exact hsame1 hrun
      | stringBase o =>
        exact (Knob.copyValueForType_toKnobHelper sameCast k1 o v ov d od r1 hrun).trans hk1
  have hloop : ∀ otherViews,
      Knob.cloneValuesLoop (KnobStringBase.copyValueFromString other) k otherViews
        views dims = .ok r → r.2.toKnobHelper = k.toKnobHelper :=
    fun otherViews hrun =>
      Knob.cloneValuesLoop_keeps (fun k1 => k1.toKnobHelper = k.toKnobHelper) _ hcopy k rfl
        otherViews views dims r hrun
  have hsame : Except.ok (false, k) =
      (Except.ok r : Except KnobError (Bool × Knob String)) →
      r.2.toKnobHelper = k.toKnobHelper := by
    intro hrun1
    have hr : (false, k) = r := Except.ok.inj hrun1
    rw [← hr]
  cases other with
  | null => exact hsame h
  | self => exact hloop _ h
  | other a =>
    cases a with
    | intBase o => exact hsame h
    | boolBase o => exact hsame h
    | doubleBase o => exact hsame h
    | stringBase o => exact hloop _ h

/-! ## Cloning values: claims -/

/-- C18, as the code has it. `cloneValues` with both wildcards and the called parameter
itself as source returns false and leaves every entry of the value store as it was, in
every state in which each declared view has an entry in the store of each dimension; this
holds for boolean, integer, floating-point and text parameters. -/
theorem cloneValues_on_self_keeps_store_of_declared_views :
    (∀ k : Knob Bool, k.DeclaredViewsStored →
      ∃ k1, k.cloneValues .self .all .all = .ok (false, k1) ∧ k1.SameStore k) ∧
    (∀ k : Knob Int, k.DeclaredViewsStored →
      ∃ k1, k.cloneValues .self .all .all = .ok (false, k1) ∧ k1.SameStore k) ∧
    (∀ k : Knob ℚ, k.DeclaredViewsStored →
      ∃ k1, k.cloneValues .self .all .all = .ok (false, k1) ∧ k1.SameStore k) ∧
    (∀ k : Knob String, k.DeclaredViewsStored →
      ∃ k1, KnobStringBase.cloneValues k .self .all .all = .ok (false, k1) ∧
        k1.SameStore k) :=
  ⟨fun k h => Knob.cloneValuesLoop_self k h,
    fun k h => Knob.cloneValuesLoop_self k h,
    fun k h => Knob.cloneValuesLoop_self k h,
    fun k h => Knob.cloneValuesLoop_self k h⟩

/-- An instance of C18: the one-dimensional integer parameter as construction leaves it has
an entry for its one declared view; cloning its values from itself returns false and keeps
the store. -/
theorem cloneValues_on_self_keeps_store_of_declared_views_witness :
    intKnobOneDim.DeclaredViewsStored ∧
      ∃ k1, intKnobOneDim.cloneValues .self .all .all = .ok (false, k1) ∧
        k1.SameStore intKnobOneDim := by
  have hd : intKnobOneDim.DeclaredViewsStored := by
    intro i hi v hv
    have hi0 : i = 0 := by
      have : i < 1 := hi
      omega
    have hv0 : v = 0 := by
      have : v ∈ [0] := hv
      simpa using this
    subst hi0 hv0
    rfl
  exact ⟨hd, cloneValues_on_self_keeps_store_of_declared_views.2.1 intKnobOneDim hd⟩

set_option maxRecDepth 8000 in
/-- Counterexample to C18 as stated: the one-dimensional integer parameter with the declared
views 0 and 1, whose store holds an entry for view 0 only. Cloning its values from itself
returns true and inserts the entry `(1, 0)` into the store. -/
theorem cloneValues_on_self_inserts_missing_view :
    intKnobTwoViews._values = [[(0, 0)]] ∧
      (intKnobTwoViews.cloneValues .self .all .all).map (fun r => (r.1, r.2._values))
        = .ok (true, [[(0, 0), (1, 0)]]) :=
  ⟨rfl, rfl⟩

theorem podCast_five_halves : (podCast (5 / 2 : ℚ) : Except KnobError Int) = .ok 2 := by
  have hf : ⌊(5 / 2 : ℚ)⌋ = 2 := by
    rw [Int.floor_eq_iff]
    norm_num
  have hd : doubleToInt (5 / 2 : ℚ) = 2 := by
    unfold doubleToInt
    rw [if_pos (by norm_num), hf]
  have h1 : KnobPOD.fits Int (KnobPOD.toDouble (5 / 2 : ℚ)) = true := by
    show fitsInt (doubleToInt (5 / 2 : ℚ)) = true
    rw [hd]
    decide
  have h2 : (KnobPOD.ofDouble (KnobPOD.toDouble (5 / 2 : ℚ)) : Int) = 2 := by
    show doubleToInt (5 / 2 : ℚ) = 2
    exact hd
  unfold podCast
  rw [if_pos h1, h2]

/-- C21. A value clone between incompatible types is skipped: `cloneValues` on a text
parameter with a boolean, integer or floating-point source, and `cloneValues` on a boolean,
integer or floating-point parameter with a text source, return false without failing and
leave the called parameter, its value store included, as it was; this holds for every state
of both parameters and all view and dimension arguments. -/
theorem cloneValues_skips_incompatible_source :
    (∀ (k : Knob String) (a : AnyKnob) (views : ViewPair) (dims : DimPair),
      a.isTypePOD = true →
        KnobStringBase.cloneValues k (.other a) views dims = .ok (false, k)) ∧
    (∀ (T : Type) [KnobPOD T] [DecidableEq T] (k : Knob T) (a : AnyKnob) (views : ViewPair)
      (dims : DimPair),
      a.isTypePOD = false → k.cloneValues (.other a) views dims = .ok (false, k)) ∧
    (∀ (t : Knob String) (i : Knob Int) (b : Knob Bool) (d : Knob ℚ),
      (AnyKnob.stringBase t).isTypePOD = false ∧ (AnyKnob.intBase i).isTypePOD = true ∧
        (AnyKnob.boolBase b).isTypePOD = true ∧ (AnyKnob.doubleBase d).isTypePOD = true) := by
  refine ⟨?_, ?_, ?_⟩
  · intro k a views dims ha
    cases a with
    | intBase o => rfl
    | boolBase o => rfl
    | doubleBase o => rfl
    | stringBase o => cases ha
  · intro T _ _ k a views dims ha
    cases a with
    | intBase o => cases ha
    | boolBase o => cases ha
    | doubleBase o => cases ha
    | stringBase o => rfl
  · intro t i b d
    exact ⟨rfl, rfl, rfl, rfl⟩

/-! ## Modification tracking: the stored flags -/

namespace Knob

variable {T : Type}

/-- The block of `computeHasModifications()` under `_valueMutex` reports a modification
exactly when the store has an entry for the (dimension, view) that differs from the default
value of the dimension. -/
theorem storedValueHasModif_iff [DecidableEq T] (k : Knob T) (hwf : k.WellFormed) (i : Nat)
    (hi : i < k.dimension) (view : ViewIdx) :
    ∃ b, k.storedValueHasModif (i : Int) view = .ok b ∧
      (b = true ↔ ∃ x d, k.storedValue i view = some x ∧ k._defaultValues[i]? = some d ∧
        x ≠ d.value) := by
  obtain ⟨hv, hd, _⟩ := hwf
  have hlv : i < k._values.length := by omega
  have hld : i < k._defaultValues.length := by omega
  have h1 : vecGet k._values (i : Int) = .ok k._values[i] := vecGet_of_lt hlv
  have h2 : vecGet k._defaultValues (i : Int) = .ok k._defaultValues[i] := vecGet_of_lt hld
  have hs : k.storedValue i view = PerViewMap.find k._values[i] view :=
    storedValue_of_some k i _ (List.getElem?_eq_getElem hlv) view
  have hdd : k._defaultValues[i]? = some k._defaultValues[i] := List.getElem?_eq_getElem hld
  unfold storedValueHasModif
  simp only [h1, h2, hs, hdd]
  cases hf : PerViewMap.find k._values[i] view with
  | none => exact ⟨false, rfl, by simp⟩
  | some x =>
    refine ⟨_, rfl, ?_⟩
    simp [computeValuesHaveModifications]

/-- The flag `hasModif` that the body of the loops of `computeHasModifications()` hands to
`setHasModifications`. -/
theorem computeHasModif_iff [DecidableEq T] (k : Knob T) (hwf : k.WellFormed) (i : Nat)
    (hi : i < k.dimension) (view : ViewIdx) :
    ∃ b, k.computeHasModif (i : Int) view = .ok b ∧
      (b = true ↔
        ((k.getExpression (i : Int) view).isEmpty = false ∨
          curveIsAnimated (k.getCurve view (i : Int)) = true ∨
          (k.getMaster (i : Int) view).isSome = true ∨
          (∃ x d, k.storedValue i view = some x ∧ k._defaultValues[i]? = some d ∧
            x ≠ d.value) ∨
          k.hasModificationsVirtual (i : Int) view = true)) := by
  obtain ⟨s, hs, hiff⟩ := storedValueHasModif_iff k hwf i hi view
  unfold computeHasModif
  rw [← hiff]
  cases he : (k.getExpression (i : Int) view).isEmpty <;>
    cases hc : curveIsAnimated (k.getCurve view (i : Int)) <;>
    cases hm : (k.getMaster (i : Int) view).isSome <;>
    cases s <;>
    cases hh : k.hasModificationsVirtual (i : Int) view <;>
    simp [hs, hh]

end Knob

namespace Knob

variable {T : Type}

/-- The loop of `computeHasModifications()` over the declared views, on one dimension: the
flag of every view of the list is the computed one, the other flags are as before, and
`oneChanged` is raised exactly when it was raised before or a flag of the list changed. -/
theorem computeHasModifications_views [DecidableEq T] (k : Knob T) (i : Nat) :
    ∀ (vs : List ViewIdx), (∀ v ∈ vs, ∃ b, k.computeHasModif (i : Int) v = .ok b) →
      ∀ st : (DimIdx → ViewIdx → Bool) × Bool,
      ∃ st1, forEach vs
          (fun view st2 =>
            match computeHasModif k (i : Int) view with
            | .ok hasModif =>
              let r := setHasModifications st2.1 (i : Int) view hasModif
              .ok (r.2, st2.2 || r.1)
            | .error e => .error e) st = .ok st1 ∧
        (∀ v ∈ vs, k.computeHasModif (i : Int) v = .ok (st1.1 (i : Int) v)) ∧
        (∀ (j : DimIdx) (v : ViewIdx), ¬(j = (i : Int) ∧ v ∈ vs) → st1.1 j v = st.1 j v) ∧
        (st1.2 = true ↔
          (st.2 = true ∨ ∃ v ∈ vs, st1.1 (i : Int) v ≠ st.1 (i : Int) v)) := by
  intro vs
  induction vs with
  | nil =>
    intro _ st
    exact ⟨st, rfl, fun v hv => absurd hv (List.not_mem_nil v), fun _ _ _ => rfl, by simp⟩
  | cons w rest ih =>
    intro hok st
    obtain ⟨b, hb⟩ := hok w (List.mem_cons_self w rest)
    obtain ⟨st1, hrun, hin, hout, hch⟩ :=
      ih (fun v hv => hok v (List.mem_cons_of_mem w hv))
        ((setHasModifications st.1 (i : Int) w b).2,
          st.2 || (setHasModifications st.1 (i : Int) w b).1)
    have hout : ∀ (j : DimIdx) (v : ViewIdx), ¬(j = (i : Int) ∧ v ∈ rest) →
        st1.1 j v = (setHasModifications st.1 (i : Int) w b).2 j v := hout
    have hch : st1.2 = true ↔
        ((st.2 || (setHasModifications st.1 (i : Int) w b).1) = true ∨
          ∃ v ∈ rest, st1.1 (i : Int) v ≠ (setHasModifications st.1 (i : Int) w b).2 (i : Int) v) :=
      hch
    have hw : st1.1 (i : Int) w = b := by
      by_cases hwr : w ∈ rest
      · have h1 := hin w hwr
        rw [hb] at h1
        exact (Except.ok.inj h1).symm
      · rw [hout (i : Int) w (fun h => hwr h.2)]
        simp [setHasModifications]
    have hupd : ∀ (j : DimIdx) (v : ViewIdx), ¬(j = (i : Int) ∧ v = w) →
        (setHasModifications st.1 (i : Int) w b).2 j v = st.1 j v := by
      intro j v hjv
      simp only [setHasModifications, hjv, if_false]
    refine ⟨st1, ?_, ?_, ?_, ?_⟩
    · unfold forEach
      simp only [hb]
      exact hrun
    · intro v hv
      by_cases hvr : v ∈ rest
      · exact hin v hvr
      · have hvw : v = w := by
          rcases List.mem_cons.mp hv with hh | hh
          · exact hh
          · exact absurd hh hvr
        rw [hvw, hw]
        exact hb
    · intro j v hjv
      rw [hout j v (fun h => hjv ⟨h.1, List.mem_cons_of_mem w h.2⟩)]
      exact hupd j v (fun h => hjv ⟨h.1, by rw [h.2]; exact List.mem_cons_self w rest⟩)
    · rw [hch]
      have hfst : (setHasModifications st.1 (i : Int) w b).1 = (st.1 (i : Int) w != b) := rfl
      constructor
      · intro h
        rcases h with h | ⟨v, hv, hne⟩
        · rw [hfst, Bool.or_eq_true] at h
          rcases h with h | h
          · exact Or.inl h
          · refine Or.inr ⟨w, List.mem_cons_self w rest, ?_⟩
            rw [hw]
            intro heq
            rw [heq] at h
            simp at h
        · by_cases hvw : v = w
          · subst hvw
            exfalso
            apply hne
            rw [hw]
            simp [setHasModifications]
          · refine Or.inr ⟨v, List.mem_cons_of_mem w hv, ?_⟩
            rw [← hupd (i : Int) v (fun h => hvw h.2)]
            exact hne
      · intro h
        rcases h with h | ⟨v, hv, hne⟩
        · exact Or.inl (by rw [Bool.or_eq_true]; exact Or.inl h)
        · by_cases hvw : v = w
          · subst hvw
            refine Or.inl ?_
            rw [hfst, Bool.or_eq_true]
            refine Or.inr ?_
            rw [hw] at hne
            simp only [bne_iff_ne, ne_eq]
            exact fun heq => hne heq.symm
          · have hvr : v ∈ rest := by
              rcases List.mem_cons.mp hv with hh | hh
              · exact absurd hh hvw
              · exact hh
            refine Or.inr ⟨v, hvr, ?_⟩
            rw [hupd (i : Int) v (fun h => hvw h.2)]
            exact hne

/-- What `computeHasModifications()` leaves: the flag of every (dimension, declared view) is
the computed one, all other flags are as before, and `s_hasModificationsChanged` is emitted
once when a flag of a (dimension, declared view) changed and not at all otherwise. -/
theorem computeHasModifications_spec [DecidableEq T] (k : Knob T) (hwf : k.WellFormed) :
    ∃ (flags : DimIdx → ViewIdx → Bool) (changed : Bool),
      k.computeHasModifications = .ok { k with
        modifications := flags
        signals := if changed then k.signals ++ [.s_hasModificationsChanged] else k.signals } ∧
      (∀ i : Nat, i < k.dimension → ∀ v ∈ k.getViewsList,
        k.computeHasModif (i : Int) v = .ok (flags (i : Int) v)) ∧
      (∀ (j : DimIdx) (v : ViewIdx),
        ¬(∃ i : Nat, i < k.dimension ∧ j = (i : Int) ∧ v ∈ k.getViewsList) →
        flags j v = k.modifications j v) ∧
      (changed = true ↔ ∃ i : Nat, i < k.dimension ∧ ∃ v ∈ k.getViewsList,
        flags (i : Int) v ≠ k.modifications (i : Int) v) := by
  obtain ⟨st, hst, hP⟩ := forLoop_inv
    (fun n (st : (DimIdx → ViewIdx → Bool) × Bool) =>
      (∀ i : Nat, i < n → ∀ v ∈ k.getViewsList,
        k.computeHasModif (i : Int) v = .ok (st.1 (i : Int) v)) ∧
      (∀ (j : DimIdx) (v : ViewIdx),
        ¬(∃ i : Nat, i < n ∧ j = (i : Int) ∧ v ∈ k.getViewsList) →
        st.1 j v = k.modifications j v) ∧
      (st.2 = true ↔ ∃ i : Nat, i < n ∧ ∃ v ∈ k.getViewsList,
        st.1 (i : Int) v ≠ k.modifications (i : Int) v))
    k.dimension
    (fun i st =>
      forEach k.getViewsList
        (fun view st1 =>
          match computeHasModif k i view with
          | .ok hasModif =>
            let r := setHasModifications st1.1 i view hasModif
            .ok (r.2, st1.2 || r.1)
          | .error e => .error e)
        st)
    (k.modifications, false)
    ⟨fun i hi => absurd hi (Nat.not_lt_zero i), fun _ _ _ => rfl, by simp⟩
    (by
      intro n st hn ⟨h1, h2, h3⟩
      obtain ⟨st1, hrun, hin, hout, hch⟩ :=
        computeHasModifications_views k n k.getViewsList
          (fun v _ => computeHasModif_ok k hwf n hn v) st
      have hnn : st.1 (n : Int) = k.modifications (n : Int) := by
        funext v
        exact h2 (n : Int) v (fun ⟨i, hi, heq, _⟩ => by
          have : (n : Int) = (i : Int) := heq
          omega)
      refine ⟨st1, hrun, ?_, ?_, ?_⟩
      · intro i hi v hv
        by_cases hin1 : i = n
        · subst hin1
          exact hin v hv
        · rw [hout (i : Int) v (fun h => hin1 (by exact_mod_cast h.1))]
          exact h1 i (by omega) v hv
      · intro j v hj
        rw [hout j v (fun h => hj ⟨n, Nat.lt_succ_self n, h.1, h.2⟩)]
        exact h2 j v (fun ⟨i, hi, h⟩ => hj ⟨i, Nat.lt_succ_of_lt hi, h⟩)
      · rw [hch, h3]
        constructor
        · intro h
          rcases h with ⟨i, hi, v, hv, hne⟩ | ⟨v, hv, hne⟩
          · refine ⟨i, Nat.lt_succ_of_lt hi, v, hv, ?_⟩
            rw [hout (i : Int) v (fun h => by
              have : (i : Int) = (n : Int) := h.1
              omega)]
            exact hne
          · refine ⟨n, Nat.lt_succ_self n, v, hv, ?_⟩
            rw [← hnn]
            exact hne
        · intro h
          obtain ⟨i, hi, v, hv, hne⟩ := h
          by_cases hin1 : i = n
          · subst hin1
            refine Or.inr ⟨v, hv, ?_⟩
            rw [hnn]
            exact hne
          · refine Or.inl ⟨i, by omega, v, hv, ?_⟩
            rw [← hout (i : Int) v (fun h => hin1 (by exact_mod_cast h.1))]
            exact hne)
  refine ⟨st.1, st.2, ?_, hP.1, hP.2.1, hP.2.2⟩
  unfold computeHasModifications
  rw [hst]

end Knob

/-! ## Modification tracking: claims -/

/-- C22. `computeHasModifications()` does not fail and changes the stored flags and the
notifications only; afterwards, for every dimension `i` and every declared view `v`, the
stored flag of `(i, v)` is true if and only if the expression of `(i, v)` is non-empty, or
the curve of `(v, i)` is animated, or a master link exists on `(i, v)`, or the value store
has an entry for `(i, v)` that differs from the current default value of `i`, or
`hasModificationsVirtual(i, v)` reports true. -/
theorem computeHasModifications_flag_iff {T : Type} [DecidableEq T] (k : Knob T)
    (hwf : k.WellFormed) :
    ∃ (flags : DimIdx → ViewIdx → Bool) (sigs : List Signal),
      k.computeHasModifications = .ok { k with modifications := flags, signals := sigs } ∧
      ∀ i : Nat, i < k.dimension → ∀ v ∈ k.getViewsList,
        (flags (i : Int) v = true ↔
          ((k.getExpression (i : Int) v).isEmpty = false ∨
            Knob.curveIsAnimated (k.getCurve v (i : Int)) = true ∨
            (k.getMaster (i : Int) v).isSome = true ∨
            (∃ x d, k.storedValue i v = some x ∧ k._defaultValues[i]? = some d ∧
              x ≠ d.value) ∨
            k.hasModificationsVirtual (i : Int) v = true)) := by
  obtain ⟨flags, changed, hrun, hflags, -, -⟩ := Knob.computeHasModifications_spec k hwf
  refine ⟨flags, _, hrun, ?_⟩
  intro i hi v hv
  obtain ⟨b, hb, hiff⟩ := Knob.computeHasModif_iff k hwf i hi v
  have h1 := hflags i hi v hv
  rw [hb] at h1
  rw [← Except.ok.inj h1]
  exact hiff

/-- An instance of C22: on the one-dimensional integer parameter holding 3 with the default
value 0, the flag of dimension 0 in the main view is true after the call. -/
theorem computeHasModifications_flag_iff_witness :
    ∃ (flags : DimIdx → ViewIdx → Bool) (sigs : List Signal),
      intKnobValue3.computeHasModifications =
        .ok { intKnobValue3 with modifications := flags, signals := sigs } ∧
      flags 0 0 = true := by
  obtain ⟨flags, sigs, hrun, hiff⟩ := computeHasModifications_flag_iff intKnobValue3 (by decide)
  refine ⟨flags, sigs, hrun, ?_⟩
  refine (hiff 0 (by decide) 0 (by decide)).mpr ?_
  exact Or.inr (Or.inr (Or.inr (Or.inl
    ⟨3, { initialValue := 0, value := 0, defaultValueSet := false }, rfl, rfl, by decide⟩)))

/-- C23. One call of `computeHasModifications()` emits `s_hasModificationsChanged` once, after
the notifications that were there, when the stored flag of at least one (dimension, view)
differs from the flag stored before the call, and emits nothing when no flag differs; it
never emits the notification more than once. -/
theorem computeHasModifications_notifies_once {T : Type} [DecidableEq T] (k : Knob T)
    (hwf : k.WellFormed) :
    ∃ k1, k.computeHasModifications = .ok k1 ∧
      ((∃ (j : DimIdx) (v : ViewIdx), k1.modifications j v ≠ k.modifications j v) →
        k1.signals = k.signals ++ [.s_hasModificationsChanged]) ∧
      ((∀ (j : DimIdx) (v : ViewIdx), k1.modifications j v = k.modifications j v) →
        k1.signals = k.signals) ∧
      (k1.signals = k.signals ∨ k1.signals = k.signals ++ [.s_hasModificationsChanged]) := by
  obtain ⟨flags, changed, hrun, -, hframe, hch⟩ := Knob.computeHasModifications_spec k hwf
  refine ⟨_, hrun, ?_, ?_, ?_⟩
  · intro ⟨j, v, hne⟩
    have hc : changed = true := by
      rw [hch]
      by_contra hno
      apply hne
      refine hframe j v ?_
      intro ⟨i, hi, hj, hv⟩
      exact hno ⟨i, hi, v, hv, by rw [← hj]; exact hne⟩
    show (if changed = true then k.signals ++ [Signal.s_hasModificationsChanged] else k.signals)
      = k.signals ++ [Signal.s_hasModificationsChanged]
    rw [if_pos hc]
  · intro hall
    have hc : ¬ changed = true := by
      rw [hch]
      intro ⟨i, _, v, _, hne⟩
      exact hne (hall (i : Int) v)
    show (if changed = true then k.signals ++ [Signal.s_hasModificationsChanged] else k.signals)
      = k.signals
    rw [if_neg hc]
  · show (if changed = true then k.signals ++ [Signal.s_hasModificationsChanged] else k.signals)
        = k.signals ∨
      (if changed = true then k.signals ++ [Signal.s_hasModificationsChanged] else k.signals)
        = k.signals ++ [Signal.s_hasModificationsChanged]
    by_cases hc : changed = true
    · rw [if_pos hc]
      exact Or.inr rfl
    · rw [if_neg hc]
      exact Or.inl rfl

set_option maxRecDepth 8000 in
/-- An instance of C23: the one-dimensional integer parameter holding 3 with the default
value 0 has no flag stored; the call turns the flag of dimension 0 in the main view to true
and emits the notification once. On the parameter holding 0 no flag changes and nothing is
emitted. -/
theorem computeHasModifications_notifies_once_witness :
    (∃ k1, intKnobValue3.computeHasModifications = .ok k1 ∧
      k1.signals = [.s_hasModificationsChanged]) ∧
    (∃ k1, intKnobOneDim.computeHasModifications = .ok k1 ∧ k1.signals = []) := by
  refine ⟨?_, ?_⟩
  · obtain ⟨k1, hrun, hyes, -, -⟩ :=
      computeHasModifications_notifies_once intKnobValue3 (by decide)
    have hflag : k1.modifications 0 0 = true := by
      have h1 : (intKnobValue3.computeHasModifications).map (fun r => r.modifications 0 0)
          = .ok true := rfl
      rw [hrun] at h1
      exact Except.ok.inj h1
    exact ⟨k1, hrun, hyes ⟨0, 0, by rw [hflag]; decide⟩⟩
  · obtain ⟨k1, hrun, -, hno, -⟩ :=
      computeHasModifications_notifies_once intKnobOneDim (by decide)
    refine ⟨k1, hrun, hno ?_⟩
    obtain ⟨flags, changed, hr, hfl, hframe, -⟩ :=
      Knob.computeHasModifications_spec intKnobOneDim (by decide)
    rw [hrun] at hr
    rw [Except.ok.inj hr]
    intro j v
    show flags j v = intKnobOneDim.modifications j v
    by_cases hjv : ∃ i : Nat, i < intKnobOneDim.dimension ∧ j = (i : Int) ∧
        v ∈ intKnobOneDim.getViewsList
    · obtain ⟨i, hi, hj, hv⟩ := hjv
      have hi0 : i = 0 := by
        have : i < 1 := hi
        omega
      have hv0 : v = 0 := by
        have : v ∈ [0] := hv
        simpa using this
      subst hi0 hv0 hj
      have h1 := hfl 0 (by decide) 0 (by decide)
      have h2 : intKnobOneDim.computeHasModif ((0 : Nat) : Int) 0 = .ok false := rfl
      rw [h2] at h1
      exact (Except.ok.inj h1).symm
    · exact hframe j v hjv

/-! ## Unslaving: lemmas -/

theorem Knob.emitIf_frame {T : Type} (k : Knob T) (c : Bool) (s : Signal) :
    ∃ sigs, k.emitIf c s = { k with signals := sigs } := by
  cases c
  · exact ⟨k.signals, rfl⟩
  · exact ⟨_, rfl⟩

/-- The notifications at the end of `unSlaveInternal` add to the emitted notifications and
leave the rest of the state. -/
theorem Knob.unSlaveNotify_frame {T : Type} (k : Knob T) (master : Nat)
    (linkData : MasterKnobLink) (dimension : DimIdx) (view : ViewIdx)
    (reason : ValueChangedReasonEnum) (hasChanged : Bool) :
    ∃ sigs, k.unSlaveNotify master linkData dimension view reason hasChanged =
      { k with signals := sigs } := by
  obtain ⟨s4, h4⟩ := Knob.emitIf_frame k (decide (reason = .eValueChangedReasonPluginEdited))
    (.s_knobSlaved dimension view false)
  obtain ⟨s5, h5⟩ := Knob.emitIf_frame ({ k with signals := s4 } : Knob T) k.hasHolder
    (.onKnobSlaved linkData.masterDimension dimension false)
  unfold Knob.unSlaveNotify
  simp only [h4]
  rw [show ({ k with signals := s4 } : Knob T).hasHolder = k.hasHolder from rfl, h5]
  cases hasChanged
  · exact ⟨_, rfl⟩
  · exact ⟨_, rfl⟩

/-- A call of `copyKnob` that does not fail keeps the master links and the enabled state,
when the value clone it calls changes the value store only. -/
theorem Knob.copyKnob_keeps_links {T : Type}
    (cloneValues : Knob T → KnobIPtr → ViewPair → DimPair → Except KnobError (Bool × Knob T))
    (hclone : ∀ k1 other views dims r, cloneValues k1 other views dims = .ok r →
      r.2.toKnobHelper = k1.toKnobHelper)
    (k : Knob T) (other : KnobIPtr) (views : ViewPair) (dims : DimPair)
    (range : Option RangeD) (offset : ℚ) (r : Bool × Knob T)
    (h : k.copyKnob cloneValues other views dims range offset = .ok r) :
    r.2.masters = k.masters ∧ r.2.enabled = k.enabled := by
  cases other with
  | null =>
    have hr : (false, k) = r := Except.ok.inj h
    rw [← hr]
    exact ⟨rfl, rfl⟩
  | self =>
    have hr : (false, k) = r := Except.ok.inj h
    rw [← hr]
    exact ⟨rfl, rfl⟩
  | other a =>
    cases hc : cloneValues k.beginChanges (.other a) views dims with
    | error e =>
      simp only [Knob.copyKnob, hc] at h
      cases h
    | ok r1 =>
      simp only [Knob.copyKnob, hc] at h
      have h1 := hclone _ _ _ _ _ hc
      have hm : r1.2.masters = k.masters := by
        rw [show r1.2.masters = r1.2.toKnobHelper.masters from rfl, h1]
        rfl
      have he : r1.2.enabled = k.enabled := by
        rw [show r1.2.enabled = r1.2.toKnobHelper.enabled from rfl, h1]
        rfl
      cases h
      refine ⟨?_, ?_⟩
      · rw [← hm]
        simp only [Knob.endChanges, Knob.evaluateValueChange]
        split <;> rfl
      · rw [← he]
        simp only [Knob.endChanges, Knob.evaluateValueChange]
        split <;> rfl

/-- What `unSlaveInternal` leaves on a link whose master is alive, when the call completes:
the link is severed and the dimension enabled, with and without copy of the state. -/
theorem Knob.unSlaveInternal_live {T : Type}
    (cloneValues : Knob T → KnobIPtr → ViewPair → DimPair → Except KnobError (Bool × Knob T))
    (hclone : ∀ k1 other views dims r, cloneValues k1 other views dims = .ok r →
      r.2.toKnobHelper = k1.toKnobHelper)
    (lock : Nat → KnobIPtr) (k : Knob T) (d : DimIdx) (v : ViewIdx)
    (reason : ValueChangedReasonEnum) (copyState : Bool) (link : MasterKnobLink) (master : Nat)
    (hl : k.getMaster d v = some link) (hm : link.masterKnob = some master)
    (hlock : lock master ≠ .null) (k1 : Knob T)
    (h : k.unSlaveInternal cloneValues lock d v reason copyState = .ok k1) :
    k1.getMaster d v = none ∧ k1.enabled d = true := by
  have hfin : ∀ (k3 : Knob T) (b : Bool), k3.masters d v = none → k3.enabled d = true →
      (Except.ok (k3.unSlaveNotify master link d v reason b) : Except KnobError (Knob T))
        = .ok k1 → k1.getMaster d v = none ∧ k1.enabled d = true := by
    intro k3 b h1 h2 hrun
    obtain ⟨sigs, hs⟩ := Knob.unSlaveNotify_frame k3 master link d v reason b
    rw [hs] at hrun
    rw [← Except.ok.inj hrun]
    exact ⟨h1, h2⟩
  have hk3 : ∀ sigs : List Signal,
      ((({ k with signals := sigs } : Knob T).resetMaster d v).setEnabled d true).masters d v
          = none ∧
        ((({ k with signals := sigs } : Knob T).resetMaster d v).setEnabled d true).enabled d
          = true := by
    intro sigs
    simp [Knob.resetMaster, Knob.setEnabled]
  cases copyState with
  | false =>
    cases hp : lock master with
    | null => exact absurd hp hlock
    | self =>
      simp only [Knob.unSlaveInternal, hl, hm, hp, Bool.false_eq_true, if_false] at h
      exact hfin _ false (hk3 _).1 (hk3 _).2 h
    | other a =>
      simp only [Knob.unSlaveInternal, hl, hm, hp, Bool.false_eq_true, if_false] at h
      exact hfin _ false (hk3 _).1 (hk3 _).2 h
  | true =>
    cases hp : lock master with
    | null => exact absurd hp hlock
    | self =>
      simp only [Knob.unSlaveInternal, hl, hm, hp, if_true] at h
      split at h
      next e _ => cases h
      next r hc =>
        obtain ⟨hm1, he1⟩ := Knob.copyKnob_keeps_links cloneValues hclone _ _ _ _ _ _ r hc
        exact hfin r.2 r.1 (by rw [hm1]; exact (hk3 _).1) (by rw [he1]; exact (hk3 _).2) h
    | other a =>
      simp only [Knob.unSlaveInternal, hl, hm, hp, if_true] at h
      split at h
      next e _ => cases h
      next r hc =>
        obtain ⟨hm1, he1⟩ := Knob.copyKnob_keeps_links cloneValues hclone _ _ _ _ _ _ r hc
        exact hfin r.2 r.1 (by rw [hm1]; exact (hk3 _).1) (by rw [he1]; exact (hk3 _).2) h

/-! ## Unslaving: claims -/

set_option maxRecDepth 8000 in
/-- Counterexample to C24 as stated: dimension 0 of the main view of a one-dimensional
integer parameter is slaved to a master that has been destroyed, and disabled.
`unSlaveInternal` returns at `if (!masterHelper)` before `resetMaster` and `setEnabled`:
the parameter is left as it was, the link still reported and the dimension still disabled,
for every reason and with and without copy of the state. -/
theorem unSlaveInternal_keeps_link_of_destroyed_master :
    intKnobSlavedToExpired.getMaster 0 0 =
        some { masterKnob := none, masterDimension := 0, masterView := 0 } ∧
      intKnobSlavedToExpired.enabled 0 = false ∧
      ∀ (reason : ValueChangedReasonEnum) (copyState : Bool),
        ∃ k1, Knob.unSlaveInternal Knob.cloneValues lockTwoDimMaster intKnobSlavedToExpired 0 0
            reason copyState = .ok k1 ∧
          k1 = intKnobSlavedToExpired ∧ (k1.getMaster 0 0).isSome = true ∧
          k1.enabled 0 = false :=
  ⟨rfl, rfl, fun _ _ => ⟨intKnobSlavedToExpired, rfl, rfl, rfl, rfl⟩⟩

/-- C24, as the code has it. A master edge on (dimension, view) whose master is alive is
severed by `unSlaveInternal`: when the call completes, `getMaster(dimension, view)` reports
no link and the dimension is enabled, with and without copy of the state, and without copy
of the state the call completes on every state. When the master has been destroyed (the
weak pointer of the link is expired) the call returns at `if (!masterHelper)` and changes
nothing: the link is still reported and the enabled state is as it was. When no master edge
exists the call changes nothing. -/
theorem unSlaveInternal_severs_link_of_live_master_only :
    (∀ (T : Type)
      (cloneValues : Knob T → KnobIPtr → ViewPair → DimPair → Except KnobError (Bool × Knob T))
      (lock : Nat → KnobIPtr) (k : Knob T) (d : DimIdx) (v : ViewIdx)
      (reason : ValueChangedReasonEnum) (copyState : Bool),
      ((∃ link, k.getMaster d v = some link ∧ link.masterKnob = none) →
        k.unSlaveInternal cloneValues lock d v reason copyState = .ok k) ∧
      (k.getMaster d v = none →
        k.unSlaveInternal cloneValues lock d v reason copyState = .ok k) ∧
      ((∃ link master, k.getMaster d v = some link ∧ link.masterKnob = some master ∧
          lock master ≠ .null) →
        ∃ k1, k.unSlaveInternal cloneValues lock d v reason false = .ok k1 ∧
          k1.getMaster d v = none ∧ k1.enabled d = true)) ∧
    (∀ (T : Type) [KnobPOD T] [DecidableEq T] (lock : Nat → KnobIPtr) (k : Knob T) (d : DimIdx)
      (v : ViewIdx) (reason : ValueChangedReasonEnum) (copyState : Bool) (k1 : Knob T),
      (∃ link master, k.getMaster d v = some link ∧ link.masterKnob = some master ∧
          lock master ≠ .null) →
      k.unSlaveInternal Knob.cloneValues lock d v reason copyState = .ok k1 →
      k1.getMaster d v = none ∧ k1.enabled d = true) ∧
    (∀ (lock : Nat → KnobIPtr) (k : Knob String) (d : DimIdx)
      (v : ViewIdx) (reason : ValueChangedReasonEnum) (copyState : Bool) (k1 : Knob String),
      (∃ link master, k.getMaster d v = some link ∧ link.masterKnob = some master ∧
          lock master ≠ .null) →
      k.unSlaveInternal KnobStringBase.cloneValues lock d v reason copyState = .ok k1 →
      k1.getMaster d v = none ∧ k1.enabled d = true) := by
  refine ⟨?_, ?_, ?_⟩
  · intro T cloneValues lock k d v reason copyState
    refine ⟨?_, ?_, ?_⟩
    · intro ⟨link, hl, hm⟩
      simp only [Knob.unSlaveInternal, hl, hm]
    · intro hl
      simp only [Knob.unSlaveInternal, hl]
    · intro ⟨link, master, hl, hm, hlock⟩
      have hfin : ∀ k3 : Knob T, k3.getMaster d v = none → k3.enabled d = true →
          ∃ k1, (Except.ok (k3.unSlaveNotify master link d v reason false) :
              Except KnobError (Knob T)) = .ok k1 ∧
            k1.getMaster d v = none ∧ k1.enabled d = true := by
        intro k3 h1 h2
        obtain ⟨sigs, hs⟩ := Knob.unSlaveNotify_frame k3 master link d v reason false
        rw [hs]
        exact ⟨_, rfl, h1, h2⟩
      have hk3 : ∀ sigs : List Signal,
          ((({ k with signals := sigs } : Knob T).resetMaster d v).setEnabled d true).getMaster
              d v = none ∧
            ((({ k with signals := sigs } : Knob T).resetMaster d v).setEnabled d true).enabled d
              = true := by
        intro sigs
        simp [Knob.getMaster, Knob.resetMaster, Knob.setEnabled]
      cases hp : lock master with
      | null => exact absurd hp hlock
      | self =>
        simp only [Knob.unSlaveInternal, hl, hm, hp, Bool.false_eq_true, if_false]
        exact hfin _ (hk3 _).1 (hk3 _).2
      | other a =>
        simp only [Knob.unSlaveInternal, hl, hm, hp, Bool.false_eq_true, if_false]
        exact hfin _ (hk3 _).1 (hk3 _).2
  · intro T _ _ lock k d v reason copyState k1 ⟨link, master, hl, hm, hlock⟩ h
    exact Knob.unSlaveInternal_live Knob.cloneValues
      (fun k2 other views dims r hr => Knob.cloneValues_toKnobHelper k2 other views dims r hr)
      lock k d v reason copyState link master hl hm hlock k1 h
  · intro lock k d v reason copyState k1 ⟨link, master, hl, hm, hlock⟩ h
    exact Knob.unSlaveInternal_live KnobStringBase.cloneValues
      (fun k2 other views dims r hr =>
        KnobStringBase.cloneValuesString_toKnobHelper k2 other views dims r hr)
      lock k d v reason copyState link master hl hm hlock k1 h

set_option maxRecDepth 8000 in
/-- An instance of C24: dimension 1 of the main view of the two-dimensional integer
parameter is slaved to the live parameter 7 and disabled; `unSlaveInternal` with copy of
the state completes, and afterwards no link is reported and the dimension is enabled. -/
theorem unSlaveInternal_severs_link_of_live_master_only_witness :
    (intKnobTwoDimSlaved.getMaster 1 0).isSome = true ∧
      intKnobTwoDimSlaved.enabled 1 = false ∧
      ∃ k1, Knob.unSlaveInternal Knob.cloneValues lockTwoDimMaster intKnobTwoDimSlaved 1 0
          .eValueChangedReasonUserEdited true = .ok k1 ∧
        k1.getMaster 1 0 = none ∧ k1.enabled 1 = true := by
  have hrun : ∃ k1, Knob.unSlaveInternal Knob.cloneValues lockTwoDimMaster intKnobTwoDimSlaved
      1 0 .eValueChangedReasonUserEdited true = .ok k1 := ⟨_, rfl⟩
  obtain ⟨k1, hk1⟩ := hrun
  exact ⟨rfl, rfl, k1, hk1,
    unSlaveInternal_severs_link_of_live_master_only.2.1 Int lockTwoDimMaster intKnobTwoDimSlaved
      1 0 .eValueChangedReasonUserEdited true k1
      ⟨_, 7, rfl, rfl, fun hnull => KnobIPtr.noConfusion hnull⟩ hk1⟩

set_option maxRecDepth 8000 in
/-- C25, the failing input. Parameter A has two integer dimensions holding 4 and 9 in the
main view; its dimension 1, view 0 is slaved to dimension 1, view 0 of the live parameter B,
which holds 5 and 7. `unSlaveInternal(1, 0, reason, true)` hands `copyKnob` the view of the
master where the dimension of A belongs and the dimension of A where the view of the master
belongs, so the copy writes dimension 0 of A from view 1 of B: afterwards A holds 0 and 9,
and `A.getRawValue(1, 0)` is 9 while `B.getRawValue(1, 0)` is 7. On dimension 0 of a
parameter slaved to dimension 0, view 0 the two transposed arguments are both 0 and the
value of the master is copied. -/
theorem unSlaveInternal_copyState_transposes_view_and_dimension :
    intKnobTwoDimSlaved.getMaster 1 0 =
        some { masterKnob := some 7, masterDimension := 1, masterView := 0 } ∧
      (intKnobTwoDimMaster.getRawValue 1 0).1 = .ok 7 ∧
      (Knob.unSlaveInternal Knob.cloneValues lockTwoDimMaster intKnobTwoDimSlaved 1 0
          .eValueChangedReasonUserEdited true).map
        (fun k => (k._values, (k.getRawValue 1 0).1)) = .ok ([[(0, 0)], [(0, 9)]], .ok 9) ∧
      (Knob.unSlaveInternal Knob.cloneValues lockTwoDimMaster intKnobSlaved 0 0
          .eValueChangedReasonUserEdited true).map
        (fun k => (k._values, (k.getRawValue 0 0).1)) = .ok ([[(0, 5)]], .ok 5) ∧
      (intKnobTwoDimMaster.getRawValue 0 0).1 = .ok 5 :=
  ⟨rfl, rfl, rfl, rfl, rfl⟩

/-- C26. `unSlaveInternal(d, v, reason, false)` does not fail and leaves the value store, the
default records and the expression-result cache as they were, for every state, dimension,
view and reason, whether or not a link exists and whether or not its master is alive. -/
theorem unSlaveInternal_without_copy_keeps_stored_values {T : Type}
    (cloneValues : Knob T → KnobIPtr → ViewPair → DimPair → Except KnobError (Bool × Knob T))
    (lock : Nat → KnobIPtr) (k : Knob T) (d : DimIdx) (v : ViewIdx)
    (reason : ValueChangedReasonEnum) :
    ∃ k1, k.unSlaveInternal cloneValues lock d v reason false = .ok k1 ∧
      k1._values = k._values ∧ k1._defaultValues = k._defaultValues ∧
      k1._exprRes = k._exprRes := by
  have hfin : ∀ (k3 : Knob T) (master : Nat) (link : MasterKnobLink),
      k3._values = k._values → k3._defaultValues = k._defaultValues →
      k3._exprRes = k._exprRes →
      ∃ k1, (Except.ok (k3.unSlaveNotify master link d v reason false) :
          Except KnobError (Knob T)) = .ok k1 ∧
        k1._values = k._values ∧ k1._defaultValues = k._defaultValues ∧
        k1._exprRes = k._exprRes := by
    intro k3 master link h1 h2 h3
    obtain ⟨sigs, hs⟩ := Knob.unSlaveNotify_frame k3 master link d v reason false
    rw [hs]
    exact ⟨_, rfl, h1, h2, h3⟩
  cases hl : k.getMaster d v with
  | none => exact ⟨k, by simp only [Knob.unSlaveInternal, hl], rfl, rfl, rfl⟩
  | some link =>
    cases hm : link.masterKnob with
    | none => exact ⟨k, by simp only [Knob.unSlaveInternal, hl, hm], rfl, rfl, rfl⟩
    | some master =>
      cases hp : lock master with
      | null => exact ⟨k, by simp only [Knob.unSlaveInternal, hl, hm, hp], rfl, rfl, rfl⟩
      | self =>
        simp only [Knob.unSlaveInternal, hl, hm, hp, Bool.false_eq_true, if_false]
        exact hfin _ master link rfl rfl rfl
      | other a =>
        simp only [Knob.unSlaveInternal, hl, hm, hp, Bool.false_eq_true, if_false]
        exact hfin _ master link rfl rfl rfl

/-! ## The expression bridge: claims -/

/-- C27. `evaluateExpression` and `evaluateExpression_pod` hand the evaluator a parameter
whose generator was reseeded with `randomSeed(time, hashFunction(dimension))`, whatever the
view, the state of the parameter and the state earlier calls left the generator in. For an
evaluator whose result depends on the state of the generator only, two evaluations with the
same time and dimension return the same result: on the numeric fast path for any two
states and views, on the typed path for any two states and the same view, and for any two
views when the coercion does not read the view, as the boolean, integer and floating-point
coercions do not. -/
theorem evaluateExpression_result_depends_on_time_and_dimension {T : Type}
    (executeExpression : Knob T → ℚ → ViewIdx → DimIdx → Except String PyObject)
    (g : RandomState → Except String PyObject)
    (hexec : ∀ k t v d, executeExpression k t v d = g k.randomState)
    (pyObjectToType : PyObject → ViewIdx → T) (time : ℚ) (dimension : DimIdx) :
    (∀ (k : Knob T) (view : ViewIdx),
      (k.evaluateExpression pyObjectToType executeExpression time view dimension).2.randomState
          = { time := time, seed := hashFunction (dimToUnsigned dimension) } ∧
        (k.evaluateExpression_pod executeExpression time view dimension).2.randomState
          = { time := time, seed := hashFunction (dimToUnsigned dimension) }) ∧
    (∀ (k k1 : Knob T) (view view1 : ViewIdx),
      (k.evaluateExpression_pod executeExpression time view dimension).1 =
        (k1.evaluateExpression_pod executeExpression time view1 dimension).1) ∧
    (∀ (k k1 : Knob T) (view : ViewIdx),
      (k.evaluateExpression pyObjectToType executeExpression time view dimension).1 =
        (k1.evaluateExpression pyObjectToType executeExpression time view dimension).1) ∧
    ((∀ o v v1, pyObjectToType o v = pyObjectToType o v1) →
      ∀ (k k1 : Knob T) (view view1 : ViewIdx),
        (k.evaluateExpression pyObjectToType executeExpression time view dimension).1 =
          (k1.evaluateExpression pyObjectToType executeExpression time view1 dimension).1) ∧
    ((∀ o v v1, pyObjectToTypeInt o v = pyObjectToTypeInt o v1) ∧
      (∀ o v v1, pyObjectToTypeBool o v = pyObjectToTypeBool o v1) ∧
      (∀ o v v1, pyObjectToTypeDouble o v = pyObjectToTypeDouble o v1)) := by
  have hpod : ∀ (k : Knob T) (view : ViewIdx),
      (k.evaluateExpression_pod executeExpression time view dimension).1 =
        (match g { time := time, seed := hashFunction (dimToUnsigned dimension) } with
          | .error e => .error e
          | .ok ret =>
            if PyFloat_Check ret then .ok (PyFloat_AsDouble ret)
            else if PyInt_Check ret then .ok ((longToInt (PyInt_AsLong ret) : Int) : ℚ)
            else if PyLong_Check ret then .ok ((longToInt (PyLong_AsLong ret) : Int) : ℚ)
            else if PyObject_IsTrue ret = 1 then .ok 1
            else .ok 0) := by
    intro k view
    simp only [Knob.evaluateExpression_pod, hexec, Knob.randomSeed]
    cases g { time := time, seed := hashFunction (dimToUnsigned dimension) } with
    | error e => rfl
    | ok ret =>
      simp only []
      split_ifs <;> rfl
  have htyped : ∀ (k : Knob T) (view : ViewIdx),
      (k.evaluateExpression pyObjectToType executeExpression time view dimension).1 =
        (g { time := time, seed := hashFunction (dimToUnsigned dimension) }).map
          (fun ret => pyObjectToType ret view) := by
    intro k view
    simp only [Knob.evaluateExpression, hexec, Knob.randomSeed]
    cases g { time := time, seed := hashFunction (dimToUnsigned dimension) } <;> rfl
  refine ⟨?_, ?_, ?_, ?_, ⟨fun _ _ _ => rfl, fun _ _ _ => rfl, fun _ _ _ => rfl⟩⟩
  · intro k view
    refine ⟨?_, ?_⟩
    · simp only [Knob.evaluateExpression]
      cases executeExpression (k.randomSeed time (hashFunction (dimToUnsigned dimension))) time
        view dimension <;> rfl
    · simp only [Knob.evaluateExpression_pod]
      cases executeExpression (k.randomSeed time (hashFunction (dimToUnsigned dimension))) time
        view dimension with
      | error e => rfl
      | ok ret =>
        simp only []
        split_ifs <;> rfl
  · intro k k1 view view1
    rw [hpod k view, hpod k1 view1]
  · intro k k1 view
    rw [htyped k view, htyped k1 view]
  · intro hview k k1 view view1
    rw [htyped k view, htyped k1 view1]
    have hf : (fun ret => pyObjectToType ret view) = (fun ret => pyObjectToType ret view1) := by
      funext ret
      exact hview ret view view1
    rw [hf]

/-- An instance of C27: an evaluator that returns the sum of the two values the generator
was reseeded with. At time 3 on dimension 1, the fast path returns the same number on the
parameter holding 0 for view 0 and on the parameter holding 3 for view 1, and so does the
typed path of an integer parameter. -/
theorem evaluateExpression_result_depends_on_time_and_dimension_witness :
    (Knob.evaluateExpression_pod seedEvaluator intKnobOneDim 3 0 1).1 =
        (Knob.evaluateExpression_pod seedEvaluator intKnobValue3 3 1 1).1 ∧
      (Knob.evaluateExpression pyObjectToTypeInt seedEvaluator intKnobOneDim 3 0 1).1 =
        (Knob.evaluateExpression pyObjectToTypeInt seedEvaluator intKnobValue3 3 1 1).1 ∧
      hashFunction (dimToUnsigned 1) = 663891101 := by
  have h := evaluateExpression_result_depends_on_time_and_dimension (T := Int) seedEvaluator
    (fun r => .ok (.pyFloat (r.time + r.seed))) (fun _ _ _ _ => rfl) pyObjectToTypeInt 3 1
  exact ⟨h.2.1 intKnobOneDim intKnobValue3 0 1,
    h.2.2.2.1 (fun _ _ _ => rfl) intKnobOneDim intKnobValue3 0 1, by decide⟩

theorem longToInt_of_int (n : Int) (h1 : INT_MIN ≤ n) (h2 : n ≤ INT_MAX) : longToInt n = n := by
  simp only [INT_MIN, INT_MAX] at h1 h2
  simp only [longToInt]
  norm_num at h1 h2 ⊢
  omega

/-- C28, as the code has it. On an integer parameter the coerced value is
`(int)PyInt_AsLong(result)`: an integer result `x` that fits an `int` is taken as it is,
which is also `floor(x + 0.5)`; a floating result whose integer part fits an `int` is
truncated toward zero, not rounded. On a boolean parameter the coerced value is the
truthiness of the result: true for a non-zero number, `True`, a non-empty text and a
non-empty container, false for zero, `False`, the empty text, `None` and the empty
container. -/
theorem pyObjectToType_int_truncates_bool_is_truthiness :
    (∀ (n : Int) (view : ViewIdx), INT_MIN ≤ n → n ≤ INT_MAX →
      pyObjectToTypeInt (.pyInt n) view = n ∧ pyObjectToTypeInt (.pyLong n) view = n ∧
        n = ⌊(n : ℚ) + 1 / 2⌋) ∧
    (∀ (x : ℚ) (view : ViewIdx), INT_MIN ≤ doubleToInt x → doubleToInt x ≤ INT_MAX →
      pyObjectToTypeInt (.pyFloat x) view = (if 0 ≤ x then ⌊x⌋ else ⌈x⌉)) ∧
    (∀ (o : PyObject) (view : ViewIdx),
      pyObjectToTypeBool o view =
        (match o with
          | .pyFloat x => decide (x ≠ 0)
          | .pyInt n => decide (n ≠ 0)
          | .pyLong n => decide (n ≠ 0)
          | .pyBool b => b
          | .pyUnicode s => !s.isEmpty
          | .pyString s => !s.isEmpty
          | .pyNone => false
          | .pyContainer size => decide (size ≠ 0))) ∧
    (∀ (k : Knob Int) (time : ℚ) (view : ViewIdx) (dimension : DimIdx) (o : PyObject),
      (k.evaluateExpression pyObjectToTypeInt (fun _ _ _ _ => .ok o) time view dimension).1 =
        .ok (pyObjectToTypeInt o view)) ∧
    (∀ (k : Knob Bool) (time : ℚ) (view : ViewIdx) (dimension : DimIdx) (o : PyObject),
      (k.evaluateExpression pyObjectToTypeBool (fun _ _ _ _ => .ok o) time view dimension).1 =
        .ok (pyObjectToTypeBool o view)) := by
  have hlong : ∀ n : Int, INT_MIN ≤ n → n ≤ INT_MAX → LONG_MIN ≤ n ∧ n ≤ LONG_MAX := by
    intro n h1 h2
    simp only [INT_MIN, INT_MAX] at h1 h2
    simp only [LONG_MIN, LONG_MAX]
    norm_num at h1 h2 ⊢
    omega
  refine ⟨?_, ?_, ?_, fun _ _ _ _ _ => rfl, fun _ _ _ _ _ => rfl⟩
  · intro n view h1 h2
    refine ⟨longToInt_of_int n h1 h2, ?_, ?_⟩
    · simp only [pyObjectToTypeInt, PyInt_AsLong, hlong n h1 h2, and_self, if_true]
      exact longToInt_of_int n h1 h2
    · symm
      rw [Int.floor_eq_iff]
      constructor
      · linarith
      · linarith
  · intro x view h1 h2
    simp only [pyObjectToTypeInt, PyInt_AsLong, hlong _ h1 h2, and_self, if_true]
    exact longToInt_of_int _ h1 h2
  · intro o view
    cases o with
    | pyFloat x => by_cases h : x = 0 <;> simp [pyObjectToTypeBool, PyObject_IsTrue, h]
    | pyInt n => by_cases h : n = 0 <;> simp [pyObjectToTypeBool, PyObject_IsTrue, h]
    | pyLong n => by_cases h : n = 0 <;> simp [pyObjectToTypeBool, PyObject_IsTrue, h]
    | pyBool b => cases b <;> simp [pyObjectToTypeBool, PyObject_IsTrue]
    | pyUnicode s => cases h : s.isEmpty <;> simp [pyObjectToTypeBool, PyObject_IsTrue, h]
    | pyString s => cases h : s.isEmpty <;> simp [pyObjectToTypeBool, PyObject_IsTrue, h]
    | pyNone => simp [pyObjectToTypeBool, PyObject_IsTrue]
    | pyContainer size =>
      by_cases h : size = 0 <;> simp [pyObjectToTypeBool, PyObject_IsTrue, h]

/-- Counterexample to C28 as stated: an expression on an integer parameter that evaluates to
the floating result 2.7 is coerced to 2, while `floor(2.7 + 0.5)` is 3. -/
theorem pyObjectToType_int_does_not_round :
    (Knob.evaluateExpression pyObjectToTypeInt (fun _ _ _ _ => .ok (.pyFloat (27 / 10)))
        intKnobOneDim 0 0 0).1 = .ok 2 ∧
      ⌊(27 / 10 : ℚ) + 1 / 2⌋ = 3 := by
  have hd : doubleToInt (27 / 10) = 2 := by
    simp only [doubleToInt]
    rw [if_pos (by norm_num), Int.floor_eq_iff]
    norm_num
  refine ⟨?_, ?_⟩
  · show Except.ok (longToInt (PyInt_AsLong (.pyFloat (27 / 10)))) = Except.ok 2
    simp only [PyInt_AsLong, hd]
    rfl
  · rw [Int.floor_eq_iff]
    norm_num

set_option maxRecDepth 8000 in
/-- C29, the failing input. An evaluator that returns the text `abc`: the text is no
float, int or long, `PyObject_IsTrue` is 1 for a non-empty text, and
`evaluateExpression_pod` returns 1, not 0. For every result of the evaluator the value is:
a float itself; an int or long that fits an `int` itself; 1 for `True` and 0 for `False`; 0
for `None`, the empty text and the empty container; 1 for every non-empty text and every
non-empty container. -/
theorem evaluateExpression_pod_maps_nonempty_text_to_one :
    (Knob.evaluateExpression_pod textEvaluator intKnobOneDim 0 0 0).1 = .ok 1 ∧
    (∀ (T : Type) (k : Knob T) (time : ℚ) (view : ViewIdx) (dimension : DimIdx)
      (o : PyObject),
      (k.evaluateExpression_pod (fun _ _ _ _ => .ok o) time view dimension).1 =
        .ok (match o with
          | .pyFloat x => x
          | .pyInt n => ((longToInt n : Int) : ℚ)
          | .pyLong n => ((longToInt (if LONG_MIN ≤ n ∧ n ≤ LONG_MAX then n else -1) : Int) : ℚ)
          | .pyBool b => if b then 1 else 0
          | .pyUnicode s => if s.isEmpty then 0 else 1
          | .pyString s => if s.isEmpty then 0 else 1
          | .pyNone => 0
          | .pyContainer size => if size = 0 then 0 else 1)) ∧
    (∀ n : Int, INT_MIN ≤ n → n ≤ INT_MAX →
      longToInt n = n ∧ longToInt (if LONG_MIN ≤ n ∧ n ≤ LONG_MAX then n else -1) = n) := by
  refine ⟨rfl, ?_, ?_⟩
  · intro T k time view dimension o
    cases o with
    | pyFloat x => rfl
    | pyInt n => rfl
    | pyLong n => rfl
    | pyBool b => cases b <;> rfl
    | pyUnicode s =>
      cases h : s.isEmpty <;>
        simp [Knob.evaluateExpression_pod, PyFloat_Check, PyInt_Check, PyLong_Check,
          PyObject_IsTrue, h]
    | pyString s =>
      cases h : s.isEmpty <;>
        simp [Knob.evaluateExpression_pod, PyFloat_Check, PyInt_Check, PyLong_Check,
          PyObject_IsTrue, h]
    | pyNone => rfl
    | pyContainer size =>
      by_cases h : size = 0 <;>
        simp [Knob.evaluateExpression_pod, PyFloat_Check, PyInt_Check, PyLong_Check,
          PyObject_IsTrue, h]
  · intro n h1 h2
    have hl : LONG_MIN ≤ n ∧ n ≤ LONG_MAX := by
      simp only [INT_MIN, INT_MAX] at h1 h2
      simp only [LONG_MIN, LONG_MAX]
      norm_num at h1 h2 ⊢
      omega
    rw [if_pos hl]
    exact ⟨longToInt_of_int n h1 h2, longToInt_of_int n h1 h2⟩

/-! ## The hash contributor -/

/-- The loop of `appendToHash` when each of its two branches appends to the sink: the sink
receives the contributions of the dimensions in increasing order. -/
theorem Knob.appendToHash_eq {T : Type}
    (handleAnimated : Knob T → ViewIdx → DimIdx → Hash64 T → Hash64 T)
    (appendValue : T → Hash64 T → Hash64 T) (currentView : ViewIdx)
    (getValueAtTime : ℚ → DimIdx → ViewIdx → T) (k : Knob T) (time : ℚ) (view : ViewIdx)
    (hash : Hash64 T) (animated : DimIdx → List (HashItem T)) (value : T → List (HashItem T))
    (hA : ∀ i h, handleAnimated k view i h = h ++ animated i)
    (hV : ∀ x h, appendValue x h = h ++ value x) :
    k.appendToHash handleAnimated appendValue currentView getValueAtTime time view hash =
      .ok (hash ++ (List.range k.dimension).flatMap (fun i : Nat =>
        if k.getHashingStrategy = .eKnobHashingStrategyAnimation ∧
            k.isAnimated (i : Int) currentView = true then animated (i : Int)
        else value (getValueAtTime time (i : Int) view))) := by
  obtain ⟨h1, hrun, hP⟩ := forLoop_inv
    (fun n (h : Hash64 T) => h = hash ++ (List.range n).flatMap (fun i : Nat =>
      if k.getHashingStrategy = .eKnobHashingStrategyAnimation ∧
          k.isAnimated (i : Int) currentView = true then animated (i : Int)
      else value (getValueAtTime time (i : Int) view)))
    k.dimension
    (fun i h =>
      if k.getHashingStrategy = .eKnobHashingStrategyAnimation ∧
          k.isAnimated (i : Int) currentView = true then
        .ok (handleAnimated k view (i : Int) h)
      else .ok (appendValue (getValueAtTime time (i : Int) view) h))
    hash (by simp)
    (by
      intro n h _ hh
      by_cases hc : k.getHashingStrategy = .eKnobHashingStrategyAnimation ∧
          k.isAnimated (n : Int) currentView = true
      · refine ⟨handleAnimated k view (n : Int) h, if_pos hc, ?_⟩
        show handleAnimated k view (n : Int) h = hash ++ (List.range (n + 1)).flatMap _
        rw [hA, hh, List.range_succ, List.flatMap_append]
        simp [hc]
      · refine ⟨appendValue (getValueAtTime time (n : Int) view) h, if_neg hc, ?_⟩
        show appendValue (getValueAtTime time (n : Int) view) h
          = hash ++ (List.range (n + 1)).flatMap _
        rw [hV, hh, List.range_succ, List.flatMap_append]
        simp [hc])
  unfold Knob.appendToHash
  rw [← hP]
  exact hrun

/-- The two loops of the specialisation of `handleAnimatedHashing` for text parameters
append the texts of all keys, view after view. -/
theorem KnobStringBase.handleAnimatedHashing_keys (keys : PerViewMap (List (ℚ × String)))
    (knob : Knob String) (view : ViewIdx) (dimension : DimIdx) (hash : Hash64 String) :
    KnobStringBase.handleAnimatedHashing (some keys) knob view dimension hash =
      hash ++ keys.flatMap (fun it => it.2.map (fun it2 => HashItem.qstring it2.2)) := by
  have inner : ∀ (l : List (ℚ × String)) (h : Hash64 String),
      l.foldl (fun h2 it2 => h2 ++ [HashItem.qstring it2.2]) h =
        h ++ l.map (fun it2 => HashItem.qstring it2.2) := by
    intro l
    induction l with
    | nil => intro h; simp
    | cons a rest ih =>
      intro h
      rw [List.foldl_cons, ih]
      simp
  show keys.foldl (fun h it => it.2.foldl (fun h2 it2 => h2 ++ [HashItem.qstring it2.2]) h) hash
    = _
  induction keys generalizing hash with
  | nil => simp
  | cons a rest ih =>
    rw [List.foldl_cons, ih, inner]
    simp

/-- C30. `appendToHash(time, view, hash)` appends to the sink, after what it held, one
contribution per dimension in increasing dimension order. For a boolean, integer or
floating-point parameter the contribution of a dimension is the fingerprint of its curve
when the hashing strategy is the animation-aware one and the dimension is animated, and the
resolved value at `time` otherwise. For a text parameter it is, in the first case, the
texts of all keys of the string animation (the fingerprint of the curve when the parameter
has no string animation) and the encoded resolved text otherwise. What is appended does not
depend on what the sink held. -/
theorem appendToHash_one_contribution_per_dimension :
    (∀ (T : Type) (currentView : ViewIdx) (getValueAtTime : ℚ → DimIdx → ViewIdx → T)
      (k : Knob T) (time : ℚ) (view : ViewIdx) (hash : Hash64 T),
      k.appendToHash handleAnimatedHashing appendValueToHash currentView getValueAtTime time
          view hash =
        .ok (hash ++ (List.range k.dimension).map (fun i : Nat =>
          if k.getHashingStrategy = .eKnobHashingStrategyAnimation ∧
              k.isAnimated (i : Int) currentView = true then
            HashItem.curve (k.getCurve view (i : Int))
          else HashItem.value (getValueAtTime time (i : Int) view)))) ∧
    (∀ (isAnimated : Option (PerViewMap (List (ℚ × String)))) (currentView : ViewIdx)
      (getValueAtTime : ℚ → DimIdx → ViewIdx → String) (k : Knob String) (time : ℚ)
      (view : ViewIdx) (hash : Hash64 String),
      k.appendToHash (KnobStringBase.handleAnimatedHashing isAnimated)
          KnobStringBase.appendValueToHash currentView getValueAtTime time view hash =
        .ok (hash ++ (List.range k.dimension).flatMap (fun i : Nat =>
          if k.getHashingStrategy = .eKnobHashingStrategyAnimation ∧
              k.isAnimated (i : Int) currentView = true then
            (match isAnimated with
              | some keys => keys.flatMap (fun it => it.2.map (fun it2 => HashItem.qstring it2.2))
              | none => [HashItem.curve (k.getCurve view (i : Int))])
          else [HashItem.qstring (getValueAtTime time (i : Int) view)]))) := by
  refine ⟨?_, ?_⟩
  · intro T currentView getValueAtTime k time view hash
    rw [Knob.appendToHash_eq handleAnimatedHashing appendValueToHash currentView getValueAtTime
      k time view hash (fun i => [HashItem.curve (k.getCurve view i)])
      (fun x => [HashItem.value x]) (fun _ _ => rfl) (fun _ _ => rfl)]
    congr 2
    induction k.dimension with
    | zero => rfl
    | succ n ih =>
      rw [List.range_succ, List.flatMap_append, List.map_append, ih]
      congr 1
      by_cases hc : k.getHashingStrategy = .eKnobHashingStrategyAnimation ∧
          k.isAnimated (n : Int) currentView = true <;> simp [hc]
  · intro isAnimated currentView getValueAtTime k time view hash
    cases isAnimated with
    | none =>
      exact Knob.appendToHash_eq _ _ currentView getValueAtTime k time view hash
        (fun i => [HashItem.curve (k.getCurve view i)]) (fun x => [HashItem.qstring x])
        (fun _ _ => rfl) (fun _ _ => rfl)
    | some keys =>
      exact Knob.appendToHash_eq _ _ currentView getValueAtTime k time view hash
        (fun _ => keys.flatMap (fun it => it.2.map (fun it2 => HashItem.qstring it2.2)))
        (fun x => [HashItem.qstring x])
        (fun i h => KnobStringBase.handleAnimatedHashing_keys keys k view i h)
        (fun _ _ => rfl)

/-! ## C32: the derivative of an expression-driven dimension -/

/-- C32, the failing input. On a dimension with an expression whose effective value is
`f(t) = a * t + b`, `getDerivativeAtTime(t)` returns `(f(t + 1/2) - f(t - 1/2)) / 2 = a / 2`
for every `t`, `a` and `b`: the difference over a step of width 1 is divided by 2. For
`f(t) = 2 t + 1` it returns 1 at `t = 3`, and the derivative is 2. -/
theorem getDerivativeAtTime_of_affine_expression_halves_the_slope :
    (∀ a b t : ℚ,
      Knob.getDerivativeAtTime (affineContext a b) intKnobExpression t (.view 0) 0
        = .ok (a / 2)) ∧
      Knob.getDerivativeAtTime (affineContext 2 1) intKnobExpression 3 (.view 0) 0
        = .ok 1 ∧
      Knob.getDerivativeAtTime (affineContext 2 1) intKnobExpression 3 (.view 0) 0
        ≠ .ok 2 := by
  have h : ∀ a b t : ℚ,
      Knob.getDerivativeAtTime (affineContext a b) intKnobExpression t (.view 0) 0
        = .ok (a / 2) := by
    intro a b t
    have hg : ¬((0 : DimIdx) > intKnobExpression.getNDimensions ∨ (0 : DimIdx) < 0) := by
      decide
    have he : (!(intKnobExpression.getExpression 0
        ((affineContext a b).getViewIdxFromGetSpec .current)).isEmpty) = true := by
      rfl
    simp only [Knob.getDerivativeAtTime, hg, if_false, he, if_true]
    show Except.ok ((a * (t + 1 / 2) + b - (a * (t - 1 / 2) + b)) / 2) = Except.ok (a / 2)
    congr 1
    ring
  refine ⟨h, ?_, ?_⟩
  · rw [h]
    norm_num
  · rw [h]
    intro h2
    have h3 := Except.ok.inj h2
    norm_num at h3

/-! ## C33: the piecewise Simpson scheme on a cubic -/

/-- The loop of `setRange` and `setDisplayRange` with the wildcard, on vectors that have at
least `n` entries: it does not fail and keeps both sizes. -/
theorem forLoop_setBounds {α : Type} (mini maxi : α) (n : Nat) (xs ys : List α)
    (hx : n ≤ xs.length) (hy : n ≤ ys.length) :
    ∃ st : List α × List α,
      forLoop n
        (fun i st => do
          let mins ← vecModify st.1 i (fun _ => mini)
          let maxs ← vecModify st.2 i (fun _ => maxi)
          .ok (mins, maxs))
        (xs, ys) = .ok st ∧ st.1.length = xs.length ∧ st.2.length = ys.length := by
  refine forLoop_inv (fun _ (st : List α × List α) =>
    st.1.length = xs.length ∧ st.2.length = ys.length) n _ (xs, ys) ⟨rfl, rfl⟩ ?_
  intro i t hi ⟨h1, h2⟩
  have hi1 : i < t.1.length := by omega
  have hi2 : i < t.2.length := by omega
  refine ⟨(t.1.set i mini, t.2.set i maxi), ?_, by simp [h1], by simp [h2]⟩
  simp only [vecModify_of_lt hi1, vecModify_of_lt hi2, bind, Except.bind]

/-- With a valid dimension argument `setRange` does not fail and keeps the sizes of the four
range vectors. -/
theorem Knob.setRange_rangeSized {T : Type} (k : Knob T) (h : k.RangeSized) (mini maxi : T)
    (dimension : DimSpec)
    (hdim : ∀ d, dimension = .dim d → 0 ≤ d ∧ d < (k.dimension : Int)) :
    ∃ k', k.setRange mini maxi dimension = .ok k' ∧ k'.RangeSized ∧
      k'.dimension = k.dimension := by
  obtain ⟨h1, h2, h3, h4⟩ := h
  cases dimension with
  | all =>
    obtain ⟨st, hst, hl1, hl2⟩ := forLoop_setBounds mini maxi k.dimension k._minimums
      k._maximums (by omega) (by omega)
    have hrun : k.setRange mini maxi .all = .ok { k with
        _minimums := st.1, _maximums := st.2
        signals := k.signals ++ [.s_minMaxChanged .all] } := by
      simp only [Knob.setRange, hst]
    exact ⟨_, hrun, ⟨hl1.trans h1, hl2.trans h2, h3, h4⟩, rfl⟩
  | dim d =>
    obtain ⟨hd0, hd1⟩ := hdim d rfl
    lift d to ℕ using hd0
    have hd2 : d < k.dimension := by exact_mod_cast hd1
    have hi1 : d < k._minimums.length := by rw [h1]; exact hd2
    have hi2 : d < k._maximums.length := by rw [h2]; exact hd2
    have hrun : k.setRange mini maxi (.dim (d : Int)) = .ok { k with
        _minimums := k._minimums.set d mini, _maximums := k._maximums.set d maxi
        signals := k.signals ++ [.s_minMaxChanged (.dim (d : Int))] } := by
      simp only [Knob.setRange, vecModify_of_lt hi1, vecModify_of_lt hi2]
    exact ⟨_, hrun, ⟨by simp [h1], by simp [h2], h3, h4⟩, rfl⟩

/-- With a valid dimension argument `setDisplayRange` does not fail and keeps the sizes of
the four range vectors. -/
theorem Knob.setDisplayRange_rangeSized {T : Type} (k : Knob T) (h : k.RangeSized)
    (mini maxi : T) (dimension : DimSpec)
    (hdim : ∀ d, dimension = .dim d → 0 ≤ d ∧ d < (k.dimension : Int)) :
    ∃ k', k.setDisplayRange mini maxi dimension = .ok k' ∧ k'.RangeSized ∧
      k'.dimension = k.dimension := by
  obtain ⟨h1, h2, h3, h4⟩ := h
  cases dimension with
  | all =>
    obtain ⟨st, hst, hl1, hl2⟩ := forLoop_setBounds mini maxi k.dimension k._displayMins
      k._displayMaxs (by omega) (by omega)
    have hrun : k.setDisplayRange mini maxi .all = .ok { k with
        _displayMins := st.1, _displayMaxs := st.2
        signals := k.signals ++ [.s_displayMinMaxChanged .all] } := by
      simp only [Knob.setDisplayRange, hst]
    exact ⟨_, hrun, ⟨h1, h2, hl1.trans h3, hl2.trans h4⟩, rfl⟩
  | dim d =>
    obtain ⟨hd0, hd1⟩ := hdim d rfl
    lift d to ℕ using hd0
    have hd2 : d < k.dimension := by exact_mod_cast hd1
    have hi1 : d < k._displayMins.length := by rw [h3]; exact hd2
    have hi2 : d < k._displayMaxs.length := by rw [h4]; exact hd2
    have hrun : k.setDisplayRange mini maxi (.dim (d : Int)) = .ok { k with
        _displayMins := k._displayMins.set d mini, _displayMaxs := k._displayMaxs.set d maxi
        signals := k.signals ++ [.s_displayMinMaxChanged (.dim (d : Int))] } := by
      simp only [Knob.setDisplayRange, vecModify_of_lt hi1, vecModify_of_lt hi2]
    exact ⟨_, hrun, ⟨h1, h2, by simp [h3], by simp [h4]⟩, rfl⟩

/-- The constructor leaves range vectors with one entry per dimension. -/
theorem Knob.construct_rangeSized {T : Type} [KnobValue T] (base : KnobHelper) :
    ∃ k0 : Knob T, Knob.construct base = .ok k0 ∧ k0.RangeSized ∧
      k0.dimension = base.dimension := by
  obtain ⟨k1, hk1, hb1, -, -, -, hr⟩ := Knob.initMinMax_ok (Knob.init (T := T) base)
    ⟨by simp [Knob.init], by simp [Knob.init], by simp [Knob.init], by simp [Knob.init]⟩
  have hdim : k1.dimension = base.dimension := by rw [hb1]; rfl
  refine ⟨k1, hk1, ?_, hdim⟩
  have hd : (Knob.init (T := T) base).dimension = base.dimension := rfl
  rw [hd] at hr
  exact ⟨hr.1.trans hdim.symm, hr.2.1.trans hdim.symm, hr.2.2.1.trans hdim.symm,
    hr.2.2.2.trans hdim.symm⟩

/-- Counterexample to C34 as stated: `setRangeAcrossDimensions` and
`setDisplayRangeAcrossDimensions` install the vectors they are given. On the one-dimensional
integer parameter, whose four range vectors have one entry each, a call with a one-entry
minimums vector and an empty maximums vector leaves vectors of sizes 1 and 0; then
`clampToMinMax(5, 0)` passes the bounds check against the minimums vector and subscripts
the empty maximums vector. -/
theorem setRangeAcrossDimensions_installs_vectors_of_any_size :
    intKnobOneDim.RangeSized ∧
      ¬(intKnobOneDim.setRangeAcrossDimensions [0] []).RangeSized ∧
      ¬(intKnobOneDim.setDisplayRangeAcrossDimensions [0, 0] [1, 1]).RangeSized ∧
      (intKnobOneDim.setRangeAcrossDimensions [0] []).getNDimensions = 1 ∧
      (intKnobOneDim.setRangeAcrossDimensions [0] []).clampToMinMax 5 0 =
        .error .outOfRange := by
  refine ⟨by decide, by decide, by decide, rfl, rfl⟩

/-- C34, as the code has it. The constructor, `setRange` and `setDisplayRange` leave the
minimums, maximums, display-minimums and display-maximums vectors with one entry per
dimension; `setRangeAcrossDimensions` and `setDisplayRangeAcrossDimensions` keep that
invariant exactly when both vectors they are given have `nDimensions` entries. Under the
invariant `clampToMinMax` fails with invalid-argument for a dimension outside
`[0, nDimensions)` and otherwise reads both bounds in range. -/
theorem range_vectors_keep_one_entry_per_dimension {T : Type} [KnobPOD T] (k : Knob T)
    (h : k.RangeSized) :
    (∀ base : KnobHelper, ∃ k0 : Knob T, Knob.construct base = .ok k0 ∧ k0.RangeSized) ∧
    (∀ (mini maxi : T) (dimension : DimSpec),
      (∀ d, dimension = .dim d → 0 ≤ d ∧ d < k.getNDimensions) →
      (∃ k', k.setRange mini maxi dimension = .ok k' ∧ k'.RangeSized) ∧
      (∃ k', k.setDisplayRange mini maxi dimension = .ok k' ∧ k'.RangeSized)) ∧
    (∀ minis maxis : List T,
      ((k.setRangeAcrossDimensions minis maxis).RangeSized ↔
        (minis.length = k.dimension ∧ maxis.length = k.dimension)) ∧
      ((k.setDisplayRangeAcrossDimensions minis maxis).RangeSized ↔
        (minis.length = k.dimension ∧ maxis.length = k.dimension))) ∧
    (∀ (v : T) (d : DimIdx),
      ((d < 0 ∨ d ≥ k.getNDimensions) → k.clampToMinMax v d = .error .invalidArgument) ∧
      ((0 ≤ d ∧ d < k.getNDimensions) →
        ∃ lo hi, k.getMinimum d = .ok lo ∧ k.getMaximum d = .ok hi ∧
          k.clampToMinMax v d = .ok (KnobPOD.ofDouble
            (max (KnobPOD.toDouble lo) (min (KnobPOD.toDouble hi) (KnobPOD.toDouble v)))))) := by
  have h' := h
  obtain ⟨h1, h2, h3, h4⟩ := h'
  refine ⟨fun base => ?_, fun mini maxi dimension hdim => ⟨?_, ?_⟩, fun minis maxis => ⟨?_, ?_⟩,
    fun v d => ⟨fun hd => ?_, fun hd => ?_⟩⟩
  · obtain ⟨k0, hk0, hr, -⟩ := Knob.construct_rangeSized (T := T) base
    exact ⟨k0, hk0, hr⟩
  · obtain ⟨k', hk', hr, -⟩ := Knob.setRange_rangeSized k h mini maxi dimension hdim
    exact ⟨k', hk', hr⟩
  · obtain ⟨k', hk', hr, -⟩ := Knob.setDisplayRange_rangeSized k h mini maxi dimension hdim
    exact ⟨k', hk', hr⟩
  · constructor
    · intro hr
      exact ⟨hr.1, hr.2.1⟩
    · intro hm
      exact ⟨hm.1, hm.2, h3, h4⟩
  · constructor
    · intro hr
      exact ⟨hr.2.2.1, hr.2.2.2⟩
    · intro hm
      exact ⟨h1, h2, hm.1, hm.2⟩
  · have hc : d < 0 ∨ d ≥ (k._minimums.length : Int) := by
      rw [h1]
      exact hd
    simp only [Knob.clampToMinMax, hc, if_true]
  · obtain ⟨hd0, hd1⟩ := hd
    lift d to ℕ using hd0
    have hd3 : (d : Int) < (k.dimension : Int) := hd1
    have hd2 : d < k.dimension := by exact_mod_cast hd3
    have hi1 : d < k._minimums.length := by rw [h1]; exact hd2
    have hi2 : d < k._maximums.length := by rw [h2]; exact hd2
    have hlo : k.getMinimum (d : Int) = .ok k._minimums[d] := vecGet_of_lt hi1
    have hhi : k.getMaximum (d : Int) = .ok k._maximums[d] := vecGet_of_lt hi2
    exact ⟨_, _, hlo, hhi, clampToMinMax_of_bounds k d _ _ v hlo hhi⟩

/-- An instance of C34: on the one-dimensional integer parameter `setRange(0, 10, all)`
leaves the range vectors `[0]` and `[10]`, and `clampToMinMax(12, 0)` then reads both and
returns 10. -/
theorem range_vectors_keep_one_entry_per_dimension_witness :
    intKnobRange10.RangeSized ∧
      (∃ k', intKnobRange10.setRange 0 10 .all = .ok k' ∧ k'.RangeSized) ∧
      intKnobRange10.clampToMinMax 12 0 = .ok 10 := by
  have h := range_vectors_keep_one_entry_per_dimension intKnobRange10 (by decide)
  refine ⟨by decide, (h.2.1 0 10 .all (fun d hd => by cases hd)).1, rfl⟩

/-! ## C36: the dimensions `cloneValues` reads from the source -/

set_option maxRecDepth 8000 in
/-- C36, the failing input. The target is the two-dimensional integer parameter and the
source a one-dimensional floating-point parameter, which are type-compatible. With both
wildcards the loop of `cloneValues` runs over the two dimensions of the target: dimension
0 is copied, and at dimension 1 `copyValueForType` calls `getRawValue(1, 0)` on the source,
which subscripts the one-entry value store of the source at 1. -/
theorem cloneValues_wildcard_reads_source_past_its_dimensions :
    AnyKnob.isTypeCompatible (.intBase intKnobTwoDim) (.doubleBase colorKnobValue) = true ∧
      intKnobTwoDim.getNDimensions = 2 ∧ colorKnobValue.getNDimensions = 1 ∧
      (∃ r, Knob.copyValueFromPOD (.other (.doubleBase colorKnobValue)) 0 0 0 0 intKnobTwoDim
        = .ok r) ∧
      (colorKnobValue.getRawValue 1 0).1 = .error .outOfRange ∧
      Knob.copyValueFromPOD (.other (.doubleBase colorKnobValue)) 0 0 1 1 intKnobTwoDim
        = .error .outOfRange ∧
      intKnobTwoDim.cloneValues (.other (.doubleBase colorKnobValue)) .all .all
        = .error .outOfRange := by
  have h0 : ∃ r, Knob.copyValueFromPOD (.other (.doubleBase colorKnobValue)) 0 0 0 0
      intKnobTwoDim = .ok r := by
    have hx : (colorKnobValue.getRawValue 0 0).1 = .ok (5 / 2) := rfl
    have hm : intKnobTwoDim._values[0]? = some [(0, 0)] := rfl
    exact ⟨_, Knob.copyValueForType_ok podCast intKnobTwoDim colorKnobValue 0 0 0 0 (5 / 2) 2
      [(0, 0)] hx podCast_five_halves hm⟩
  have h1 : (colorKnobValue.getRawValue 1 0).1 = .error .outOfRange := rfl
  have h2 : Knob.copyValueFromPOD (.other (.doubleBase colorKnobValue)) 0 0 1 1 intKnobTwoDim
      = .error .outOfRange := rfl
  have h3 : ∀ k1 : Knob Int,
      Knob.copyValueFromPOD (.other (.doubleBase colorKnobValue)) 0 0 1 1 k1
        = .error .outOfRange := fun _ => rfl
  refine ⟨rfl, rfl, rfl, h0, h1, h2, ?_⟩
  obtain ⟨r, hr⟩ := h0
  show forLoop 2
      (fun i s =>
        forEach [0]
          (fun it s1 =>
            Knob.cloneValuesStep
              (Knob.copyValueFromPOD (.other (.doubleBase colorKnobValue))) it it i i s1) s)
      (false, intKnobTwoDim) = .error .outOfRange
  simp only [forLoop, forEach, Knob.cloneValuesStep, Nat.cast_zero, Nat.cast_one, hr, h3]

/-! ## C38: `setDefaultValues` and `setDefaultValuesWithoutApplying` -/

/-- What `setDefaultValues` leaves when its range of dimensions is valid: it does not fail,
keeps the value store, and rewrites the default records of the range only. -/
theorem Knob.setDefaultValues_ok {T : Type} [DecidableEq T] (k : Knob T) (hwf : k.WellFormed)
    (values : List T) (o : Nat) (ho : values = [] ∨ o + values.length ≤ k.dimension) :
    ∃ k', k.setDefaultValues values (o : Int) = .ok k' ∧ k'._values = k._values ∧
      ∀ j : Nat, k'._defaultValues[j]? = (k._defaultValues[j]?).map
        (fun r =>
          if o ≤ j ∧ j < o + values.length then
            (match values[j - o]? with
              | some v => r.writeDefault v
              | none => r)
          else r) := by
  by_cases hemp : values = []
  · subst hemp
    refine ⟨k, rfl, rfl, fun j => ?_⟩
    have : ¬(o ≤ j ∧ j < o) := by omega
    cases k._defaultValues[j]? <;> simp [this]
  · have ho' : o + values.length ≤ k.dimension := ho.resolve_left hemp
    obtain ⟨hlv, hld, hle⟩ := hwf
    obtain ⟨defs, hdefs, hl, hpt⟩ := Knob.writeDefaultValues_ok k hld values o ho'
    obtain ⟨k', hk', -, -, hdefs', hvals'⟩ :=
      Knob.computeHasModifications_frame { k with _defaultValues := defs }
        ⟨hlv, by simp only [hl, hld], hle⟩
    have hne : values.isEmpty = false := by
      cases values with
      | nil => exact absurd rfl hemp
      | cons _ _ => rfl
    refine ⟨k', ?_, hvals', fun j => ?_⟩
    · simp only [Knob.setDefaultValues, hne]
      rw [hdefs]
      exact hk'
    · rw [hdefs']
      exact hpt j

/-- Counterexample to C38 as stated: on the one-dimensional integer parameter, with the
values `[1]` and the offset `INT_MAX`, `offset + |values|` exceeds the dimension count, but
the sum `dimensionStartOffset + (int)values.size()` of the check is taken in `int` and
comes out as `INT_MIN`: the check lets the call through, no invalid-argument error is
raised, and both functions subscript the vector of default records at `INT_MAX`. -/
theorem setDefaultValues_offset_INT_MAX_passes_the_check :
    intKnobOneDim.WellFormed ∧
      (([1] : List Int) ≠ [] ∧
        (INT_MAX < 0 ∨ INT_MAX + (([1] : List Int).length : Int) >
          intKnobOneDim.getNDimensions)) ∧
      intAdd INT_MAX (([1] : List Int).length : Int) = INT_MIN ∧
      intKnobOneDim.setDefaultValues [1] INT_MAX = .error .outOfRange ∧
      intKnobOneDim.setDefaultValuesWithoutApplying [1] INT_MAX = .error .outOfRange :=
  ⟨by decide, ⟨by decide, Or.inr (by decide)⟩, by decide, rfl, rfl⟩

/-- C38, as the code has it. `setDefaultValues(values, offset)` and
`setDefaultValuesWithoutApplying(values, offset)` are the same function of the state, the
values vector and the offset: the same outcome, the same default records, the same
notifications. On a parameter whose vectors have one entry per dimension, and when
`offset + |values|` does not exceed `INT_MAX`, they fail, with an invalid-argument error, if
and only if `values` is non-empty and `offset < 0` or `offset + |values| > nDimensions`;
when they do not fail the current raw values are unchanged, the default record of every
dimension outside `[offset, offset + |values|)` is unchanged, and the default record of
dimension `offset + i` is the former one with `values[i]` written. -/
theorem setDefaultValues_eq_setDefaultValuesWithoutApplying {T : Type} [DecidableEq T]
    (k : Knob T) (hwf : k.WellFormed) (values : List T) (offset : DimIdx) :
    k.setDefaultValues values offset = k.setDefaultValuesWithoutApplying values offset ∧
    (offset + (values.length : Int) ≤ INT_MAX →
      ((∃ e, k.setDefaultValues values offset = .error e) ↔
        (values ≠ [] ∧ (offset < 0 ∨ offset + (values.length : Int) > k.getNDimensions))) ∧
      (∀ e, k.setDefaultValues values offset = .error e → e = .invalidArgument) ∧
      (∀ k', k.setDefaultValues values offset = .ok k' →
        k'._values = k._values ∧
        (∀ j : Nat, ¬(offset ≤ (j : Int) ∧ (j : Int) < offset + (values.length : Int)) →
          k'._defaultValues[j]? = k._defaultValues[j]?) ∧
        (∀ (i : Nat) (v : T), values[i]? = some v →
          k'._defaultValues[(offset + (i : Int)).toNat]? =
            (k._defaultValues[(offset + (i : Int)).toNat]?).map
              (fun r => r.writeDefault v)))) := by
  refine ⟨rfl, fun hsum => ?_⟩
  by_cases hemp : values = []
  · subst hemp
    have hrun : k.setDefaultValues [] offset = .ok k := rfl
    refine ⟨⟨fun ⟨e, he⟩ => ?_, fun h => absurd rfl h.1⟩, fun e he => ?_, fun k' hk' => ?_⟩
    · rw [hrun] at he
      cases he
    · rw [hrun] at he
      cases he
    · rw [hrun] at hk'
      have hkk : k = k' := Except.ok.inj hk'
      subst hkk
      exact ⟨rfl, fun _ _ => rfl, fun i v hv => by simp at hv⟩
  · have hne : values.isEmpty = false := by
      cases values with
      | nil => exact absurd rfl hemp
      | cons _ _ => rfl
    have hadd : (0 : Int) ≤ offset →
        intAdd offset (values.length : Int) = offset + (values.length : Int) := by
      intro h0
      have hs : (offset : Int) + (values.length : Int) ≤ 2 ^ 31 - 1 := hsum
      exact intAdd_of_fits offset (values.length : Int) (by omega) hs
    by_cases hb : offset < 0 ∨ offset + (values.length : Int) > k.getNDimensions
    · have hb2 : offset < 0 ∨ intAdd offset (values.length : Int) > k.getNDimensions := by
        rcases hb with h | h
        · exact Or.inl h
        · by_cases h0 : offset < 0
          · exact Or.inl h0
          · rw [hadd (not_lt.mp h0)]
            exact Or.inr h
      have hrun : k.setDefaultValues values offset = .error .invalidArgument := by
        simp only [Knob.setDefaultValues, hne, Knob.writeDefaultValues, hb2, if_true]
        rfl
      refine ⟨⟨fun _ => ⟨hemp, hb⟩, fun _ => ⟨_, hrun⟩⟩, fun e he => ?_, fun k' hk' => ?_⟩
      · rw [hrun] at he
        exact (Except.error.inj he).symm
      · rw [hrun] at hk'
        cases hk'
    · have hb' : ¬(offset < 0 ∨ offset + (values.length : Int) > (k.dimension : Int)) := hb
      have h0 : (0 : Int) ≤ offset := by
        by_contra h
        exact hb' (Or.inl (lt_of_not_le h))
      have h1 : offset + (values.length : Int) ≤ (k.dimension : Int) := by
        by_contra h
        exact hb' (Or.inr (lt_of_not_le h))
      lift offset to ℕ using h0 with o
      have h1' : (o : Int) + (values.length : Int) ≤ (k.dimension : Int) := h1
      have ho : o + values.length ≤ k.dimension := by omega
      obtain ⟨k1, hk1, hvals, hpt⟩ := Knob.setDefaultValues_ok k hwf values o (Or.inr ho)
      refine ⟨⟨fun ⟨e, he⟩ => ?_, fun h => absurd h.2 hb⟩, fun e he => ?_, fun k' hk' => ?_⟩
      · rw [hk1] at he
        cases he
      · rw [hk1] at he
        cases he
      · rw [hk1] at hk'
        have hkk : k1 = k' := Except.ok.inj hk'
        subst hkk
        refine ⟨hvals, fun j hj => ?_, fun i v hv => ?_⟩
        · rw [hpt j]
          have hj' : ¬((o : Int) ≤ (j : Int) ∧ (j : Int) < (o : Int) + (values.length : Int)) :=
            hj
          have hc : ¬(o ≤ j ∧ j < o + values.length) := by omega
          cases k._defaultValues[j]? <;> simp [hc]
        · have hi : i < values.length := (List.getElem?_eq_some.mp hv).1
          have hidx : ((o : Int) + (i : Int)).toNat = o + i := by omega
          rw [hidx, hpt (o + i)]
          have hc : o ≤ o + i ∧ o + i < o + values.length := by omega
          have hsub : o + i - o = i := by omega
          cases k._defaultValues[o + i]? <;> simp [hc, hsub, hv]

/-- An instance of C38: on the two-dimensional integer parameter, the values `[7]` at offset
1 are accepted by both functions, with the same outcome, and the values `[7, 8]` at offset 1
are refused by both, with an invalid-argument error. -/
theorem setDefaultValues_eq_setDefaultValuesWithoutApplying_witness :
    intKnobTwoDim.WellFormed ∧
      (1 : Int) + (([7] : List Int).length : Int) ≤ INT_MAX ∧
      (1 : Int) + (([7, 8] : List Int).length : Int) ≤ INT_MAX ∧
      intKnobTwoDim.setDefaultValues [7] 1 = intKnobTwoDim.setDefaultValuesWithoutApplying [7] 1 ∧
      (¬∃ e, intKnobTwoDim.setDefaultValues [7] 1 = .error e) ∧
      ∃ e, intKnobTwoDim.setDefaultValues [7, 8] 1 = .error e ∧ e = .invalidArgument := by
  have h1 := setDefaultValues_eq_setDefaultValuesWithoutApplying intKnobTwoDim (by decide) [7] 1
  have h2 := setDefaultValues_eq_setDefaultValuesWithoutApplying intKnobTwoDim (by decide)
    [7, 8] 1
  have hs1 : (1 : Int) + (([7] : List Int).length : Int) ≤ INT_MAX := by decide
  have hs2 : (1 : Int) + (([7, 8] : List Int).length : Int) ≤ INT_MAX := by decide
  refine ⟨by decide, hs1, hs2, h1.1, ?_, ?_⟩
  · rw [(h1.2 hs1).1]
    decide
  · have he : ∃ e, intKnobTwoDim.setDefaultValues [7, 8] 1 = .error e := by
      rw [(h2.2 hs2).1]
      decide
    obtain ⟨e, he⟩ := he
    exact ⟨e, he, (h2.2 hs2).2.1 e he⟩

/-! ## C39: `hashFunction` on 32-bit words -/

/-- The step `a ^ (a >> k)` is one-to-one on the integers below `2^N`: the bits of the operand
are recovered from the top down. -/
theorem xor_shiftRight_inj (k : Nat) (hk : 0 < k) (N : Nat) (a b : Nat) (ha : a < 2 ^ N)
    (hb : b < 2 ^ N) (h : a ^^^ (a >>> k) = b ^^^ (b >>> k)) : a = b := by
  have key : ∀ n i, N ≤ i + n → a.testBit i = b.testBit i := by
    intro n
    induction n with
    | zero =>
      intro i hi
      have hNi : 2 ^ N ≤ 2 ^ i := Nat.pow_le_pow_right (by norm_num) (by omega)
      rw [Nat.testBit_eq_false_of_lt (lt_of_lt_of_le ha hNi),
        Nat.testBit_eq_false_of_lt (lt_of_lt_of_le hb hNi)]
    | succ n ih =>
      intro i hi
      have h1 : (a ^^^ (a >>> k)).testBit i = (b ^^^ (b >>> k)).testBit i := by rw [h]
      simp only [Nat.testBit_xor, Nat.testBit_shiftRight] at h1
      have h2 := ih (k + i) (by omega)
      rw [h2] at h1
      cases hx : a.testBit i <;> cases hy : b.testBit i <;> cases hz : b.testBit (k + i) <;>
        simp_all
  exact Nat.eq_of_testBit_eq (fun i => key N i (by omega))

/-- The step `a ^ (a >> k)` stays below `2^N`. -/
theorem xor_shiftRight_lt (k N a : Nat) (ha : a < 2 ^ N) : a ^^^ (a >>> k) < 2 ^ N := by
  have h : a >>> k ≤ a := by
    rw [Nat.shiftRight_eq_div_pow]
    exact Nat.div_le_self a (2 ^ k)
  exact Nat.xor_lt_two_pow ha (lt_of_le_of_lt h ha)

/-- The product with an odd constant, wrapped around at `2^N`, is one-to-one on the integers
below `2^N`. -/
theorem mul_odd_mod_inj (c : Nat) (hc : Nat.Coprime c 2) (N a b : Nat) (ha : a < 2 ^ N)
    (hb : b < 2 ^ N) (h : (a * c) % 2 ^ N = (b * c) % 2 ^ N) : a = b := by
  have h1 : Nat.ModEq (2 ^ N) (a * c) (b * c) := h
  have hcop : Nat.gcd (2 ^ N) c = 1 := (Nat.Coprime.pow_right N hc).symm
  have h2 : Nat.ModEq (2 ^ N) a b := Nat.ModEq.cancel_right_of_coprime hcop h1
  have h3 : a % 2 ^ N = b % 2 ^ N := h2
  rwa [Nat.mod_eq_of_lt ha, Nat.mod_eq_of_lt hb] at h3

theorem add_shiftLeft_three (a : Nat) : a + (a <<< 3) = a * 9 := by
  rw [Nat.shiftLeft_eq]
  ring

theorem hashFunction_lt (a : Nat) : hashFunction a < 2 ^ 32 := by
  simp only [hashFunction]
  exact xor_shiftRight_lt 15 32 _ (Nat.mod_lt _ (by positivity))

theorem hashFunction_inj (a b : Nat) (ha : a < 2 ^ 32) (hb : b < 2 ^ 32)
    (h : hashFunction a = hashFunction b) : a = b := by
  simp only [hashFunction] at h
  have hM : 0 < 2 ^ 32 := by positivity
  have h5 := xor_shiftRight_inj 15 (by norm_num) 32 _ _ (Nat.mod_lt _ hM) (Nat.mod_lt _ hM) h
  have b3 : ∀ x : Nat,
      ((x + (x <<< 3)) % 2 ^ 32) ^^^ (((x + (x <<< 3)) % 2 ^ 32) >>> 4) < 2 ^ 32 :=
    fun x => xor_shiftRight_lt 4 32 _ (Nat.mod_lt _ hM)
  have h4 := mul_odd_mod_inj 0x27d4eb2d (by decide) 32 _ _ (b3 _) (b3 _) h5
  have h3 := xor_shiftRight_inj 4 (by norm_num) 32 _ _ (Nat.mod_lt _ hM) (Nat.mod_lt _ hM) h4
  rw [add_shiftLeft_three, add_shiftLeft_three] at h3
  have b1 : ∀ x : Nat, x < 2 ^ 32 → (x ^^^ 61) ^^^ (x >>> 16) < 2 ^ 32 := by
    intro x hx
    have h61 : (61 : Nat) < 2 ^ 32 := by norm_num
    have hs : x >>> 16 ≤ x := by
      rw [Nat.shiftRight_eq_div_pow]
      exact Nat.div_le_self x (2 ^ 16)
    exact Nat.xor_lt_two_pow (Nat.xor_lt_two_pow hx h61) (lt_of_le_of_lt hs hx)
  have h2 := mul_odd_mod_inj 9 (by decide) 32 _ _ (b1 a ha) (b1 b hb) h3
  have h1 : a ^^^ (a >>> 16) = b ^^^ (b >>> 16) := by
    have e : ∀ x : Nat, (x ^^^ 61) ^^^ (x >>> 16) = 61 ^^^ (x ^^^ (x >>> 16)) := by
      intro x
      rw [Nat.xor_comm x 61, Nat.xor_assoc]
    rw [e a, e b] at h2
    exact Nat.xor_right_injective h2
  exact xor_shiftRight_inj 16 (by norm_num) 32 a b ha hb h1

/-- On the 32-bit words `hashFunction` is a one-to-one map onto the 32-bit words. -/
theorem hashFunction_bijOn : Set.BijOn hashFunction (Set.Iio (2 ^ 32)) (Set.Iio (2 ^ 32)) := by
  have hmaps : Set.MapsTo hashFunction (Set.Iio (2 ^ 32)) (Set.Iio (2 ^ 32)) :=
    fun a _ => hashFunction_lt a
  have hinj : Set.InjOn hashFunction (Set.Iio (2 ^ 32)) :=
    fun a ha b hb h => hashFunction_inj a b ha hb h
  refine ⟨hmaps, hinj, ?_⟩
  have hfin : (Set.Iio (2 ^ 32 : Nat)).Finite := Set.finite_Iio _
  have himg : hashFunction '' Set.Iio (2 ^ 32) = Set.Iio (2 ^ 32) :=
    Set.eq_of_subset_of_ncard_le hmaps.image_subset
      (le_of_eq (Set.ncard_image_of_injOn hinj).symm) hfin
  intro y hy
  rw [← himg] at hy
  exact hy

theorem dimToUnsigned_lt (d : DimIdx) : dimToUnsigned d < 2 ^ 32 := by
  have h : (0 : Int) ≤ (d : Int) % 2 ^ 32 ∧ (d : Int) % 2 ^ 32 < 2 ^ 32 :=
    ⟨Int.emod_nonneg _ (by norm_num), Int.emod_lt_of_pos _ (by norm_num)⟩
  have h1 : dimToUnsigned d = ((d : Int) % 2 ^ 32).toNat := rfl
  rw [h1]
  omega

theorem toUnsigned_inj (x y : Int) (hx : -(2 ^ 31) ≤ x ∧ x ≤ 2 ^ 31 - 1)
    (hy : -(2 ^ 31) ≤ y ∧ y ≤ 2 ^ 31 - 1) (h : (x % 2 ^ 32).toNat = (y % 2 ^ 32).toNat) :
    x = y := by
  omega

/-- The conversion of an `int` to `unsigned int` is one-to-one. -/
theorem dimToUnsigned_inj (d1 d2 : DimIdx) (h1 : INT_MIN ≤ d1 ∧ d1 ≤ INT_MAX)
    (h2 : INT_MIN ≤ d2 ∧ d2 ≤ INT_MAX) (h : dimToUnsigned d1 = dimToUnsigned d2) : d1 = d2 :=
  toUnsigned_inj d1 d2 h1 h2 h

/-- C39. As a function on 32-bit unsigned integers with wrap-around arithmetic,
`hashFunction` is a bijection: it maps the integers below `2^32` one-to-one onto the integers
below `2^32`. So two distinct dimension indices, converted to `unsigned int` by the call
`hashFunction(dimension)`, give distinct seeds, and the generator states that
`evaluateExpression` leaves at the same time on two distinct dimensions differ. -/
theorem hashFunction_bijective_on_32_bit_words :
    Set.BijOn hashFunction (Set.Iio (2 ^ 32)) (Set.Iio (2 ^ 32)) ∧
    (∀ a b : Nat, a < 2 ^ 32 → b < 2 ^ 32 → hashFunction a = hashFunction b → a = b) ∧
    (∀ y : Nat, y < 2 ^ 32 → ∃ x : Nat, x < 2 ^ 32 ∧ hashFunction x = y) ∧
    (∀ d1 d2 : DimIdx, (INT_MIN ≤ d1 ∧ d1 ≤ INT_MAX) → (INT_MIN ≤ d2 ∧ d2 ≤ INT_MAX) →
      d1 ≠ d2 → hashFunction (dimToUnsigned d1) ≠ hashFunction (dimToUnsigned d2)) ∧
    (∀ (T : Type) (pyObjectToType : PyObject → ViewIdx → T)
      (executeExpression : Knob T → ℚ → ViewIdx → DimIdx → Except String PyObject)
      (k k1 : Knob T) (time : ℚ) (view view1 : ViewIdx) (d1 d2 : DimIdx),
      (INT_MIN ≤ d1 ∧ d1 ≤ INT_MAX) → (INT_MIN ≤ d2 ∧ d2 ≤ INT_MAX) → d1 ≠ d2 →
      (k.evaluateExpression pyObjectToType executeExpression time view d1).2.randomState ≠
        (k1.evaluateExpression pyObjectToType executeExpression time view1 d2).2.randomState) := by
  have hdim : ∀ d1 d2 : DimIdx, (INT_MIN ≤ d1 ∧ d1 ≤ INT_MAX) → (INT_MIN ≤ d2 ∧ d2 ≤ INT_MAX) →
      d1 ≠ d2 → hashFunction (dimToUnsigned d1) ≠ hashFunction (dimToUnsigned d2) := by
    intro d1 d2 h1 h2 hne h
    exact hne (dimToUnsigned_inj d1 d2 h1 h2
      (hashFunction_inj _ _ (dimToUnsigned_lt d1) (dimToUnsigned_lt d2) h))
  refine ⟨hashFunction_bijOn, hashFunction_inj, ?_, hdim, ?_⟩
  · intro y hy
    obtain ⟨x, hx, hxy⟩ := hashFunction_bijOn.surjOn hy
    exact ⟨x, hx, hxy⟩
  · intro T pyObjectToType executeExpression k k1 time view view1 d1 d2 h1 h2 hne h
    have e : ∀ (k : Knob T) (view : ViewIdx) (d : DimIdx),
        (k.evaluateExpression pyObjectToType executeExpression time view d).2.randomState
          = { time := time, seed := hashFunction (dimToUnsigned d) } := by
      intro k view d
      simp only [Knob.evaluateExpression]
      cases executeExpression (k.randomSeed time (hashFunction (dimToUnsigned d))) time view d <;>
        rfl
    rw [e k view d1, e k1 view1 d2] at h
    exact hdim d1 d2 h1 h2 hne (congrArg RandomState.seed h)

/-! ## C37: clearing the cache of expression results -/

set_option maxRecDepth 8000 in
/-- C37, the failing input. The cache of the two-dimensional integer parameter holds no
entry for view 0 on dimension 0 and the result 5 at time 1 for view 0 on dimension 1.
`clearExpressionsResults(all dimensions, view 0)` finds no entry on dimension 0 and returns
from inside the loop over the dimensions: the cache is as before, and
`getExpressionResults(1, view 0)` still reports the result of dimension 1. The same call on
dimension 1 alone empties that entry; and when every dimension has an entry for view 0 the
call with the wildcard empties each of them and leaves the entry of view 1 as it is. -/
theorem clearExpressionsResults_returns_at_first_dimension_without_entry :
    (Knob.clearExpressionsResults flatContext intKnobTwoDimCached .all (.view 0)).map
        (fun k => k._exprRes) = .ok [[], [(0, [(1, 5)])]] ∧
      (Knob.clearExpressionsResults flatContext intKnobTwoDimCached .all (.view 0)).bind
        (fun k => k.getExpressionResults flatContext 1 (.view 0) []) = .ok [(1, 5)] ∧
      (Knob.clearExpressionsResults flatContext intKnobTwoDimCached (.dim 1) (.view 0)).map
        (fun k => k._exprRes) = .ok [[], [(0, [])]] ∧
      (Knob.clearExpressionsResults flatContext intKnobTwoDimCachedBoth .all (.view 0)).map
        (fun k => k._exprRes) = .ok [[(0, [])], [(0, []), (1, [(1, 6)])]] :=
  ⟨rfl, rfl, rfl, rfl⟩

/-! ## C35: the entry of the main view in the value store -/

theorem PerViewMap.find_erase_of_ne {V : Type} (m : PerViewMap V) (w w' : ViewIdx)
    (h : w' ≠ w) : (m.erase w).find w' = m.find w' := by
  induction m with
  | nil => rfl
  | cons p rest ih =>
    obtain ⟨k, y⟩ := p
    unfold PerViewMap.erase
    by_cases h1 : k = w
    · subst h1
      simp [PerViewMap.find, Ne.symm h]
    · by_cases h2 : k = w'
      · subst h2
        simp [h1, PerViewMap.find]
      · simp [h1, h2, PerViewMap.find, ih]

/-- The map a loop `for (i = 0; i < nDims; ++i) _values[i] = f(_values[i])` leaves on a
dimension of a store that has one map per dimension. -/
theorem Knob.storedValue_of_forLoop {T : Type} (k : Knob T) (hlv : k._values.length = k.dimension)
    (f : PerViewMap T → PerViewMap T) :
    ∃ vals, forLoop k.dimension (fun i vals => vecModify vals (i : Int) f) k._values = .ok vals ∧
      vals.length = k.dimension ∧
      ∀ i : Nat, i < k.dimension → ∃ m, k._values[i]? = some m ∧ vals[i]? = some (f m) := by
  obtain ⟨vals, hvals, hlen, hpt⟩ := forLoop_vecModify (fun _ m => f m) k._values k.dimension
    (le_of_eq hlv.symm)
  refine ⟨vals, hvals, hlen.trans hlv, fun i hi => ?_⟩
  have hi' : i < k._values.length := by omega
  refine ⟨k._values[i], List.getElem?_eq_getElem hi', ?_⟩
  rw [hpt i, List.getElem?_eq_getElem hi']
  simp [hi]

/-- A call of `copyValueForType` that does not fail keeps the dimension count and the entries
of the main view. -/
theorem Knob.copyValueForType_mainView {S T : Type} [KnobValue S] [DecidableEq T]
    (cast : S → Except KnobError T) (k : Knob T) (o : Knob S) (w ow : ViewIdx) (d od : DimIdx)
    (r : Bool × Knob T) (hmain : k.MainViewStored)
    (h : k.copyValueForType cast o w ow d od = .ok r) : r.2.MainViewStored := by
  by_cases hd : d < 0
  · exfalso
    have hv : vecGet k._values d = .error .outOfRange := by simp [vecGet, hd]
    cases hx : (o.getRawValue od ow).1 with
    | error e =>
      simp only [Knob.copyValueForType, hx] at h
      cases h
    | ok x =>
      cases hc : cast x with
      | error e =>
        simp only [Knob.copyValueForType, hx, hc] at h
        cases h
      | ok c =>
        simp only [Knob.copyValueForType, hx, hc, hv] at h
        cases h
  · have hd0 : (0 : Int) ≤ d := not_lt.mp hd
    lift d to ℕ using hd0 with i
    obtain ⟨x, c, m, -, -, hm, hr⟩ := Knob.copyValueForType_inv cast k o w ow i od r h
    have hr2 : r.2 = { k with _values := k._values.set i (m.assign w c) } := by
      rw [hr]
    intro j hj
    rw [hr2] at hj ⊢
    have hj' : j < k.dimension := hj
    by_cases hji : j = i
    · subst hji
      rw [Knob.storedValue_set_self k j m _ hm]
      by_cases hw : w = 0
      · subst hw
        rw [PerViewMap.find_assign_self]
        rfl
      · rw [PerViewMap.find_assign_of_ne m w 0 _ (Ne.symm hw), ← Knob.storedValue_of_some k j m hm]
        exact hmain j hj'
    · rw [Knob.storedValue_set_of_ne k i j _ hji]
      exact hmain j hj'

/-- What `cloneValues` of the plain-old-data types keeps of the entries of the main view. -/
theorem Knob.cloneValues_mainView {T : Type} [KnobPOD T] [DecidableEq T] (k : Knob T)
    (hmain : k.MainViewStored) (other : KnobIPtr) (views : ViewPair) (dims : DimPair)
    (r : Bool × Knob T) (h : k.cloneValues other views dims = .ok r) : r.2.MainViewStored := by
  have hcopy : ∀ v ov d od (k1 : Knob T) (r1 : Bool × Knob T), k1.MainViewStored →
      Knob.copyValueFromPOD other v ov d od k1 = .ok r1 → r1.2.MainViewStored := by
    intro v ov d od k1 r1 hk1 hrun
    cases other with
    | null =>
      have hr : (false, k1) = r1 := Except.ok.inj hrun
      rw [← hr]
      exact hk1
    | self => exact Knob.copyValueForType_mainView sameCast k1 k1 v ov d od r1 hk1 hrun
    | other a =>
      cases a with
      | intBase o => exact Knob.copyValueForType_mainView podCast k1 o v ov d od r1 hk1 hrun
      | boolBase o => exact Knob.copyValueForType_mainView podCast k1 o v ov d od r1 hk1 hrun
      | doubleBase o => exact Knob.copyValueForType_mainView podCast k1 o v ov d od r1 hk1 hrun
      | stringBase o =>
        have hr : (false, k1) = r1 := Except.ok.inj hrun
        rw [← hr]
        exact hk1
  have hloop : ∀ otherViews, Knob.cloneValuesLoop (Knob.copyValueFromPOD other) k otherViews
      views dims = .ok r → r.2.MainViewStored :=
    fun otherViews hrun =>
      Knob.cloneValuesLoop_keeps (fun k1 => k1.MainViewStored) _ hcopy k hmain otherViews views
        dims r hrun
  cases other with
  | null =>
    have hr : (false, k) = r := Except.ok.inj h
    rw [← hr]
    exact hmain
  | self => exact hloop _ h
  | other a =>
    cases a with
    | intBase o => exact hloop _ h
    | boolBase o => exact hloop _ h
    | doubleBase o => exact hloop _ h
    | stringBase o =>
      have hr : (false, k) = r := Except.ok.inj h
      rw [← hr]
      exact hmain

/-- What `KnobStringBase::cloneValues` keeps of the entries of the main view. -/
theorem KnobStringBase.cloneValuesString_mainView (k : Knob String) (hmain : k.MainViewStored)
    (other : KnobIPtr) (views : ViewPair) (dims : DimPair) (r : Bool × Knob String)
    (h : KnobStringBase.cloneValues k other views dims = .ok r) : r.2.MainViewStored := by
  have hsame : Except.ok (false, k) = (Except.ok r : Except KnobError (Bool × Knob String)) →
      r.2.MainViewStored := by
    intro hrun
    have hr : (false, k) = r := Except.ok.inj hrun
    rw [← hr]
    exact hmain
  have hcopy : ∀ v ov d od (k1 : Knob String) (r1 : Bool × Knob String), k1.MainViewStored →
      KnobStringBase.copyValueFromString other v ov d od k1 = .ok r1 → r1.2.MainViewStored := by
    intro v ov d od k1 r1 hk1 hrun
    have hsame1 : Except.ok (false, k1) =
        (Except.ok r1 : Except KnobError (Bool × Knob String)) → r1.2.MainViewStored := by
      intro hrun1
      have hr : (false, k1) = r1 := Except.ok.inj hrun1
      rw [← hr]
      exact hk1
    cases other with
    | null => exact hsame1 hrun
    | self => exact Knob.copyValueForType_mainView sameCast k1 k1 v ov d od r1 hk1 hrun
    | other a =>
      cases a with
      | intBase o => exact hsame1 hrun
      | boolBase o => exact hsame1 hrun
      | doubleBase o => exact hsame1 hrun
      | stringBase o =>
        exact Knob.copyValueForType_mainView sameCast k1 o v ov d od r1 hk1 hrun
  have hloop : ∀ otherViews,
      Knob.cloneValuesLoop (KnobStringBase.copyValueFromString other) k otherViews
        views dims = .ok r → r.2.MainViewStored :=
    fun otherViews hrun =>
      Knob.cloneValuesLoop_keeps (fun k1 => k1.MainViewStored) _ hcopy k hmain otherViews views
        dims r hrun
  cases other with
  | null => exact hsame h
  | self => exact hloop _ h
  | other a =>
    cases a with
    | intBase o => exact hsame h
    | boolBase o => exact hsame h
    | doubleBase o => exact hsame h
    | stringBase o => exact hloop _ h

/-- On a store with one map per dimension `splitView` does not fail and leaves an entry for
the main view on every dimension. -/
theorem Knob.splitView_mainView {T : Type} [KnobValue T] (k : Knob T)
    (hlv : k._values.length = k.dimension) (base : KnobHelper → ViewIdx → KnobHelper)
    (view : ViewIdx) (hbase : (base k.toKnobHelper view).dimension = k.dimension) :
    ∃ k', k.splitView base view = .ok k' ∧ k'.MainViewStored := by
  obtain ⟨vals, hvals, -, hpt⟩ := Knob.storedValue_of_forLoop k hlv
    (fun m =>
      let m1 : PerViewMap T :=
        match m.find 0 with
        | some _ => m
        | none => m.assign 0 KnobValue.zero
      let mainViewVal : T :=
        match m1.find 0 with
        | some x => x
        | none => KnobValue.zero
      m1.assign view mainViewVal)
  have hrun : k.splitView base view =
      .ok { k with toKnobHelper := base k.toKnobHelper view, _values := vals } := by
    simp only [Knob.splitView, hvals]
  refine ⟨_, hrun, fun i hi => ?_⟩
  have hi' : i < k.dimension := by
    rw [← hbase]
    exact hi
  obtain ⟨m, -, hv⟩ := hpt i hi'
  show (match vals[i]? with
    | some m => m.find 0
    | none => none).isSome = true
  rw [hv]
  by_cases hw : view = 0
  · subst hw
    simp only [PerViewMap.find_assign_self]
    rfl
  · simp only [PerViewMap.find_assign_of_ne _ view 0 _ (Ne.symm hw)]
    cases hm : m.find 0 with
    | some x => simp [hm]
    | none => simp [PerViewMap.find_assign_self]

/-- On a store with one map per dimension `unSplitView` of a view other than the main view
does not fail and leaves the entries of the main view as they are. -/
theorem Knob.unSplitView_mainView {T : Type} (k : Knob T)
    (hlv : k._values.length = k.dimension) (base : KnobHelper → ViewIdx → KnobHelper)
    (view : ViewIdx) (hview : view ≠ 0) :
    ∃ k', k.unSplitView base view = .ok k' ∧
      k'.toKnobHelper = base k.toKnobHelper view ∧
      ∀ i : Nat, k'.storedValue i 0 = k.storedValue i 0 := by
  obtain ⟨vals, hvals, -, hpt⟩ := forLoop_vecModify
    (fun _ (m : PerViewMap T) =>
      match m.find view with
      | some _ => m.erase view
      | none => m)
    k._values k.dimension (le_of_eq hlv.symm)
  have hrun : k.unSplitView base view =
      .ok { k with toKnobHelper := base k.toKnobHelper view, _values := vals } := by
    simp only [Knob.unSplitView, hvals]
  refine ⟨_, hrun, rfl, fun i => ?_⟩
  show (match vals[i]? with
    | some m => m.find 0
    | none => none) = k.storedValue i 0
  rw [hpt i]
  unfold Knob.storedValue
  cases hm : k._values[i]? with
  | none => rfl
  | some m =>
    simp only [Option.map_some']
    by_cases hi : i < k.dimension
    · simp only [hi, if_true]
      cases hf : m.find view with
      | none => rfl
      | some x => exact PerViewMap.find_erase_of_ne m view 0 (Ne.symm hview)
    · simp only [hi, if_false]

set_option maxRecDepth 8000 in
/-- Counterexample to C35 as stated: on the two-dimensional integer parameter, whose store
holds the entry `(0, 0)` on both dimensions, `unSplitView(ViewIdx(0))` finds the entry of the
main view on each dimension and erases it; the store it leaves has no entry at all. -/
theorem unSplitView_of_main_view_erases_its_entries :
    intKnobTwoDim.MainViewStored ∧
      (intKnobTwoDim.unSplitView helperUnSplitView 0).map (fun k => k._values)
        = .ok [[], []] ∧
      ∃ k', intKnobTwoDim.unSplitView helperUnSplitView 0 = .ok k' ∧ ¬k'.MainViewStored :=
  ⟨by decide, rfl, _, rfl, by decide⟩

/-- C35, as the code has it. On a parameter whose store has one map per dimension,
`populate`, `splitView`, `copyValueForType` and `cloneValues` leave an entry for the main
view (index 0) in the map of every dimension, and so does `unSplitView(view)` for every view
other than the main view, which leaves the main-view values in place. For the main view
itself `unSplitView` has no guard: see the counterexample. -/
theorem value_store_operations_keep_main_view_entry {T : Type} [KnobValue T] [DecidableEq T]
    (k : Knob T) (hwf : k.WellFormed) (hmain : k.MainViewStored) :
    (∃ k', k.populate = .ok k' ∧ k'.MainViewStored) ∧
    (∀ (base : KnobHelper → ViewIdx → KnobHelper) (view : ViewIdx),
      (base k.toKnobHelper view).dimension = k.dimension →
      (∃ k', k.splitView base view = .ok k' ∧ k'.MainViewStored) ∧
      (view ≠ 0 → ∃ k', k.unSplitView base view = .ok k' ∧ k'.MainViewStored ∧
        ∀ i : Nat, k'.storedValue i 0 = k.storedValue i 0)) ∧
    (∀ (S : Type) [KnobValue S] (cast : S → Except KnobError T) (o : Knob S) (w ow : ViewIdx)
      (d od : DimIdx) (r : Bool × Knob T),
      k.copyValueForType cast o w ow d od = .ok r → r.2.MainViewStored) ∧
    (∀ (P : Type) [KnobPOD P] [DecidableEq P] (kp : Knob P), kp.MainViewStored →
      ∀ (other : KnobIPtr) (views : ViewPair) (dims : DimPair) (r : Bool × Knob P),
        kp.cloneValues other views dims = .ok r → r.2.MainViewStored) ∧
    (∀ ks : Knob String, ks.MainViewStored →
      ∀ (other : KnobIPtr) (views : ViewPair) (dims : DimPair) (r : Bool × Knob String),
        KnobStringBase.cloneValues ks other views dims = .ok r → r.2.MainViewStored) := by
  refine ⟨?_, fun base view hbase => ⟨?_, fun hview => ?_⟩, ?_, ?_, ?_⟩
  · obtain ⟨k', hk', hb, -, -, -, hpv, -⟩ := Knob.populate_ok k hwf.1 hwf.2.1
    refine ⟨k', hk', fun i hi => ?_⟩
    have hi' : i < k._values.length := by
      have hd : k'.dimension = k.dimension := by rw [hb]
      rw [hwf.1, ← hd]
      exact hi
    unfold Knob.storedValue
    rw [hpv i, List.getElem?_eq_getElem hi']
    simp only [Option.map_some', PerViewMap.find_assign_self]
    rfl
  · exact Knob.splitView_mainView k hwf.1 base view hbase
  · obtain ⟨k', hk', hb, hst⟩ := Knob.unSplitView_mainView k hwf.1 base view hview
    refine ⟨k', hk', fun i hi => ?_, hst⟩
    rw [hst i]
    have hd : k'.dimension = k.dimension := by rw [hb, hbase]
    exact hmain i (hd ▸ hi)
  · intro S _ cast o w ow d od r h
    exact Knob.copyValueForType_mainView cast k o w ow d od r hmain h
  · intro P _ _ kp hkp other views dims r h
    exact Knob.cloneValues_mainView kp hkp other views dims r h
  · intro ks hks other views dims r h
    exact KnobStringBase.cloneValuesString_mainView ks hks other views dims r h

set_option maxRecDepth 8000 in
/-- An instance of C35: on the two-dimensional integer parameter, `splitView(1)` followed by
`unSplitView(1)` leaves the entry of the main view on both dimensions. -/
theorem value_store_operations_keep_main_view_entry_witness :
    intKnobTwoDim.WellFormed ∧ intKnobTwoDim.MainViewStored ∧
      (∃ k', intKnobTwoDim.splitView helperSplitView 1 = .ok k' ∧ k'.MainViewStored) ∧
      (∃ k', intKnobTwoDim.unSplitView helperUnSplitView 1 = .ok k' ∧ k'.MainViewStored ∧
        ∀ i : Nat, k'.storedValue i 0 = intKnobTwoDim.storedValue i 0) := by
  have h := value_store_operations_keep_main_view_entry intKnobTwoDim (by decide) (by decide)
  exact ⟨by decide, by decide, (h.2.1 helperSplitView 1 rfl).1,
    (h.2.1 helperUnSplitView 1 rfl).2 (by decide)⟩

/-! ## C31: notifications and the scopes of the locks -/

theorem finalDepth_append (d : Nat) (l1 l2 : List LockEvent) :
    finalDepth d (l1 ++ l2) = finalDepth (finalDepth d l1) l2 := by
  induction l1 generalizing d with
  | nil => rfl
  | cons e rest ih =>
    cases e with
    | acquire l => exact ih (d + 1)
    | release l => exact ih (d - 1)
    | notify s => exact ih d

theorem notifyDepths_append (d : Nat) (l1 l2 : List LockEvent) :
    notifyDepths d (l1 ++ l2) = notifyDepths d l1 ++ notifyDepths (finalDepth d l1) l2 := by
  induction l1 generalizing d with
  | nil => rfl
  | cons e rest ih =>
    cases e with
    | acquire l => exact ih (d + 1)
    | release l => exact ih (d - 1)
    | notify s =>
      show (s, d) :: notifyDepths d (rest ++ l2) = _
      rw [ih d]
      rfl

theorem KeepsDepth.nil : KeepsDepth [] :=
  fun _ => ⟨rfl, fun _ hp => absurd hp (List.not_mem_nil _)⟩

theorem KeepsDepth.append {l1 l2 : List LockEvent} (h1 : KeepsDepth l1) (h2 : KeepsDepth l2) :
    KeepsDepth (l1 ++ l2) := by
  intro d
  rw [finalDepth_append, notifyDepths_append, (h1 d).1]
  refine ⟨(h2 d).1, fun p hp => ?_⟩
  rcases List.mem_append.mp hp with hp1 | hp2
  · exact (h1 d).2 p hp1
  · exact (h2 d).2 p hp2

theorem KeepsDepth.flatMap {α : Type} (xs : List α) (f : α → List LockEvent)
    (h : ∀ x, KeepsDepth (f x)) : KeepsDepth (xs.flatMap f) := by
  induction xs with
  | nil => exact KeepsDepth.nil
  | cons x rest ih =>
    rw [List.flatMap_cons]
    exact KeepsDepth.append (h x) ih

theorem KeepsDepth.ite (c : Prop) [Decidable c] {l1 l2 : List LockEvent} (h1 : KeepsDepth l1)
    (h2 : KeepsDepth l2) : KeepsDepth (if c then l1 else l2) := by
  split
  · exact h1
  · exact h2

/-- A block that holds a lock and emits nothing. -/
theorem KeepsDepth.locked_nil (l : Lock) : KeepsDepth (locked l []) := by
  intro d
  refine ⟨?_, fun p hp => ?_⟩
  · show d + 1 - 1 = d
    omega
  · exact absurd hp (List.not_mem_nil _)

/-- Notifications emitted with no lock construction between them. -/
theorem KeepsDepth.emitted (before after : List Signal) : KeepsDepth (emitted before after) := by
  unfold Natron.emitted
  induction after.drop before.length with
  | nil => exact KeepsDepth.nil
  | cons s rest ih =>
    intro d
    refine ⟨(ih d).1, fun p hp => ?_⟩
    have hp' : p ∈ (s, d) :: notifyDepths d (rest.map LockEvent.notify) := hp
    rcases List.mem_cons.mp hp' with hp1 | hp2
    · rw [hp1]
    · exact (ih d).2 p hp2

theorem Knob.setRangeTrace_keepsDepth {T : Type} (k : Knob T) (mini maxi : T)
    (dimension : DimSpec) : KeepsDepth (k.setRangeTrace mini maxi dimension) := by
  unfold Knob.setRangeTrace
  refine KeepsDepth.append (KeepsDepth.locked_nil _) ?_
  cases k.setRange mini maxi dimension with
  | ok k1 => exact KeepsDepth.emitted _ _
  | error e => exact KeepsDepth.nil

theorem Knob.setDisplayRangeTrace_keepsDepth {T : Type} (k : Knob T) (mini maxi : T)
    (dimension : DimSpec) : KeepsDepth (k.setDisplayRangeTrace mini maxi dimension) := by
  unfold Knob.setDisplayRangeTrace
  refine KeepsDepth.append (KeepsDepth.locked_nil _) ?_
  cases k.setDisplayRange mini maxi dimension with
  | ok k1 => exact KeepsDepth.emitted _ _
  | error e => exact KeepsDepth.nil

theorem Knob.computeHasModificationsTrace_keepsDepth {T : Type} [DecidableEq T] (k : Knob T) :
    KeepsDepth k.computeHasModificationsTrace := by
  unfold Knob.computeHasModificationsTrace
  cases k.computeHasModifications with
  | error e => exact KeepsDepth.nil
  | ok k1 =>
    refine KeepsDepth.append ?_ (KeepsDepth.emitted _ _)
    refine KeepsDepth.flatMap _ _ (fun i => KeepsDepth.flatMap _ _ (fun view => ?_))
    unfold Knob.computeHasModifLocks
    exact KeepsDepth.ite _ (KeepsDepth.locked_nil _) KeepsDepth.nil

theorem Knob.collectDefaultsTrace_keepsDepth (nDims : Nat) (dimension : DimSpec) :
    KeepsDepth (Knob.collectDefaultsTrace nDims dimension) := by
  unfold Knob.collectDefaultsTrace
  refine KeepsDepth.flatMap _ _ (fun i => ?_)
  split
  · exact KeepsDepth.locked_nil _
  · exact KeepsDepth.nil

theorem Knob.resetToDefaultValueTrace_keepsDepth {T : Type} [KnobPOD T] (k : Knob T)
    (dimension : DimSpec) (view : ViewSetSpec) :
    KeepsDepth (k.resetToDefaultValueTrace dimension view) := by
  unfold Knob.resetToDefaultValueTrace
  cases k.removeAnimation view dimension with
  | error e => exact KeepsDepth.nil
  | ok k1 =>
    dsimp only
    cases k1.clearExpression dimension view true with
    | error e => exact KeepsDepth.emitted _ _
    | ok k2 =>
      dsimp only
      refine KeepsDepth.append (KeepsDepth.emitted _ _) ?_
      split
      · exact KeepsDepth.nil
      · refine KeepsDepth.append (Knob.collectDefaultsTrace_keepsDepth _ _) ?_
        cases k.callResetToDefaultValue dimension view with
        | ok k4 => exact KeepsDepth.emitted _ _
        | error e => exact KeepsDepth.nil

theorem Knob.setDefaultValueTrace_keepsDepth {T : Type} [KnobPOD T] [DecidableEq T]
    (k : Knob T) (v : T) (dimension : DimSpec) :
    KeepsDepth (k.setDefaultValueTrace v dimension) := by
  unfold Knob.setDefaultValueTrace
  refine KeepsDepth.append (KeepsDepth.locked_nil _) ?_
  cases k.writeDefaultValue v dimension with
  | error e => exact KeepsDepth.nil
  | ok defs =>
    dsimp only
    refine KeepsDepth.append (Knob.resetToDefaultValueTrace_keepsDepth _ _ _) ?_
    cases Knob.callResetToDefaultValue { k with _defaultValues := defs } dimension .all with
    | error e => exact KeepsDepth.nil
    | ok k1 => exact Knob.computeHasModificationsTrace_keepsDepth k1

theorem Knob.setDefaultValueWithoutApplyingTrace_keepsDepth {T : Type} [DecidableEq T]
    (k : Knob T) (v : T) (dimension : DimSpec) :
    KeepsDepth (k.setDefaultValueWithoutApplyingTrace v dimension) := by
  unfold Knob.setDefaultValueWithoutApplyingTrace
  refine KeepsDepth.append (KeepsDepth.locked_nil _) ?_
  cases k.writeDefaultValue v dimension with
  | error e => exact KeepsDepth.nil
  | ok defs => exact Knob.computeHasModificationsTrace_keepsDepth _

set_option maxRecDepth 8000 in
/-- C31, the failing input. On the one-dimensional integer parameter, whose value and
default are 0, `setDefaultValues([1], 0)` constructs its `QMutexLocker` on `_valueMutex` in
the body of the function and calls `computeHasModifications()` before the function ends:
the modification flag of dimension 0 changes, and `s_hasModificationsChanged` is emitted
with one lock held. `setDefaultValuesWithoutApplying([1], 0)` does the same. In
`setDefaultValue`, `setDefaultValueWithoutApplying`, `setRange` and `setDisplayRange` the
locker lives in an inner block, and every notification of theirs is emitted with no lock
held, for every state and arguments. -/
theorem setDefaultValues_notifies_with_value_mutex_held :
    intKnobOneDim.setDefaultValuesTrace [1] 0
        = [.acquire .valueMutex, .acquire .valueMutex, .release .valueMutex,
            .notify .s_hasModificationsChanged, .release .valueMutex] ∧
      notifyDepths 0 (intKnobOneDim.setDefaultValuesTrace [1] 0)
        = [(.s_hasModificationsChanged, 1)] ∧
      notifyDepths 0 (intKnobOneDim.setDefaultValuesWithoutApplyingTrace [1] 0)
        = [(.s_hasModificationsChanged, 1)] ∧
      notifyDepths 0 (intKnobOneDim.setDefaultValueWithoutApplyingTrace 1 (.dim 0))
        = [(.s_hasModificationsChanged, 0)] ∧
      (∀ (T : Type) [KnobPOD T] [DecidableEq T] (k : Knob T) (v mini maxi : T)
        (dimension : DimSpec),
        (∀ p ∈ notifyDepths 0 (k.setDefaultValueTrace v dimension), p.2 = 0) ∧
        (∀ p ∈ notifyDepths 0 (k.setDefaultValueWithoutApplyingTrace v dimension), p.2 = 0) ∧
        (∀ p ∈ notifyDepths 0 (k.setRangeTrace mini maxi dimension), p.2 = 0) ∧
        (∀ p ∈ notifyDepths 0 (k.setDisplayRangeTrace mini maxi dimension), p.2 = 0)) := by
  refine ⟨rfl, rfl, rfl, rfl, ?_⟩
  intro T _ _ k v mini maxi dimension
  exact ⟨(Knob.setDefaultValueTrace_keepsDepth k v dimension 0).2,
    (Knob.setDefaultValueWithoutApplyingTrace_keepsDepth k v dimension 0).2,
    (Knob.setRangeTrace_keepsDepth k mini maxi dimension 0).2,
    (Knob.setDisplayRangeTrace_keepsDepth k mini maxi dimension 0).2⟩

end Natron
